import Mathlib

/-!
Verification of the drive-through road-stop platform manager of
src/roadstop.cpp (OpenTTD-patches).

The embedding models the world state touched by the code:
* the tile map, restricted to the station attributes read by
  `RoadStop::IsDriveThroughRoadStopContinuation` (station index, station
  type, drive-through flag, road-stop axis).  Tiles along the axis of a
  run are modelled as integers; the south-heading offset
  `TileOffsByDiagDir (AxisToDiagDir (axis))` becomes `+1`.
* the `RoadStop` records, indexed by tile (this models the
  `RoadStop::GetByTile` lookup), reduced to the two fields roadstop.cpp
  manipulates: the `RSSFB_BASE_ENTRY` status bit and the platform pointer.
* a heap of `Platform` objects addressed by handles (`Nat`), with a fresh
  handle counter; `new Platform()` allocates the next handle, `delete`
  erases the entry.
* the vehicles present on each tile, as read by the
  `VehicleTileIterator` in `RoadStop::Platform::Rebuild`.

The unbounded C++ loops walking along a run are given explicit fuel; an
operation returns `none` when fuel runs out or when a C++ precondition
whose violation would be undefined behaviour (a missing `RoadStop`
record for `GetByTile`, a NULL platform dereference) is hit.
-/

namespace RoadStopModel

/-- `TILE_SIZE` from tile_type.h: tiles are 16x16 units in size. -/
def TILE_SIZE : Nat := 16

/-- The station attributes of one map tile that
`RoadStop::IsDriveThroughRoadStopContinuation` reads: `GetStationIndex`,
`GetStationType`, `IsDriveThroughStopTile` and `GetRoadStopAxis`.  A tile
that is not a station tile is absent (`none`) from the map. -/
structure TileInfo where
  station : Nat
  stype : Nat
  isDT : Bool
  axis : Bool
deriving DecidableEq

/-- One road vehicle as seen by `RoadStop::Platform::Rebuild`.  `vid`
models the object identity (the C++ pointer) used for duplicate
elimination; `dirEast` models `v->direction == dir_east` where
`dir_east = DiagDirToDir (AxisToDiagDir (axis))` (the source asserts the
direction is either `dir_east` or its reverse). -/
structure Vehicle where
  vid : Nat
  isRoad : Bool
  isPrimary : Bool
  crashed : Bool
  inStop : Bool
  dirEast : Bool
  cachedLength : Nat
deriving DecidableEq

/-- Modelled from the spec: the `Platform` entity is declared in the
missing header roadstop_base.h; the spec gives its three fields — total
run length and the two direction-partitioned occupancy totals. -/
structure Platform where
  length : Nat
  occupied_east : Nat
  occupied_west : Nat
deriving DecidableEq

/-- Modelled from the spec: `new Platform()` (missing header
roadstop_base.h) yields a platform with zero length and zero occupancy —
the spec's "brand-new Platform" with "zero occupancy" whose length is
set afterwards. -/
def Platform.fresh : Platform := ⟨0, 0, 0⟩

/-- Modelled from the spec: the `RoadStop` record is declared in the
missing header roadstop_base.h; we keep the two fields roadstop.cpp
manipulates — the `RSSFB_BASE_ENTRY` bit of `status` (the spec's
`is_base`) and the shared platform pointer (`none` = NULL). -/
structure RoadStopRec where
  base : Bool
  platform : Option Nat
deriving DecidableEq

/-- The world state: tile map, road-stop records by tile, platform heap,
fresh-handle counter, and vehicles present on each tile. -/
@[ext] structure World where
  map : Int → Option TileInfo
  stops : Int → Option RoadStopRec
  plats : Nat → Option Platform
  nextId : Nat
  veh : Int → List Vehicle

/-- Point update of the tile map (`DoClearSquare` sets a tile to `none`). -/
def updMap (w : World) (t : Int) (v : Option TileInfo) : World :=
  { w with map := fun u => if u = t then v else w.map u }

/-- Point update of the road-stop records. -/
def updStop (w : World) (t : Int) (v : Option RoadStopRec) : World :=
  { w with stops := fun u => if u = t then v else w.stops u }

/-- Point update of the platform heap (`none` models `delete`). -/
def updPlat (w : World) (p : Nat) (v : Option Platform) : World :=
  { w with plats := fun q => if q = p then v else w.plats q }

/-- `RoadStop::IsDriveThroughRoadStopContinuation (rs, next)`:
`next` is a station tile of the same station index and station type as
`rs`, is a drive-through stop tile, and has the same road-stop axis. -/
def IsDriveThroughRoadStopContinuation (w : World) (rs next : Int) : Bool :=
  match w.map next, w.map rs with
  | some n, some r =>
      (n.station == r.station) && (n.stype == r.stype) && n.isDT && (n.axis == r.axis)
  | _, _ => false

/-- Short alias for the continuation test. -/
abbrev IsCont := IsDriveThroughRoadStopContinuation

/-- The tile-scanning loop of `Platform::Rebuild`: the consecutive run
tiles starting at `t`, walking south while the continuation test
anchored at `anchor` holds.  `none` = fuel ran out. -/
def scanTiles (w : World) (anchor : Int) : Nat → Int → Option (List Int)
  | 0, t => if IsCont w anchor t then none else some []
  | fuel+1, t =>
    if IsCont w anchor t then
      match scanTiles w anchor fuel (t + 1) with
      | none => none
      | some l => some (t :: l)
    else some []

/-- The vehicle filter of `Platform::Rebuild`: a primary, non-crashed
road vehicle whose state is at least `RVSB_IN_ROAD_STOP`. -/
def countable (v : Vehicle) : Bool :=
  v.isRoad && v.isPrimary && !v.crashed && v.inStop

/-- The duplicate check of `Platform::Rebuild`: append `v` unless a
vehicle with the same identity is already listed. -/
def addIfNew (l : List Vehicle) (v : Vehicle) : List Vehicle :=
  if l.any (fun u => u.vid == v.vid) then l else l ++ [v]

/-- Process one vehicle of the iterator: skip non-countable ones, and
put the rest on the east or west list according to its direction. -/
def addVehicle (acc : List Vehicle × List Vehicle) (v : Vehicle) : List Vehicle × List Vehicle :=
  if countable v then
    if v.dirEast then (addIfNew acc.1 v, acc.2) else (acc.1, addIfNew acc.2 v)
  else acc

/-- The vehicle-collection part of `Platform::Rebuild`: fold every
vehicle on every run tile into the east/west lists. -/
def collectVehicles (w : World) (tiles : List Int) : List Vehicle × List Vehicle :=
  tiles.foldl (fun acc t => (w.veh t).foldl addVehicle acc) ([], [])

/-- Total of `gcache.cached_total_length` over a vehicle list. -/
def sumLengths (l : List Vehicle) : Nat :=
  l.foldl (fun a v => a + v.cachedLength) 0

/-- `RoadStop::Platform::Rebuild (tile)`: scan the run anchored at
`tile`, then set length to `TILE_SIZE` per tile and the occupancy totals
to the summed cached lengths of the deduplicated east/west lists. -/
def Platform.Rebuild (w : World) (tile : Int) (fuel : Nat) : Option Platform :=
  match scanTiles w tile fuel tile with
  | none => none
  | some tiles =>
      some ⟨TILE_SIZE * tiles.length,
            sumLengths (collectVehicles w tiles).1,
            sumLengths (collectVehicles w tiles).2⟩

/-- The joining loop at the end of case A of `MakeDriveThrough`:
starting at the southern neighbour, while the continuation test anchored
at `anchor` holds, re-point each tile's record to platform `p` and count
it, stopping early at a record with a NULL platform. -/
def joinSouth (anchor : Int) (p : Nat) : Nat → World → Int → Nat → Option (World × Nat)
  | 0, w, st, added =>
    if IsCont w anchor st then none else some (w, added)
  | fuel+1, w, st, added =>
    if IsCont w anchor st then
      match w.stops st with
      | none => none
      | some rs =>
        match rs.platform with
        | none => some (w, added)
        | some _ =>
            joinSouth anchor p fuel
              (updStop w st (some { rs with platform := some p })) (st + 1) (added + 1)
    else some (w, added)

/-- `RoadStop::MakeDriveThrough`, as a state transformer on the world.
Returns the new world, or `none` on fuel exhaustion or on a lookup that
the C++ asserts cannot fail. -/
def MakeDriveThrough (w : World) (xy : Int) (fuel : Nat) : Option World :=
  match w.stops xy with
  | none => none
  | some this0 =>
    let north := IsCont w xy (xy - 1)
    let south := IsCont w xy (xy + 1)
    -- rs_north / rs_south are fetched by GetByTile exactly when the
    -- continuation test succeeded; a missing record is a fatal lookup.
    match (if north then (w.stops (xy - 1)).map some else some none),
          (if south then (w.stops (xy + 1)).map some else some none) with
    | some rsN?, some rsS? =>
      -- case B/C bodies, shared by the two fall-through paths below
      let caseBC : Option (World × Nat) :=
        match rsS? with
        | some rsS =>
          match rsS.platform with
          | some q =>
              -- there is one to the south, but not to the north: we become parent
              some (updStop (updStop w xy (some { this0 with base := true, platform := some q }))
                      (xy + 1) (some { rsS with base := false }), 1)
          | none =>
              -- we are the only one: allocate a fresh platform, become master
              some (updPlat
                      (updStop { w with nextId := w.nextId + 1 } xy
                        (some { this0 with base := true, platform := some w.nextId }))
                      w.nextId (some Platform.fresh), 1)
        | none =>
            some (updPlat
                    (updStop { w with nextId := w.nextId + 1 } xy
                      (some { this0 with base := true, platform := some w.nextId }))
                    w.nextId (some Platform.fresh), 1)
      let step : Option (World × Nat) :=
        match rsN? with
        | some rsN =>
          match rsN.platform with
          | some p =>
            -- case A: adopt the northern platform
            let w1 := updStop w xy (some { this0 with platform := some p })
            match rsS? with
            | some rsS =>
              match rsS.platform with
              | some q =>
                -- the southern run joins us: clear its base bit, add its
                -- occupancy into p, delete its platform, re-point its tiles
                let w2 := updStop w1 (xy + 1) (some { rsS with base := false })
                match w2.plats p, w2.plats q with
                | some Pp, some Pq =>
                  let w3 := updPlat w2 p (some { Pp with
                      occupied_east := Pp.occupied_east + Pq.occupied_east,
                      occupied_west := Pp.occupied_west + Pq.occupied_west })
                  let w4 := updPlat w3 q none
                  joinSouth xy p fuel w4 (xy + 1) 1
                | _, _ => none
              | none => some (w1, 1)
            | none => some (w1, 1)
          | none => caseBC
        | none => caseBC
      -- now update the lengths: this->platform->length += added * TILE_SIZE
      match step with
      | none => none
      | some (w5, added) =>
        match w5.stops xy with
        | none => none
        | some thisF =>
          match thisF.platform with
          | none => none
          | some pf =>
            match w5.plats pf with
            | none => none
            | some Pf =>
                some (updPlat w5 pf (some { Pf with length := Pf.length + added * TILE_SIZE }))
    | _, _ => none

/-- The south re-pointing loop of the split case of `ClearDriveThrough`:
make all further southern stops part of the new entry queue `p`. -/
def splitSouth (base : Int) (p : Nat) : Nat → World → Int → Option World
  | 0, w, st => if IsCont w base st then none else some w
  | fuel+1, w, st =>
    if IsCont w base st then
      match w.stops st with
      | none => none
      | some rs => splitSouth base p fuel (updStop w st (some { rs with platform := some p })) (st + 1)
    else some w

/-- The north walk of the split case of `ClearDriveThrough`: find the
northernmost tile of the northern sub-run (the last tile fetched by the
loop; `cur` is the tile of the current `rs_north`). -/
def findNorth (w : World) (base : Int) : Nat → Int → Int → Option Int
  | 0, nt, cur => if IsCont w base nt then none else some cur
  | fuel+1, nt, cur =>
    if IsCont w base nt then
      findNorth w base fuel (nt - 1) nt
    else some cur

/-- The body of `RoadStop::ClearDriveThrough` up to (but excluding) the
final two statements that reset this tile's record.
`DoClearSquare` is modelled as removing the tile from the map.  The
`rs_south_base->Rebuild()` / `rs_north->Rebuild()` calls are modelled
from the spec (the wrapper lives in the missing header roadstop_base.h):
rebuild the record's platform anchored at the record's own tile. -/
def ClearDriveThroughCore (w : World) (xy : Int) (fuel : Nat) (this0 : RoadStopRec) :
    Option World :=
    let north := IsCont w xy (xy - 1)
    let south := IsCont w xy (xy + 1)
    match (if north then (w.stops (xy - 1)).map some else some none),
          (if south then (w.stops (xy + 1)).map some else some none) with
    | some rsN?, some rsS? =>
      -- DoClearSquare: the tile leaves the map, only after the
      -- neighbour classification above
      let w1 := updMap w xy none
      let step : Option World :=
        match rsN? with
        | some _ =>
          match rsS? with
          | some rsS =>
            -- split: first make the new southern base with a new platform
            let n := w1.nextId
            let w2 := updPlat
                (updStop { w1 with nextId := n + 1 } (xy + 1)
                  (some { rsS with base := true, platform := some n }))
                n (some Platform.fresh)
            let base := xy + 1
            match splitSouth base n fuel w2 (xy + 2) with
            | none => none
            | some w3 =>
              match findNorth w3 base fuel (xy - 1) (xy - 1) with
              | none => none
              | some nb =>
                -- rs_south_base->Rebuild(): rs_south_base->platform is
                -- the platform n assigned above (the loop starts one
                -- tile further south and never touches the base record)
                match Platform.Rebuild w3 base fuel with
                | none => none
                | some PS =>
                  let w4 := updPlat w3 n (some PS)
                  -- rs_north->Rebuild()
                  match w4.stops nb with
                  | none => none
                  | some rsNB =>
                    match rsNB.platform with
                    | none => none
                    | some pN =>
                      match Platform.Rebuild w4 nb fuel with
                      | none => none
                      | some PN => some (updPlat w4 pN (some PN))
          | none =>
            -- only we are left on the southern end: update the length
            match (w1.stops (xy - 1)) with
            | none => none
            | some rsN =>
              match rsN.platform with
              | none => none
              | some p =>
                match w1.plats p with
                | none => none
                | some P => some (updPlat w1 p (some { P with length := P.length - TILE_SIZE }))
        | none =>
          match rsS? with
          | some rsS =>
            -- only something to the south: hand over the base entry
            match rsS.platform with
            | none => none
            | some p =>
              match w1.plats p with
              | none => none
              | some P =>
                  some (updPlat (updStop w1 (xy + 1) (some { rsS with base := true })) p
                          (some { P with length := P.length - TILE_SIZE }))
          | none =>
            -- we were the last: delete the platform (delete NULL is a no-op)
            match this0.platform with
            | some p => some (updPlat w1 p none)
            | none => some w1
      step
    | _, _ => none

/-- `RoadStop::ClearDriveThrough`: run the neighbour-dependent body,
then clear this tile's base bit and NULL its platform reference. -/
def ClearDriveThrough (w : World) (xy : Int) (fuel : Nat) : Option World :=
  match w.stops xy with
  | none => none
  | some this0 =>
      (ClearDriveThroughCore w xy fuel this0).map
        (fun wf => updStop wf xy (some ⟨false, none⟩))

/-- `RoadStop::~RoadStop`: when the base bit is set, delete the
referenced platform (`delete` of NULL is a no-op); the record itself is
removed from the pool. -/
def destructRoadStop (w : World) (xy : Int) : Option World :=
  match w.stops xy with
  | none => none
  | some rs =>
    let w1 :=
      if rs.base then
        match rs.platform with
        | some p => updPlat w p none
        | none => w
      else w
    some (updStop w1 xy none)

/-- The assertions of `RoadStop::CheckIntegrity`: whether each one
holds (`none` = fuel exhaustion or a NULL platform dereference). -/
def CheckIntegrityFlag (w : World) (xy : Int) (fuel : Nat) : Option Bool :=
  match w.stops xy with
  | none => none
  | some rs =>
    if rs.base then
      -- the tile before the stop must not be part of this line
      let a1 := !IsCont w xy (xy - 1)
      match rs.platform with
      | none => none
      | some p =>
        match w.plats p with
        | none => none
        | some P =>
          match Platform.Rebuild w xy fuel with
          | none => none
          | some temp =>
              some (a1 && (P.length == temp.length)
                      && (P.occupied_east == temp.occupied_east)
                      && (P.occupied_west == temp.occupied_west))
    else some true

/-- `RoadStop::CheckIntegrity`, a const method: it evaluates its
assertions (recomputing only into a stack-local temporary platform) and
leaves the world unchanged. -/
def CheckIntegrity (w : World) (xy : Int) (fuel : Nat) : Option (World × Bool) :=
  (CheckIntegrityFlag w xy fuel).map (fun b => (w, b))

/-- The tiles `s, s+1, ..., s+n-1`. -/
def tileRange (s : Int) (n : Nat) : List Int :=
  (List.range n).map (fun (i : Nat) => s + (i : Int))

/-- All vehicles present on a list of tiles, in iteration order. -/
def vehiclesOnTiles (w : World) (tiles : List Int) : List Vehicle :=
  tiles.foldr (fun t acc => w.veh t ++ acc) []

/-- The value `Platform::Rebuild` computes for a run of `n` tiles
starting at `s`, written without fuel. -/
def runRebuild (w : World) (s : Int) (n : Nat) : Platform :=
  ⟨TILE_SIZE * n,
   sumLengths (collectVehicles w (tileRange s n)).1,
   sumLengths (collectVehicles w (tileRange s n)).2⟩

/-- Re-point the records of the `k` tiles starting at `a` to platform
`p` (the result of the southern joining/splitting loops). -/
def repoint (w : World) (a : Int) (k : Nat) (p : Nat) : World :=
  { w with stops := fun u =>
      if a ≤ u ∧ u < a + (k : Int) then (w.stops u).map (fun r => { r with platform := some p })
      else w.stops u }

/-- Tiles `s, ..., s+n-1` form a maximal run: `s` is a station tile, the
continuation test links each tile to the next, and it fails off both
ends. -/
def RunAt (w : World) (s : Int) (n : Nat) : Prop :=
  1 ≤ n ∧ w.map s ≠ none ∧
  (∀ i : Nat, i + 1 < n → IsCont w (s + (i : Int)) (s + (i : Int) + 1) = true) ∧
  IsCont w s (s - 1) = false ∧
  IsCont w (s + (n : Int) - 1) (s + (n : Int)) = false

/-- The platform handle stored at the run's first record. -/
def runPlat (w : World) (s : Int) : Option Nat :=
  match w.stops s with
  | some r => r.platform
  | none => none

/-- The state invariant maintained by the attach/detach operations:
drive-through flags are set on every station tile, the station area is
bounded, records of cleared tiles are inert, every maximal run shares
one live platform with the base bit exactly on its northernmost tile
and the correct length, distinct runs own distinct platforms, and all
owned platform handles are below the allocation counter. -/
structure Inv (w : World) : Prop where
  allDT : ∀ t i, w.map t = some i → i.isDT = true
  bounded : ∃ lo hi : Int, ∀ t, t < lo ∨ hi < t → w.map t = none
  deadRec : ∀ t r, w.map t = none → w.stops t = some r → r = ⟨false, none⟩
  runs : ∀ s n, RunAt w s n → ∃ p,
    (∀ i : Nat, i < n → w.stops (s + (i : Int)) = some ⟨i == 0, some p⟩) ∧
    ∃ P, w.plats p = some P ∧ P.length = TILE_SIZE * n
  distinct : ∀ s n s' n', RunAt w s n → RunAt w s' n' → s ≠ s' →
    ∀ p p', runPlat w s = some p → runPlat w s' = some p' → p ≠ p'
  freshPlat : ∀ s n p, RunAt w s n → runPlat w s = some p → p < w.nextId

/-- The occupancy part of the invariant: every run's live platform holds
exactly the values `Platform::Rebuild` would compute from scratch. -/
def InvOcc (w : World) : Prop :=
  ∀ s n, RunAt w s n → ∀ p P, runPlat w s = some p → w.plats p = some P →
    P = runRebuild w s n

/-- One transition of the platform manager: either a tile becomes a
drive-through stop (the surrounding flow puts it on the map, creates its
record, then calls `MakeDriveThrough`), or a stop tile is demolished
(`ClearDriveThrough` is called on a record with a non-NULL platform, its
stated precondition). -/
inductive Step : World → World → Prop
  | build (w : World) (xy : Int) (info : TileInfo) (fuel : Nat) (w' : World) :
      w.map xy = none → info.isDT = true →
      MakeDriveThrough (updStop (updMap w xy (some info)) xy (some ⟨false, none⟩)) xy fuel = some w' →
      Step w w'
  | clear (w : World) (xy : Int) (r : RoadStopRec) (fuel : Nat) (w' : World) :
      w.stops xy = some r → r.platform ≠ none →
      ClearDriveThrough w xy fuel = some w' →
      Step w w'

/-- Like `Step`, with the surrounding flow's guarantee that the tile
being built or demolished hosts no vehicle that `Rebuild` would count
(the spec: "joining an empty tile cannot introduce vehicles, so the
inherited/adopted occupancy totals remain valid by construction"). -/
inductive StepV : World → World → Prop
  | build (w : World) (xy : Int) (info : TileInfo) (fuel : Nat) (w' : World) :
      w.map xy = none → info.isDT = true →
      (∀ v, v ∈ w.veh xy → countable v = false) →
      MakeDriveThrough (updStop (updMap w xy (some info)) xy (some ⟨false, none⟩)) xy fuel = some w' →
      StepV w w'
  | clear (w : World) (xy : Int) (r : RoadStopRec) (fuel : Nat) (w' : World) :
      w.stops xy = some r → r.platform ≠ none →
      (∀ v, v ∈ w.veh xy → countable v = false) →
      ClearDriveThrough w xy fuel = some w' →
      StepV w w'

/-- A state with no station tiles and no records at all: the starting
point "no drive-through runs". -/
def InitState (w : World) : Prop :=
  (∀ t, w.map t = none) ∧ (∀ t, w.stops t = none)

/-- Physical contiguity of vehicle placement: a vehicle counted on two
tiles is counted on every tile in between (a road vehicle occupies a
contiguous stretch of the map). -/
def Contig (veh : Int → List Vehicle) : Prop :=
  ∀ t1 t2 t : Int, t1 ≤ t → t ≤ t2 →
    ∀ v1 v2, v1 ∈ veh t1 → v2 ∈ veh t2 → countable v1 = true → countable v2 = true →
    v1.vid = v2.vid →
    ∃ v, v ∈ veh t ∧ countable v = true ∧ v.vid = v1.vid

/-- One-list view of the accumulation of `Platform::Rebuild`: fold a
vehicle list into an accumulator, keeping the vehicles passing `f`,
deduplicated by identity. -/
def dedupAdd (f : Vehicle → Bool) (e : List Vehicle) (l : List Vehicle) : List Vehicle :=
  l.foldl (fun e v => if f v then addIfNew e v else e) e

/-- The vehicle filter together with the east-direction test. -/
def eastCountable (v : Vehicle) : Bool := countable v && v.dirEast

/-- The vehicle filter together with the west-direction test. -/
def westCountable (v : Vehicle) : Bool := countable v && !v.dirEast

/-- A world made of one maximal run of `L` tiles at positions
`0, ..., L-1`, all sharing platform `p`, with the base bit on tile 0. -/
def lineWorld (L : Nat) (info : TileInfo) (p : Nat) (P : Platform) (nid : Nat)
    (veh : Int → List Vehicle) : World :=
  { map := fun t => if 0 ≤ t ∧ t < (L : Int) then some info else none
    stops := fun t => if 0 ≤ t ∧ t < (L : Int) then some ⟨t == 0, some p⟩ else none
    plats := fun q => if q = p then some P else none
    nextId := nid
    veh := veh }

/-- A world with two maximal runs of `m` and `n` tiles separated by the
single gap tile `m`, which is already on the map as a drive-through stop
tile and has a fresh record (the state in which `MakeDriveThrough` is
invoked on it). -/
def twoRunWorld (m n : Nat) (info : TileInfo) (p q : Nat) (P1 P2 : Platform) (nid : Nat)
    (veh : Int → List Vehicle) : World :=
  { map := fun t => if 0 ≤ t ∧ t < (m : Int) + (n : Int) + 1 then some info else none
    stops := fun t =>
      if 0 ≤ t ∧ t < (m : Int) then some ⟨t == 0, some p⟩
      else if t = (m : Int) then some ⟨false, none⟩
      else if (m : Int) < t ∧ t < (m : Int) + (n : Int) + 1 then some ⟨t == (m : Int) + 1, some q⟩
      else none
    plats := fun a => if a = p then some P1 else if a = q then some P2 else none
    nextId := nid
    veh := veh }

/-- A concrete tile-attribute value for witnesses. -/
def infoA : TileInfo := ⟨1, 2, true, false⟩

/-- A freshly built isolated stop tile, ready for `MakeDriveThrough`. -/
def buildW0 : World :=
  updStop (updMap
    { map := fun _ => none, stops := fun _ => none, plats := fun _ => none,
      nextId := 0, veh := fun _ => [] }
    0 (some ⟨1, 2, true, false⟩)) 0 (some ⟨false, none⟩)

/-- No vehicles anywhere. -/
def emptyVeh : Int → List Vehicle := fun _ => []

/-- A concrete one-run world for witnesses. -/
def sampleLine (L : Nat) : World :=
  lineWorld L infoA 0 ⟨TILE_SIZE * L, 0, 0⟩ 1 emptyVeh

/-- A sample eastbound parked road vehicle of length 8. -/
def vA : Vehicle := ⟨1, true, true, false, true, true, 8⟩

/-- A sample westbound parked road vehicle of length 5. -/
def vB : Vehicle := ⟨2, true, true, false, true, false, 5⟩

/-- A vehicle layout where `vA` spans tiles 0 and 1 and `vB` sits on
tile 1 only. -/
def vehW : Int → List Vehicle :=
  fun t => if t = 0 then [vA] else if t = 1 then [vA, vB] else []

/-- The empty world for witnesses. -/
def emptyWorld : World :=
  { map := fun _ => none, stops := fun _ => none, plats := fun _ => none,
    nextId := 0, veh := emptyVeh }

/-- The state in which the surrounding build flow invokes
`MakeDriveThrough` on a fresh stop tile: the tile is put on the map and
receives a blank road-stop record. -/
def buildWorld (w : World) (xy : Int) (info : TileInfo) : World :=
  updStop (updMap w xy (some info)) xy (some ⟨false, none⟩)

/-- The world after the first drive-through stop tile is attached at
tile 0 of the empty world (the explicit result of case C of
`MakeDriveThrough` on `buildW0`). -/
def firstStopWorld : World :=
  updPlat (updPlat (updStop { buildW0 with nextId := buildW0.nextId + 1 } 0
        (some ⟨true, some buildW0.nextId⟩))
      buildW0.nextId (some Platform.fresh))
    buildW0.nextId (some ⟨0 + 1 * TILE_SIZE, 0, 0⟩)

/-! ### Basic lemmas about the state updates -/

@[simp] lemma updMap_map (w : World) (t : Int) (v : Option TileInfo) (u : Int) :
    (updMap w t v).map u = if u = t then v else w.map u := rfl

@[simp] lemma updMap_stops (w : World) (t : Int) (v : Option TileInfo) :
    (updMap w t v).stops = w.stops := rfl

@[simp] lemma updMap_plats (w : World) (t : Int) (v : Option TileInfo) :
    (updMap w t v).plats = w.plats := rfl

@[simp] lemma updMap_nextId (w : World) (t : Int) (v : Option TileInfo) :
    (updMap w t v).nextId = w.nextId := rfl

@[simp] lemma updMap_veh (w : World) (t : Int) (v : Option TileInfo) :
    (updMap w t v).veh = w.veh := rfl

@[simp] lemma updStop_map (w : World) (t : Int) (v : Option RoadStopRec) :
    (updStop w t v).map = w.map := rfl

@[simp] lemma updStop_stops (w : World) (t : Int) (v : Option RoadStopRec) (u : Int) :
    (updStop w t v).stops u = if u = t then v else w.stops u := rfl

@[simp] lemma updStop_plats (w : World) (t : Int) (v : Option RoadStopRec) :
    (updStop w t v).plats = w.plats := rfl

@[simp] lemma updStop_nextId (w : World) (t : Int) (v : Option RoadStopRec) :
    (updStop w t v).nextId = w.nextId := rfl

@[simp] lemma updStop_veh (w : World) (t : Int) (v : Option RoadStopRec) :
    (updStop w t v).veh = w.veh := rfl

@[simp] lemma updPlat_map (w : World) (p : Nat) (v : Option Platform) :
    (updPlat w p v).map = w.map := rfl

@[simp] lemma updPlat_stops (w : World) (p : Nat) (v : Option Platform) :
    (updPlat w p v).stops = w.stops := rfl

@[simp] lemma updPlat_plats (w : World) (p : Nat) (v : Option Platform) (q : Nat) :
    (updPlat w p v).plats q = if q = p then v else w.plats q := rfl

@[simp] lemma updPlat_nextId (w : World) (p : Nat) (v : Option Platform) :
    (updPlat w p v).nextId = w.nextId := rfl

@[simp] lemma updPlat_veh (w : World) (p : Nat) (v : Option Platform) :
    (updPlat w p v).veh = w.veh := rfl

@[simp] lemma repoint_map (w : World) (a : Int) (k : Nat) (p : Nat) :
    (repoint w a k p).map = w.map := rfl

@[simp] lemma repoint_plats (w : World) (a : Int) (k : Nat) (p : Nat) :
    (repoint w a k p).plats = w.plats := rfl

@[simp] lemma repoint_nextId (w : World) (a : Int) (k : Nat) (p : Nat) :
    (repoint w a k p).nextId = w.nextId := rfl

@[simp] lemma repoint_veh (w : World) (a : Int) (k : Nat) (p : Nat) :
    (repoint w a k p).veh = w.veh := rfl

lemma repoint_stops (w : World) (a : Int) (k : Nat) (p : Nat) (u : Int) :
    (repoint w a k p).stops u =
      if a ≤ u ∧ u < a + (k : Int) then (w.stops u).map (fun r => { r with platform := some p })
      else w.stops u := rfl

/-! ### Lemmas about the continuation test -/

lemma isCont_iff (w : World) (a b : Int) :
    IsCont w a b = true ↔ ∃ ia ib, w.map a = some ia ∧ w.map b = some ib ∧
      ib.station = ia.station ∧ ib.stype = ia.stype ∧ ib.isDT = true ∧ ib.axis = ia.axis := by
  unfold IsCont IsDriveThroughRoadStopContinuation
  cases hb : w.map b <;> cases ha : w.map a <;>
    simp [Bool.and_eq_true, beq_iff_eq, and_assoc, and_comm, and_left_comm]
  constructor
  · rintro ⟨h1, h2, h3, h4⟩
    exact ⟨_, _, h1, h2, h3, h4, rfl, rfl⟩
  · rintro ⟨ia, ib, h1, h2, h3, h4, rfl, rfl⟩
    exact ⟨h1, h2, h3, h4⟩

lemma isCont_false_of_unmapped_left (w : World) (a b : Int) (h : w.map a = none) :
    IsCont w a b = false := by
  unfold IsCont IsDriveThroughRoadStopContinuation
  rw [h]
  cases w.map b <;> rfl

lemma isCont_false_of_unmapped_right (w : World) (a b : Int) (h : w.map b = none) :
    IsCont w a b = false := by
  unfold IsCont IsDriveThroughRoadStopContinuation
  rw [h]

lemma isCont_mapped_left (w : World) (a b : Int) (h : IsCont w a b = true) :
    w.map a ≠ none := by
  intro hn
  rw [isCont_false_of_unmapped_left w a b hn] at h
  exact Bool.noConfusion h

lemma isCont_mapped_right (w : World) (a b : Int) (h : IsCont w a b = true) :
    w.map b ≠ none := by
  intro hn
  rw [isCont_false_of_unmapped_right w a b hn] at h
  exact Bool.noConfusion h

/-- The anchor of the continuation test can be moved to any tile that is
itself a continuation of the anchor: both have matching attributes. -/
lemma isCont_shift (w : World) (a b : Int) (h : IsCont w a b = true) (c : Int) :
    IsCont w b c = IsCont w a c := by
  obtain ⟨ia, ib, ha, hb, h1, h2, _, h4⟩ := (isCont_iff w a b).mp h
  unfold IsCont IsDriveThroughRoadStopContinuation
  rw [ha, hb]
  cases w.map c with
  | none => rfl
  | some ic => simp [h1, h2, h4]

lemma isCont_trans (w : World) (a b c : Int) (hab : IsCont w a b = true)
    (hbc : IsCont w b c = true) : IsCont w a c = true := by
  rw [← isCont_shift w a b hab]
  exact hbc

/-- Among drive-through tiles the continuation test is symmetric. -/
lemma isCont_symm (w : World) (hDT : ∀ t i, w.map t = some i → i.isDT = true) (a b : Int) :
    IsCont w a b = IsCont w b a := by
  apply Bool.eq_iff_iff.mpr
  rw [isCont_iff, isCont_iff]
  constructor
  · rintro ⟨ia, ib, ha, hb, h1, h2, h3, h4⟩
    exact ⟨ib, ia, hb, ha, h1.symm, h2.symm, hDT a ia ha, h4.symm⟩
  · rintro ⟨ib, ia, hb, ha, h1, h2, h3, h4⟩
    exact ⟨ia, ib, ha, hb, h1.symm, h2.symm, hDT b ib hb, h4.symm⟩

/-- A tile that is a continuation of a drive-through anchor continues
itself. -/
lemma isCont_self_of_cont (w : World) (a b : Int) (h : IsCont w a b = true) :
    IsCont w b b = true := by
  obtain ⟨ia, ib, ha, hb, h1, h2, h3, h4⟩ := (isCont_iff w a b).mp h
  exact (isCont_iff w b b).mpr ⟨ib, ib, hb, hb, rfl, rfl, h3, rfl⟩

lemma isCont_self (w : World) (a : Int) (ia : TileInfo) (ha : w.map a = some ia)
    (hDT : ia.isDT = true) : IsCont w a a = true :=
  (isCont_iff w a a).mpr ⟨ia, ia, ha, ha, rfl, rfl, hDT, rfl⟩

/-- The continuation test only reads the tile map. -/
lemma isCont_congr (w w' : World) (h : w.map = w'.map) (a b : Int) :
    IsCont w a b = IsCont w' a b := by
  unfold IsCont IsDriveThroughRoadStopContinuation
  rw [h]

/-! ### Lemmas about the run walks -/

lemma tileRange_zero (t : Int) : tileRange t 0 = [] := rfl

lemma tileRange_succ (t : Int) (k : Nat) :
    tileRange t (k + 1) = t :: tileRange (t + 1) k := by
  unfold tileRange
  rw [List.range_succ_eq_map]
  rw [List.map_cons, List.map_map]
  congr 1
  · simp
  · apply List.map_congr_left
    intro i _
    simp only [Function.comp_apply]
    push_cast
    ring

lemma tileRange_length (t : Int) (k : Nat) : (tileRange t k).length = k := by
  unfold tileRange
  rw [List.length_map, List.length_range]

lemma mem_tileRange (t : Int) (k : Nat) (u : Int) :
    u ∈ tileRange t k ↔ t ≤ u ∧ u < t + (k : Int) := by
  induction k generalizing t with
  | zero =>
      rw [tileRange_zero]
      constructor
      · intro h
        exact absurd h (List.not_mem_nil u)
      · intro ⟨h1, h2⟩
        exfalso
        push_cast at h2
        omega
  | succ k ih =>
      rw [tileRange_succ, List.mem_cons, ih (t + 1)]
      push_cast
      constructor
      · rintro (rfl | ⟨h1, h2⟩) <;> omega
      · intro ⟨h1, h2⟩
        by_cases hu : u = t
        · exact Or.inl hu
        · exact Or.inr (by omega)

/-- The scanning loop of `Rebuild` returns exactly the `k` continuation
tiles when the test fails right after them. -/
lemma scanTiles_spec (w : World) (anchor : Int) (k : Nat) :
    ∀ (t : Int) (fuel : Nat),
    (∀ i : Nat, i < k → IsCont w anchor (t + (i : Int)) = true) →
    IsCont w anchor (t + (k : Int)) = false →
    k < fuel →
    scanTiles w anchor fuel t = some (tileRange t k) := by
  induction k with
  | zero =>
      intro t fuel _ he hf
      match fuel, hf with
      | f + 1, _ =>
        unfold scanTiles
        have : IsCont w anchor t = false := by simpa using he
        rw [this]
        rfl
  | succ k ih =>
      intro t fuel hc he hf
      match fuel, hf with
      | f + 1, hf =>
        unfold scanTiles
        have h0 : IsCont w anchor t = true := by simpa using hc 0 (Nat.succ_pos k)
        rw [h0]
        have hrec : scanTiles w anchor f (t + 1) = some (tileRange (t + 1) k) := by
          apply ih
          · intro i hi
            have := hc (i + 1) (by omega)
            convert this using 2
            push_cast
            ring
          · convert he using 2
            push_cast
            ring
          · omega
        rw [hrec, tileRange_succ]
        rfl

/-- `Platform::Rebuild` over a fully characterised run. -/
lemma rebuild_eq_runRebuild (w : World) (s : Int) (n fuel : Nat)
    (hc : ∀ i : Nat, i < n → IsCont w s (s + (i : Int)) = true)
    (he : IsCont w s (s + (n : Int)) = false)
    (hf : n < fuel) :
    Platform.Rebuild w s fuel = some (runRebuild w s n) := by
  unfold Platform.Rebuild
  rw [scanTiles_spec w s n s fuel hc he hf]
  show some ⟨TILE_SIZE * (tileRange s n).length,
        sumLengths (collectVehicles w (tileRange s n)).1,
        sumLengths (collectVehicles w (tileRange s n)).2⟩ = some (runRebuild w s n)
  unfold runRebuild
  rw [tileRange_length]

lemma repoint_zero (w : World) (a : Int) (p : Nat) : repoint w a 0 p = w := by
  have hs : (fun u => if a ≤ u ∧ u < a + ((0 : Nat) : Int)
      then (w.stops u).map (fun r => { r with platform := some p })
      else w.stops u) = w.stops := by
    funext u
    rw [if_neg (by push_cast; omega)]
  unfold repoint
  rw [hs]

lemma repoint_shift (w : World) (st : Int) (k : Nat) (p : Nat) (r : RoadStopRec)
    (hr : w.stops st = some r) :
    repoint (updStop w st (some { r with platform := some p })) (st + 1) k p =
      repoint w st (k + 1) p := by
  apply World.ext
  · rfl
  · funext u
    show (if st + 1 ≤ u ∧ u < st + 1 + (k : Int)
        then ((updStop w st (some { r with platform := some p })).stops u).map
          (fun r => { r with platform := some p })
        else (updStop w st (some { r with platform := some p })).stops u) =
      (if st ≤ u ∧ u < st + ((k + 1 : Nat) : Int)
        then (w.stops u).map (fun r => { r with platform := some p }) else w.stops u)
    by_cases hu : u = st
    · subst hu
      have hL : ¬(u + 1 ≤ u ∧ u < u + 1 + (k : Int)) := by omega
      have hR : u ≤ u ∧ u < u + ((k + 1 : Nat) : Int) := by push_cast; omega
      rw [if_neg hL, if_pos hR]
      show (if u = u then (some { r with platform := some p }) else w.stops u) =
        (w.stops u).map (fun r => { r with platform := some p })
      rw [if_pos rfl, hr]
      rfl
    · have hstops : (updStop w st (some { r with platform := some p })).stops u = w.stops u := by
        show (if u = st then _ else w.stops u) = w.stops u
        rw [if_neg hu]
      by_cases h1 : st + 1 ≤ u ∧ u < st + 1 + (k : Int)
      · have hR : st ≤ u ∧ u < st + ((k + 1 : Nat) : Int) := by push_cast; omega
        rw [if_pos h1, if_pos hR, hstops]
      · have hR : ¬(st ≤ u ∧ u < st + ((k + 1 : Nat) : Int)) := by
          push_cast at h1 ⊢
          omega
        rw [if_neg h1, if_neg hR, hstops]
  · rfl
  · rfl
  · rfl

/-- The joining loop of `MakeDriveThrough`: over `k` continuation tiles
whose records all have a platform, it re-points all of them and adds
`k` to the counter. -/
lemma joinSouth_spec (anchor : Int) (p : Nat) (k : Nat) :
    ∀ (w : World) (st : Int) (added fuel : Nat),
    (∀ i : Nat, i < k → IsCont w anchor (st + (i : Int)) = true) →
    IsCont w anchor (st + (k : Int)) = false →
    (∀ i : Nat, i < k → ∃ r, w.stops (st + (i : Int)) = some r ∧ r.platform ≠ none) →
    k < fuel →
    joinSouth anchor p fuel w st added = some (repoint w st k p, added + k) := by
  induction k with
  | zero =>
      intro w st added fuel _ he _ hf
      match fuel, hf with
      | f + 1, _ =>
        unfold joinSouth
        have h0 : IsCont w anchor st = false := by simpa using he
        rw [h0, repoint_zero]
        rfl
  | succ k ih =>
      intro w st added fuel hc he hrec hf
      match fuel, hf with
      | f + 1, hf =>
        have h0 : IsCont w anchor st = true := by simpa using hc 0 (Nat.succ_pos k)
        obtain ⟨r, hr, hrp⟩ : ∃ r, w.stops st = some r ∧ r.platform ≠ none := by
          simpa using hrec 0 (Nat.succ_pos k)
        obtain ⟨rb, rp⟩ := r
        obtain ⟨q, hq⟩ : ∃ q, rp = some q := by
          cases hx : rp with
          | none => rw [hx] at hrp; exact absurd rfl hrp
          | some q => exact ⟨q, rfl⟩
        subst hq
        have hrec2 : joinSouth anchor p f
            (updStop w st (some ⟨rb, some p⟩)) (st + 1) (added + 1) =
            some (repoint (updStop w st (some ⟨rb, some p⟩)) (st + 1) k p,
                  (added + 1) + k) := by
          apply ih
          · intro i hi
            have := hc (i + 1) (by omega)
            rw [show IsCont (updStop w st (some ⟨rb, some p⟩)) anchor
                  (st + 1 + (i : Int)) = IsCont w anchor (st + 1 + (i : Int)) from rfl]
            convert this using 2
            push_cast
            ring
          · rw [show IsCont (updStop w st (some ⟨rb, some p⟩)) anchor
                  (st + 1 + (k : Int)) = IsCont w anchor (st + 1 + (k : Int)) from rfl]
            convert he using 2
            push_cast
            ring
          · intro i hi
            have hne : st + 1 + (i : Int) ≠ st := by omega
            obtain ⟨r', hr', hrp'⟩ := hrec (i + 1) (by omega)
            refine ⟨r', ?_, hrp'⟩
            rw [updStop_stops, if_neg hne]
            convert hr' using 2
            push_cast
            ring
          · omega
        unfold joinSouth
        rw [h0, hr]
        show joinSouth anchor p f
            (updStop w st (some ⟨rb, some p⟩)) (st + 1) (added + 1) =
          some (repoint w st (k + 1) p, added + (k + 1))
        rw [hrec2, repoint_shift w st k p ⟨rb, some q⟩ hr]
        congr 2
        omega

/-- The south re-pointing loop of the split case of
`ClearDriveThrough`. -/
lemma splitSouth_spec (base : Int) (p : Nat) (k : Nat) :
    ∀ (w : World) (st : Int) (fuel : Nat),
    (∀ i : Nat, i < k → IsCont w base (st + (i : Int)) = true) →
    IsCont w base (st + (k : Int)) = false →
    (∀ i : Nat, i < k → ∃ r, w.stops (st + (i : Int)) = some r) →
    k < fuel →
    splitSouth base p fuel w st = some (repoint w st k p) := by
  induction k with
  | zero =>
      intro w st fuel _ he _ hf
      match fuel, hf with
      | f + 1, _ =>
        unfold splitSouth
        have h0 : IsCont w base st = false := by simpa using he
        rw [h0, repoint_zero]
        rfl
  | succ k ih =>
      intro w st fuel hc he hrec hf
      match fuel, hf with
      | f + 1, hf =>
        have h0 : IsCont w base st = true := by simpa using hc 0 (Nat.succ_pos k)
        obtain ⟨r, hr⟩ : ∃ r, w.stops st = some r := by
          simpa using hrec 0 (Nat.succ_pos k)
        obtain ⟨rb, rp⟩ := r
        have hrec2 : splitSouth base p f
            (updStop w st (some ⟨rb, some p⟩)) (st + 1) =
            some (repoint (updStop w st (some ⟨rb, some p⟩)) (st + 1) k p) := by
          apply ih
          · intro i hi
            have := hc (i + 1) (by omega)
            rw [show IsCont (updStop w st (some ⟨rb, some p⟩)) base
                  (st + 1 + (i : Int)) = IsCont w base (st + 1 + (i : Int)) from rfl]
            convert this using 2
            push_cast
            ring
          · rw [show IsCont (updStop w st (some ⟨rb, some p⟩)) base
                  (st + 1 + (k : Int)) = IsCont w base (st + 1 + (k : Int)) from rfl]
            convert he using 2
            push_cast
            ring
          · intro i hi
            have hne : st + 1 + (i : Int) ≠ st := by omega
            obtain ⟨r', hr'⟩ := hrec (i + 1) (by omega)
            refine ⟨r', ?_⟩
            rw [updStop_stops, if_neg hne]
            convert hr' using 2
            push_cast
            ring
          · omega
        unfold splitSouth
        rw [h0, hr]
        show splitSouth base p f (updStop w st (some ⟨rb, some p⟩)) (st + 1) =
          some (repoint w st (k + 1) p)
        rw [hrec2, repoint_shift w st k p ⟨rb, rp⟩ hr]

/-- The north walk of the split case of `ClearDriveThrough`: it stops at
the northernmost continuation tile. -/
lemma findNorth_spec (w : World) (base : Int) (k : Nat) :
    ∀ (nt cur : Int) (fuel : Nat),
    (∀ i : Nat, i < k → IsCont w base (nt - (i : Int)) = true) →
    IsCont w base (nt - (k : Int)) = false →
    k < fuel →
    findNorth w base fuel nt cur = some (if k = 0 then cur else nt - (k : Int) + 1) := by
  induction k with
  | zero =>
      intro nt cur fuel _ he hf
      match fuel, hf with
      | f + 1, _ =>
        unfold findNorth
        have h0 : IsCont w base nt = false := by simpa using he
        rw [h0]
        rfl
  | succ k ih =>
      intro nt cur fuel hc he hf
      match fuel, hf with
      | f + 1, hf =>
        have h0 : IsCont w base nt = true := by simpa using hc 0 (Nat.succ_pos k)
        have hrec : findNorth w base f (nt - 1) nt =
            some (if k = 0 then nt else nt - 1 - (k : Int) + 1) := by
          apply ih
          · intro i hi
            have := hc (i + 1) (by omega)
            convert this using 2
            push_cast
            ring
          · convert he using 2
            push_cast
            ring
          · omega
        unfold findNorth
        rw [h0]
        show findNorth w base f (nt - 1) nt =
          some (if k + 1 = 0 then cur else nt - ((k + 1 : Nat) : Int) + 1)
        rw [hrec, if_neg (Nat.succ_ne_zero k)]
        by_cases hk : k = 0
        · subst hk
          show some nt = some (nt - ((1 : Nat) : Int) + 1)
          congr 1
          push_cast
          ring
        · rw [if_neg hk]
          congr 1
          push_cast
          ring

/-! ### Symbolic execution of MakeDriveThrough -/

/-- Case C of `MakeDriveThrough`: no neighbour offers a platform, so a
fresh platform is allocated, the base bit set and the length set to one
tile. -/
lemma mdt_caseC (w : World) (xy : Int) (fuel : Nat) (this0 : RoadStopRec)
    (h0 : w.stops xy = some this0)
    (hN : IsCont w xy (xy - 1) = true → ∃ r, w.stops (xy - 1) = some r ∧ r.platform = none)
    (hS : IsCont w xy (xy + 1) = true → ∃ r, w.stops (xy + 1) = some r ∧ r.platform = none) :
    MakeDriveThrough w xy fuel =
      some (updPlat (updPlat (updStop { w with nextId := w.nextId + 1 } xy
                (some ⟨true, some w.nextId⟩))
              w.nextId (some Platform.fresh))
            w.nextId (some ⟨0 + 1 * TILE_SIZE, 0, 0⟩)) := by
  cases hnb : IsCont w xy (xy - 1) with
  | false =>
      cases hsb : IsCont w xy (xy + 1) with
      | false =>
          simp [MakeDriveThrough, h0, hnb, hsb, Platform.fresh, updStop, updPlat]
      | true =>
          obtain ⟨rS, hrS, hrSp⟩ := hS hsb
          simp [MakeDriveThrough, h0, hnb, hsb, hrS, hrSp, Platform.fresh, updStop, updPlat]
  | true =>
      obtain ⟨rN, hrN, hrNp⟩ := hN hnb
      cases hsb : IsCont w xy (xy + 1) with
      | false =>
          simp [MakeDriveThrough, h0, hnb, hsb, hrN, hrNp, Platform.fresh, updStop, updPlat]
      | true =>
          obtain ⟨rS, hrS, hrSp⟩ := hS hsb
          simp [MakeDriveThrough, h0, hnb, hsb, hrN, hrNp, hrS, hrSp, Platform.fresh,
            updStop, updPlat]

/-- Case B of `MakeDriveThrough`: no usable northern neighbour, a
southern neighbour with a platform: adopt it, become the base, demote
the southern tile, extend the length by one tile. -/
lemma mdt_caseB (w : World) (xy : Int) (fuel : Nat) (this0 rsS : RoadStopRec) (q : Nat)
    (Pq : Platform)
    (h0 : w.stops xy = some this0)
    (hN : IsCont w xy (xy - 1) = true → ∃ r, w.stops (xy - 1) = some r ∧ r.platform = none)
    (hsb : IsCont w xy (xy + 1) = true)
    (hrS : w.stops (xy + 1) = some rsS)
    (hrSq : rsS.platform = some q)
    (hPq : w.plats q = some Pq) :
    MakeDriveThrough w xy fuel =
      some (updPlat (updStop (updStop w xy (some ⟨true, some q⟩)) (xy + 1)
              (some ⟨false, some q⟩))
            q (some ⟨Pq.length + 1 * TILE_SIZE, Pq.occupied_east, Pq.occupied_west⟩)) := by
  have hne : ¬(xy = xy + 1) := by omega
  cases hnb : IsCont w xy (xy - 1) with
  | false =>
      simp [MakeDriveThrough, h0, hnb, hsb, hrS, hrSq, hPq, hne, updStop, updPlat]
  | true =>
      obtain ⟨rN, hrN, hrNp⟩ := hN hnb
      simp [MakeDriveThrough, h0, hnb, hsb, hrN, hrNp, hrS, hrSq, hPq, hne, updStop, updPlat]

/-- Case A of `MakeDriveThrough` without a merge: adopt the northern
platform and extend its length by one tile. -/
lemma mdt_caseA (w : World) (xy : Int) (fuel : Nat) (this0 rsN : RoadStopRec) (p : Nat)
    (Pp : Platform)
    (h0 : w.stops xy = some this0)
    (hnb : IsCont w xy (xy - 1) = true)
    (hrN : w.stops (xy - 1) = some rsN)
    (hrNp : rsN.platform = some p)
    (hS : IsCont w xy (xy + 1) = true → ∃ r, w.stops (xy + 1) = some r ∧ r.platform = none)
    (hPp : w.plats p = some Pp) :
    MakeDriveThrough w xy fuel =
      some (updPlat (updStop w xy (some ⟨this0.base, some p⟩))
            p (some ⟨Pp.length + 1 * TILE_SIZE, Pp.occupied_east, Pp.occupied_west⟩)) := by
  cases hsb : IsCont w xy (xy + 1) with
  | false =>
      simp [MakeDriveThrough, h0, hnb, hsb, hrN, hrNp, hPp, updStop, updPlat]
  | true =>
      obtain ⟨rS, hrS, hrSp⟩ := hS hsb
      simp [MakeDriveThrough, h0, hnb, hsb, hrN, hrNp, hrS, hrSp, hPp, updStop, updPlat]

/-- The merge case of `MakeDriveThrough`: both neighbours hold
platforms; the southern run (of `nS` tiles, counted from the southern
neighbour) is absorbed into the northern platform. -/
lemma mdt_merge (w : World) (xy : Int) (fuel : Nat) (this0 rsN rsS : RoadStopRec)
    (p q : Nat) (Pp Pq : Platform) (nS : Nat)
    (h0 : w.stops xy = some this0)
    (hnb : IsCont w xy (xy - 1) = true)
    (hrN : w.stops (xy - 1) = some rsN)
    (hrNp : rsN.platform = some p)
    (hsb : IsCont w xy (xy + 1) = true)
    (hrS : w.stops (xy + 1) = some rsS)
    (hrSq : rsS.platform = some q)
    (hPp : w.plats p = some Pp)
    (hPq : w.plats q = some Pq)
    (hpq : p ≠ q)
    (hcr : ∀ i : Nat, i < nS → IsCont w xy (xy + 1 + (i : Int)) = true)
    (hce : IsCont w xy (xy + 1 + (nS : Int)) = false)
    (hrecs : ∀ i : Nat, i < nS → ∃ r, w.stops (xy + 1 + (i : Int)) = some r ∧ r.platform ≠ none)
    (hfuel : nS < fuel) :
    MakeDriveThrough w xy fuel =
      some (updPlat
              (repoint
                (updPlat
                  (updPlat
                    (updStop (updStop w xy (some ⟨this0.base, some p⟩)) (xy + 1)
                      (some ⟨false, some q⟩))
                    p (some ⟨Pp.length,
                             Pp.occupied_east + Pq.occupied_east,
                             Pp.occupied_west + Pq.occupied_west⟩))
                  q none)
                (xy + 1) nS p)
              p (some ⟨Pp.length + (1 + nS) * TILE_SIZE,
                       Pp.occupied_east + Pq.occupied_east,
                       Pp.occupied_west + Pq.occupied_west⟩)) := by
  have hne : ¬(xy = xy + 1) := by omega
  have hjoin := joinSouth_spec xy p nS
      (updPlat
        (updPlat
          (updStop (updStop w xy (some ⟨this0.base, some p⟩)) (xy + 1)
            (some ⟨false, some q⟩))
          p (some ⟨Pp.length,
                   Pp.occupied_east + Pq.occupied_east,
                   Pp.occupied_west + Pq.occupied_west⟩))
        q none)
      (xy + 1) 1 fuel
      (by intro i hi; exact hcr i hi)
      hce
      (by
        intro i hi
        by_cases hi0 : i = 0
        · subst hi0
          refine ⟨⟨false, some q⟩, ?_, by simp⟩
          show (if xy + 1 + ((0 : Nat) : Int) = xy + 1 then (some ⟨false, some q⟩)
            else (if xy + 1 + ((0 : Nat) : Int) = xy then some ⟨this0.base, some p⟩
                  else w.stops (xy + 1 + ((0 : Nat) : Int)))) = some ⟨false, some q⟩
          rw [if_pos (by push_cast; ring)]
        · obtain ⟨r, hr, hrp⟩ := hrecs i hi
          refine ⟨r, ?_, hrp⟩
          have hne1 : ¬(xy + 1 + (i : Int) = xy + 1) := by omega
          have hne2 : ¬(xy + 1 + (i : Int) = xy) := by omega
          show (if xy + 1 + (i : Int) = xy + 1 then (some ⟨false, some q⟩)
            else (if xy + 1 + (i : Int) = xy then some ⟨this0.base, some p⟩
                  else w.stops (xy + 1 + (i : Int)))) = some r
          rw [if_neg hne1, if_neg hne2]
          exact hr)
      hfuel
  have hA : ¬(xy + 1 ≤ xy ∧ xy < xy + 1 + (nS : Int)) := by omega
  simp only [MakeDriveThrough, h0, hnb, hsb, hrS, hrN, hrNp, hrSq, Option.map_some,
    Option.map_some', eq_self_iff_true, if_true, updStop_plats, updStop_stops, hPp, hPq]
  rw [hjoin]
  simp only [repoint_stops, hA, if_neg, updPlat_stops, updStop_stops, if_neg hne,
    repoint_plats, updPlat_plats]
  have hqp : ¬(p = q) := hpq
  simp [hne, hqp, updStop, updPlat, repoint]

/-! ### Symbolic execution of ClearDriveThrough -/

/-- Case D of `ClearDriveThrough`: no continuation on either side; the
platform is deleted and the tile reset. -/
lemma cdt_sole (w : World) (xy : Int) (fuel : Nat) (this0 : RoadStopRec) (p : Nat)
    (h0 : w.stops xy = some this0)
    (hp : this0.platform = some p)
    (hnb : IsCont w xy (xy - 1) = false)
    (hsb : IsCont w xy (xy + 1) = false) :
    ClearDriveThrough w xy fuel =
      some (updStop (updPlat (updMap w xy none) p none) xy (some ⟨false, none⟩)) := by
  simp [ClearDriveThrough, ClearDriveThroughCore, h0, hp, hnb, hsb, updStop, updPlat, updMap]

/-- Case B of `ClearDriveThrough`: only a northern continuation; the
run shrinks from its southern end, the shared platform's length drops by
one tile, nothing else changes. -/
lemma cdt_shrinkN (w : World) (xy : Int) (fuel : Nat) (this0 rsN : RoadStopRec) (p : Nat)
    (P : Platform)
    (h0 : w.stops xy = some this0)
    (hnb : IsCont w xy (xy - 1) = true)
    (hrN : w.stops (xy - 1) = some rsN)
    (hsb : IsCont w xy (xy + 1) = false)
    (hrNp : rsN.platform = some p)
    (hP : w.plats p = some P) :
    ClearDriveThrough w xy fuel =
      some (updStop (updPlat (updMap w xy none) p
              (some ⟨P.length - TILE_SIZE, P.occupied_east, P.occupied_west⟩))
            xy (some ⟨false, none⟩)) := by
  simp [ClearDriveThrough, ClearDriveThroughCore, h0, hnb, hsb, hrN, hrNp, hP,
    updStop, updPlat, updMap]

/-- Case C of `ClearDriveThrough`: only a southern continuation; the
southern neighbour inherits the base bit and the shared platform's
length drops by one tile. -/
lemma cdt_shrinkS (w : World) (xy : Int) (fuel : Nat) (this0 rsS : RoadStopRec) (p : Nat)
    (P : Platform)
    (h0 : w.stops xy = some this0)
    (hnb : IsCont w xy (xy - 1) = false)
    (hsb : IsCont w xy (xy + 1) = true)
    (hrS : w.stops (xy + 1) = some rsS)
    (hrSp : rsS.platform = some p)
    (hP : w.plats p = some P) :
    ClearDriveThrough w xy fuel =
      some (updStop (updPlat (updStop (updMap w xy none) (xy + 1)
                (some ⟨true, some p⟩))
              p (some ⟨P.length - TILE_SIZE, P.occupied_east, P.occupied_west⟩))
            xy (some ⟨false, none⟩)) := by
  have hrS' : rsS = ⟨rsS.base, some p⟩ := by
    cases rsS
    simp at hrSp
    rw [hrSp]
  simp [ClearDriveThrough, ClearDriveThroughCore, h0, hnb, hsb, hrS, hrSp, hP,
    updStop, updPlat, updMap]

/-- `runRebuild` only reads the vehicle map. -/
lemma runRebuild_eq_of_veh (w w' : World) (h : w.veh = w'.veh) (s : Int) (n : Nat) :
    runRebuild w s n = runRebuild w' s n := by
  unfold runRebuild collectVehicles
  rw [h]

/-- Case A of `ClearDriveThrough`: continuations on both sides, so the
run splits.  The southern neighbour becomes the base of a fresh platform
re-pointed over the `kS` further southern tiles and rebuilt from
scratch; the northern sub-run of `kN` tiles keeps its platform, also
rebuilt from scratch.  All continuation conditions are relative to the
cleared map `updMap w xy none`. -/
lemma cdt_split (w : World) (xy : Int) (fuel : Nat) (this0 rsN rsS rsNB : RoadStopRec)
    (pN : Nat) (kS kN : Nat)
    (h0 : w.stops xy = some this0)
    (hnb : IsCont w xy (xy - 1) = true)
    (hrN : w.stops (xy - 1) = some rsN)
    (hsb : IsCont w xy (xy + 1) = true)
    (hrS : w.stops (xy + 1) = some rsS)
    (hself : IsCont (updMap w xy none) (xy + 1) (xy + 1) = true)
    (hcs : ∀ i : Nat, i < kS → IsCont (updMap w xy none) (xy + 1) (xy + 2 + (i : Int)) = true)
    (hceS : IsCont (updMap w xy none) (xy + 1) (xy + 2 + (kS : Int)) = false)
    (hrecS : ∀ i : Nat, i < kS → ∃ r, w.stops (xy + 2 + (i : Int)) = some r)
    (hcn : ∀ i : Nat, i < kN → IsCont (updMap w xy none) (xy + 1) (xy - 1 - (i : Int)) = true)
    (hceN : IsCont (updMap w xy none) (xy + 1) (xy - 1 - (kN : Int)) = false)
    (hkN : 1 ≤ kN)
    (hNB : w.stops (xy - (kN : Int)) = some rsNB)
    (hNBp : rsNB.platform = some pN)
    (hcn2 : ∀ i : Nat, i < kN →
      IsCont (updMap w xy none) (xy - (kN : Int)) (xy - (kN : Int) + (i : Int)) = true)
    (hceN2 : IsCont (updMap w xy none) (xy - (kN : Int)) (xy - (kN : Int) + (kN : Int)) = false)
    (hf1 : kS + 1 < fuel)
    (hf2 : kN < fuel) :
    ClearDriveThrough w xy fuel =
      some (updStop
        (updPlat
          (updPlat
            (repoint
              (updPlat
                (updStop { updMap w xy none with nextId := w.nextId + 1 } (xy + 1)
                  (some ⟨true, some w.nextId⟩))
                w.nextId (some Platform.fresh))
              (xy + 2) kS w.nextId)
            w.nextId
            (some (runRebuild (updMap w xy none) (xy + 1) (1 + kS))))
          pN
          (some (runRebuild (updMap w xy none) (xy - (kN : Int)) kN)))
        xy (some ⟨false, none⟩)) := by
  have hW2 :
      (updPlat
        (updStop { updMap w xy none with nextId := w.nextId + 1 } (xy + 1)
          (some ⟨true, some w.nextId⟩))
        w.nextId (some Platform.fresh)).map = (updMap w xy none).map := rfl
  have hsplit := splitSouth_spec (xy + 1) w.nextId kS
      (updPlat
        (updStop { updMap w xy none with nextId := w.nextId + 1 } (xy + 1)
          (some ⟨true, some w.nextId⟩))
        w.nextId (some Platform.fresh))
      (xy + 2) fuel
      (by intro i hi; exact hcs i hi)
      hceS
      (by
        intro i hi
        obtain ⟨r, hr⟩ := hrecS i hi
        refine ⟨r, ?_⟩
        have hne1 : ¬(xy + 2 + (i : Int) = xy + 1) := by omega
        show (if xy + 2 + (i : Int) = xy + 1 then (some ⟨true, some w.nextId⟩)
          else (updMap w xy none).stops (xy + 2 + (i : Int))) = some r
        rw [if_neg hne1]
        exact hr)
      (by omega)
  have hfind := findNorth_spec
      (repoint
        (updPlat
          (updStop { updMap w xy none with nextId := w.nextId + 1 } (xy + 1)
            (some ⟨true, some w.nextId⟩))
          w.nextId (some Platform.fresh))
        (xy + 2) kS w.nextId)
      (xy + 1) kN (xy - 1) (xy - 1) fuel
      (by intro i hi; exact hcn i hi)
      hceN
      (by omega)
  have hrbS := rebuild_eq_runRebuild
      (repoint
        (updPlat
          (updStop { updMap w xy none with nextId := w.nextId + 1 } (xy + 1)
            (some ⟨true, some w.nextId⟩))
          w.nextId (some Platform.fresh))
        (xy + 2) kS w.nextId)
      (xy + 1) (1 + kS) fuel
      (by
        intro i hi
        show IsCont (updMap w xy none) (xy + 1) (xy + 1 + (i : Int)) = true
        cases i with
        | zero => simpa using hself
        | succ j =>
            have := hcs j (by omega)
            convert this using 2
            push_cast
            ring)
      (by
        show IsCont (updMap w xy none) (xy + 1) (xy + 1 + ((1 + kS : Nat) : Int)) = false
        convert hceS using 2
        push_cast
        ring)
      (by omega)
  have hrbN := rebuild_eq_runRebuild
      (updPlat
        (repoint
          (updPlat
            (updStop { updMap w xy none with nextId := w.nextId + 1 } (xy + 1)
              (some ⟨true, some w.nextId⟩))
            w.nextId (some Platform.fresh))
          (xy + 2) kS w.nextId)
        w.nextId
        (some (runRebuild (updMap w xy none) (xy + 1) (1 + kS))))
      (xy - (kN : Int)) kN fuel
      (by
        intro i hi
        show IsCont (updMap w xy none) (xy - (kN : Int)) (xy - (kN : Int) + (i : Int)) = true
        exact hcn2 i hi)
      (by
        show IsCont (updMap w xy none) (xy - (kN : Int)) (xy - (kN : Int) + ((kN : Nat) : Int)) =
          false
        exact hceN2)
      (by omega)
  have hidx : xy - 1 - (kN : Int) + 1 = xy - (kN : Int) := by ring
  have hv1 : runRebuild
      (repoint
        (updPlat
          (updStop { updMap w xy none with nextId := w.nextId + 1 } (xy + 1)
            (some ⟨true, some w.nextId⟩))
          w.nextId (some Platform.fresh))
        (xy + 2) kS w.nextId)
      (xy + 1) (1 + kS) = runRebuild (updMap w xy none) (xy + 1) (1 + kS) :=
    runRebuild_eq_of_veh _ _ rfl _ _
  have hv2 : runRebuild
      (updPlat
        (repoint
          (updPlat
            (updStop { updMap w xy none with nextId := w.nextId + 1 } (xy + 1)
              (some ⟨true, some w.nextId⟩))
            w.nextId (some Platform.fresh))
          (xy + 2) kS w.nextId)
        w.nextId
        (some (runRebuild (updMap w xy none) (xy + 1) (1 + kS))))
      (xy - (kN : Int)) kN = runRebuild (updMap w xy none) (xy - (kN : Int)) kN :=
    runRebuild_eq_of_veh _ _ rfl _ _
  have hnbR : ¬(xy + 2 ≤ xy - (kN : Int) ∧ xy - (kN : Int) < xy + 2 + (kS : Int)) := by omega
  have hnb1 : ¬(xy - (kN : Int) = xy + 1) := by omega
  have hkN0 : ¬(kN = 0) := by omega
  simp only [updMap_stops, updMap_plats, updMap_veh, updMap_nextId]
    at hsplit hfind hrbS hrbN hv1 hv2
  simp only [ClearDriveThrough, ClearDriveThroughCore, h0, hnb, hsb, hrN, hrS,
    Option.map_some', eq_self_iff_true, if_true, if_false, updMap_nextId,
    hsplit, hfind, hkN0, hidx, hrbS, repoint_stops, updPlat_stops, updStop_stops,
    updMap_stops, updMap_plats, updMap_veh, hnbR, hnb1, hNB, hNBp, hrbN, hv1, hv2]

/-! ### Claim C6: attaching with no usable neighbour allocates one fresh platform -/

/-- C6: when no continuation neighbour holds a non-NULL platform,
`MakeDriveThrough` allocates exactly one brand-new platform (the next
handle, everything else untouched), sets this tile's base bit, and
leaves the new platform at length `TILE_SIZE` with zero occupancy. -/
theorem mdt_fresh_platform (w : World) (xy : Int) (fuel : Nat) (this0 : RoadStopRec) (w' : World)
    (h0 : w.stops xy = some this0)
    (hN : IsCont w xy (xy - 1) = true → ∃ r, w.stops (xy - 1) = some r ∧ r.platform = none)
    (hS : IsCont w xy (xy + 1) = true → ∃ r, w.stops (xy + 1) = some r ∧ r.platform = none)
    (h : MakeDriveThrough w xy fuel = some w') :
    w'.stops xy = some ⟨true, some w.nextId⟩ ∧
    w'.plats w.nextId = some ⟨TILE_SIZE, 0, 0⟩ ∧
    w'.nextId = w.nextId + 1 ∧
    (∀ q, q ≠ w.nextId → w'.plats q = w.plats q) ∧
    (∀ t, t ≠ xy → w'.stops t = w.stops t) := by
  rw [mdt_caseC w xy fuel this0 h0 hN hS] at h
  cases h
  refine ⟨by simp [updPlat, updStop], by simp [updPlat, updStop, Platform.fresh], rfl, ?_, ?_⟩
  · intro q hq
    simp [updPlat, updStop, hq]
  · intro t ht
    simp [updPlat, updStop, ht]

/-- C6 witness: attaching the first tile of a fresh station. -/
theorem mdt_fresh_platform_witness :
    ∃ w', MakeDriveThrough buildW0 0 1 = some w' ∧
      w'.stops 0 = some ⟨true, some 0⟩ ∧ w'.plats 0 = some ⟨TILE_SIZE, 0, 0⟩ := by
  have hs : (MakeDriveThrough buildW0 0 1).isSome = true := by decide
  cases h : MakeDriveThrough buildW0 0 1 with
  | none => rw [h] at hs; cases hs
  | some w' =>
      have := mdt_fresh_platform buildW0 0 1 ⟨false, none⟩ w' rfl
        (fun hc => absurd hc (by decide)) (fun hc => absurd hc (by decide)) h
      exact ⟨w', rfl, this.1, this.2.1⟩

/-! ### Claim C7: detaching an end tile of a run -/

/-- C7: when the detached tile has a continuation on exactly one side,
the surviving run keeps the very same platform object, its length drops
by exactly `TILE_SIZE` while both occupancy totals are unchanged, and
the base bit is newly set on the southern neighbour exactly when the
continuation is on the southern side (with a northern continuation no
remaining record changes at all). -/
theorem cdt_one_side (w : World) (xy : Int) (fuel : Nat) (w' : World)
    (h : ClearDriveThrough w xy fuel = some w') :
    (∀ this0 rsN p P, IsCont w xy (xy - 1) = true → IsCont w xy (xy + 1) = false →
      w.stops xy = some this0 → w.stops (xy - 1) = some rsN → rsN.platform = some p →
      w.plats p = some P → TILE_SIZE ≤ P.length →
      (w'.plats p = some ⟨P.length - TILE_SIZE, P.occupied_east, P.occupied_west⟩ ∧
       (P.length - TILE_SIZE) + TILE_SIZE = P.length ∧
       (∀ q, q ≠ p → w'.plats q = w.plats q) ∧
       (∀ t, t ≠ xy → w'.stops t = w.stops t))) ∧
    (∀ this0 rsS p P, IsCont w xy (xy - 1) = false → IsCont w xy (xy + 1) = true →
      w.stops xy = some this0 → w.stops (xy + 1) = some rsS → rsS.platform = some p →
      w.plats p = some P → TILE_SIZE ≤ P.length →
      (w'.plats p = some ⟨P.length - TILE_SIZE, P.occupied_east, P.occupied_west⟩ ∧
       (P.length - TILE_SIZE) + TILE_SIZE = P.length ∧
       w'.stops (xy + 1) = some ⟨true, some p⟩ ∧
       (∀ q, q ≠ p → w'.plats q = w.plats q) ∧
       (∀ t, t ≠ xy → t ≠ xy + 1 → w'.stops t = w.stops t))) := by
  constructor
  · intro this0 rsN p P hnb hsb h0 hrN hrNp hP hlen
    rw [cdt_shrinkN w xy fuel this0 rsN p P h0 hnb hrN hsb hrNp hP] at h
    cases h
    refine ⟨by simp [updStop, updPlat, updMap], by omega, ?_, ?_⟩
    · intro q hq
      simp [updStop, updPlat, updMap, hq]
    · intro t ht
      simp [updStop, updPlat, updMap, ht]
  · intro this0 rsS p P hnb hsb h0 hrS hrSp hP hlen
    rw [cdt_shrinkS w xy fuel this0 rsS p P h0 hnb hsb hrS hrSp hP] at h
    cases h
    have hne : ¬(xy + 1 = xy) := by omega
    refine ⟨by simp [updStop, updPlat, updMap], by omega,
      by simp [updStop, updPlat, updMap, hne], ?_, ?_⟩
    · intro q hq
      simp [updStop, updPlat, updMap, hq]
    · intro t ht ht1
      simp [updStop, updPlat, updMap, ht, ht1]

/-- C7 witness: on a two-tile sample run, detach the southern tile
(northern continuation only), then on another copy detach the northern
tile (southern continuation only). -/
theorem cdt_one_side_witness :
    (∃ w', ClearDriveThrough (sampleLine 2) 1 1 = some w' ∧
      w'.plats 0 = some ⟨TILE_SIZE * 2 - TILE_SIZE, 0, 0⟩ ∧ w'.stops 0 = some ⟨true, some 0⟩) ∧
    (∃ w', ClearDriveThrough (sampleLine 2) 0 1 = some w' ∧
      w'.plats 0 = some ⟨TILE_SIZE * 2 - TILE_SIZE, 0, 0⟩ ∧
      w'.stops 1 = some ⟨true, some 0⟩) := by
  constructor
  · have hs : (ClearDriveThrough (sampleLine 2) 1 1).isSome = true := by decide
    cases h : ClearDriveThrough (sampleLine 2) 1 1 with
    | none => rw [h] at hs; cases hs
    | some w' =>
        have hc := (cdt_one_side (sampleLine 2) 1 1 w' h).1 ⟨false, some 0⟩ ⟨true, some 0⟩ 0
          ⟨TILE_SIZE * 2, 0, 0⟩ (by decide) (by decide) rfl rfl rfl rfl (by decide)
        refine ⟨w', rfl, hc.1, ?_⟩
        rw [hc.2.2.2 0 (by decide)]
        rfl
  · have hs : (ClearDriveThrough (sampleLine 2) 0 1).isSome = true := by decide
    cases h : ClearDriveThrough (sampleLine 2) 0 1 with
    | none => rw [h] at hs; cases hs
    | some w' =>
        have hc := (cdt_one_side (sampleLine 2) 0 1 w' h).2 ⟨true, some 0⟩ ⟨false, some 0⟩ 0
          ⟨TILE_SIZE * 2, 0, 0⟩ (by decide) (by decide) rfl rfl rfl rfl (by decide)
        exact ⟨w', rfl, hc.1, hc.2.2.1⟩

/-! ### The one-run line world and its continuation structure -/

lemma bool_eq_false {b : Bool} (h : ¬(b = true)) : b = false := by
  cases b
  · rfl
  · exact absurd rfl h

lemma natCast_beq_zero (i : Nat) : ((i : Int) == (0 : Int)) = (i == 0) := by
  apply Bool.eq_iff_iff.mpr
  simp [beq_iff_eq, Int.natCast_eq_zero]

lemma lineWorld_stops (L : Nat) (info : TileInfo) (p : Nat) (P : Platform) (nid : Nat)
    (veh : Int → List Vehicle) (a : Int) :
    (lineWorld L info p P nid veh).stops a =
      if 0 ≤ a ∧ a < (L : Int) then some ⟨a == 0, some p⟩ else none := rfl

lemma lineWorld_map (L : Nat) (info : TileInfo) (p : Nat) (P : Platform) (nid : Nat)
    (veh : Int → List Vehicle) (a : Int) :
    (lineWorld L info p P nid veh).map a =
      if 0 ≤ a ∧ a < (L : Int) then some info else none := rfl

lemma lineWorld_nextId (L : Nat) (info : TileInfo) (p : Nat) (P : Platform) (nid : Nat)
    (veh : Int → List Vehicle) :
    (lineWorld L info p P nid veh).nextId = nid := rfl

lemma lineWorld_map_some (L : Nat) (info : TileInfo) (p : Nat) (P : Platform) (nid : Nat)
    (veh : Int → List Vehicle) (a : Int) (ia : TileInfo) :
    (lineWorld L info p P nid veh).map a = some ia ↔
      ((0 ≤ a ∧ a < (L : Int)) ∧ ia = info) := by
  show (if 0 ≤ a ∧ a < (L : Int) then some info else none) = some ia ↔ _
  by_cases h : 0 ≤ a ∧ a < (L : Int)
  · rw [if_pos h]
    simp [h, eq_comm]
  · rw [if_neg h]
    simp [h]

lemma clearedLine_map_some (L : Nat) (info : TileInfo) (p : Nat) (P : Platform) (nid : Nat)
    (veh : Int → List Vehicle) (j a : Int) (ia : TileInfo) :
    (updMap (lineWorld L info p P nid veh) j none).map a = some ia ↔
      ((0 ≤ a ∧ a < (L : Int) ∧ a ≠ j) ∧ ia = info) := by
  show (if a = j then none else (lineWorld L info p P nid veh).map a) = some ia ↔ _
  by_cases h : a = j
  · rw [if_pos h]
    simp [h]
  · rw [if_neg h, lineWorld_map_some]
    constructor
    · rintro ⟨⟨h1, h2⟩, h3⟩
      exact ⟨⟨h1, h2, h⟩, h3⟩
    · rintro ⟨⟨h1, h2, _⟩, h3⟩
      exact ⟨⟨h1, h2⟩, h3⟩

lemma lineWorld_isCont (L : Nat) (info : TileInfo) (p : Nat) (P : Platform) (nid : Nat)
    (veh : Int → List Vehicle) (hDT : info.isDT = true) (a b : Int) :
    IsCont (lineWorld L info p P nid veh) a b = true ↔
      ((0 ≤ a ∧ a < (L : Int)) ∧ (0 ≤ b ∧ b < (L : Int))) := by
  rw [isCont_iff]
  constructor
  · rintro ⟨ia, ib, ha, hb, -⟩
    exact ⟨((lineWorld_map_some L info p P nid veh a ia).mp ha).1,
           ((lineWorld_map_some L info p P nid veh b ib).mp hb).1⟩
  · rintro ⟨hA, hB⟩
    exact ⟨info, info, (lineWorld_map_some L info p P nid veh a info).mpr ⟨hA, rfl⟩,
           (lineWorld_map_some L info p P nid veh b info).mpr ⟨hB, rfl⟩, rfl, rfl, hDT, rfl⟩

lemma clearedLine_isCont (L : Nat) (info : TileInfo) (p : Nat) (P : Platform) (nid : Nat)
    (veh : Int → List Vehicle) (hDT : info.isDT = true) (j a b : Int) :
    IsCont (updMap (lineWorld L info p P nid veh) j none) a b = true ↔
      ((0 ≤ a ∧ a < (L : Int) ∧ a ≠ j) ∧ (0 ≤ b ∧ b < (L : Int) ∧ b ≠ j)) := by
  rw [isCont_iff]
  constructor
  · rintro ⟨ia, ib, ha, hb, -⟩
    exact ⟨((clearedLine_map_some L info p P nid veh j a ia).mp ha).1,
           ((clearedLine_map_some L info p P nid veh j b ib).mp hb).1⟩
  · rintro ⟨hA, hB⟩
    exact ⟨info, info, (clearedLine_map_some L info p P nid veh j a info).mpr ⟨hA, rfl⟩,
           (clearedLine_map_some L info p P nid veh j b info).mpr ⟨hB, rfl⟩, rfl, rfl, hDT, rfl⟩

/-! ### Claim C1: detaching a middle tile splits the run correctly -/

/-- C1: on a maximal run of `L ≥ 3` tiles sharing platform `p`,
detaching the `k`-th tile (`1 < k < L`, so tile `k-1` in coordinates
starting at 0) yields two maximal runs of `k-1` and `L-k` tiles.  The
northern run keeps platform `p`, the southern run gets the freshly
allocated platform `nid ≠ p`, and each platform holds exactly the
length and occupancy that `Platform::Rebuild` computes from scratch for
its sub-run in the resulting world. -/
theorem split_middle_tile (L k : Nat) (info : TileInfo) (p nid : Nat) (P : Platform)
    (veh : Int → List Vehicle) (fuel : Nat) (w' : World)
    (hDT : info.isDT = true) (hk1 : 1 < k) (hkL : k < L)
    (hpn : p ≠ nid) (hfuel : L + 1 ≤ fuel)
    (h : ClearDriveThrough (lineWorld L info p P nid veh) ((k : Int) - 1) fuel = some w') :
    RunAt w' 0 (k - 1) ∧ RunAt w' (k : Int) (L - k) ∧
    (∀ i : Nat, i < k - 1 → w'.stops (i : Int) = some ⟨i == 0, some p⟩) ∧
    (∀ i : Nat, i < L - k → w'.stops ((k : Int) + (i : Int)) = some ⟨i == 0, some nid⟩) ∧
    p ≠ nid ∧
    w'.plats p = some (runRebuild w' 0 (k - 1)) ∧
    w'.plats nid = some (runRebuild w' (k : Int) (L - k)) ∧
    (runRebuild w' 0 (k - 1)).length = TILE_SIZE * (k - 1) ∧
    (runRebuild w' (k : Int) (L - k)).length = TILE_SIZE * (L - k) ∧
    Platform.Rebuild w' 0 fuel = some (runRebuild w' 0 (k - 1)) ∧
    Platform.Rebuild w' (k : Int) fuel = some (runRebuild w' (k : Int) (L - k)) := by
  have hj0 : ¬((k : Int) - 1 = 0) := by omega
  have h0 : (lineWorld L info p P nid veh).stops ((k : Int) - 1) =
      some ⟨false, some p⟩ := by
    rw [lineWorld_stops, if_pos (by omega : 0 ≤ (k : Int) - 1 ∧ (k : Int) - 1 < (L : Int))]
    rw [beq_eq_false_iff_ne.mpr hj0]
  have hrN : (lineWorld L info p P nid veh).stops ((k : Int) - 1 - 1) =
      some ⟨(((k : Int) - 1 - 1) == 0), some p⟩ := by
    rw [lineWorld_stops,
      if_pos (by omega : 0 ≤ (k : Int) - 1 - 1 ∧ (k : Int) - 1 - 1 < (L : Int))]
  have hrS : (lineWorld L info p P nid veh).stops ((k : Int) - 1 + 1) =
      some ⟨false, some p⟩ := by
    rw [lineWorld_stops,
      if_pos (by omega : 0 ≤ (k : Int) - 1 + 1 ∧ (k : Int) - 1 + 1 < (L : Int))]
    rw [beq_eq_false_iff_ne.mpr (by omega : ¬((k : Int) - 1 + 1 = 0))]
  have hnb : IsCont (lineWorld L info p P nid veh) ((k : Int) - 1) ((k : Int) - 1 - 1) = true :=
    (lineWorld_isCont L info p P nid veh hDT _ _).mpr ⟨⟨by omega, by omega⟩, by omega, by omega⟩
  have hsb : IsCont (lineWorld L info p P nid veh) ((k : Int) - 1) ((k : Int) - 1 + 1) = true :=
    (lineWorld_isCont L info p P nid veh hDT _ _).mpr ⟨⟨by omega, by omega⟩, by omega, by omega⟩
  have hNB : (lineWorld L info p P nid veh).stops ((k : Int) - 1 - ((k - 1 : Nat) : Int)) =
      some ⟨true, some p⟩ := by
    have e : (k : Int) - 1 - ((k - 1 : Nat) : Int) = 0 := by omega
    rw [e, lineWorld_stops, if_pos (by omega : 0 ≤ (0 : Int) ∧ (0 : Int) < (L : Int))]
    rfl
  rw [cdt_split (lineWorld L info p P nid veh) ((k : Int) - 1) fuel
    ⟨false, some p⟩ ⟨(((k : Int) - 1 - 1) == 0), some p⟩ ⟨false, some p⟩ ⟨true, some p⟩
    p (L - k - 1) (k - 1)
    h0 hnb hrN hsb hrS
    ((clearedLine_isCont L info p P nid veh hDT _ _ _).mpr
      ⟨⟨by omega, by omega, by omega⟩, by omega, by omega, by omega⟩)
    (fun i hi => (clearedLine_isCont L info p P nid veh hDT _ _ _).mpr
      ⟨⟨by omega, by omega, by omega⟩, by omega, by omega, by omega⟩)
    (bool_eq_false (fun hc => by
      have := (clearedLine_isCont L info p P nid veh hDT _ _ _).mp hc
      omega))
    (fun i hi => ⟨⟨(((k : Int) - 1 + 2 + (i : Int)) == 0), some p⟩, by
      rw [lineWorld_stops, if_pos (by omega :
        0 ≤ (k : Int) - 1 + 2 + (i : Int) ∧ (k : Int) - 1 + 2 + (i : Int) < (L : Int))]⟩)
    (fun i hi => (clearedLine_isCont L info p P nid veh hDT _ _ _).mpr
      ⟨⟨by omega, by omega, by omega⟩, by omega, by omega, by omega⟩)
    (bool_eq_false (fun hc => by
      have := (clearedLine_isCont L info p P nid veh hDT _ _ _).mp hc
      omega))
    (by omega)
    hNB
    rfl
    (fun i hi => (clearedLine_isCont L info p P nid veh hDT _ _ _).mpr
      ⟨⟨by omega, by omega, by omega⟩, by omega, by omega, by omega⟩)
    (bool_eq_false (fun hc => by
      have := (clearedLine_isCont L info p P nid veh hDT _ _ _).mp hc
      omega))
    (by omega) (by omega)] at h
  have e1 : (k : Int) - 1 + 1 = (k : Int) := by ring
  have e2 : 1 + (L - k - 1) = L - k := by omega
  have e3 : (k : Int) - 1 - ((k - 1 : Nat) : Int) = 0 := by omega
  rw [e1, e2, e3, lineWorld_nextId] at h
  cases h
  have hnp : ¬(nid = p) := fun hc => hpn hc.symm
  refine ⟨?_, ?_, ?_, ?_, hpn, ?_, ?_, rfl, rfl, ?_, ?_⟩
  · -- the northern piece is a maximal run of k-1 tiles
    unfold RunAt
    refine ⟨by omega, ?_, ?_, ?_, ?_⟩
    · show (updMap (lineWorld L info p P nid veh) ((k : Int) - 1) none).map 0 ≠ none
      intro hc
      rw [show (updMap (lineWorld L info p P nid veh) ((k : Int) - 1) none).map 0 =
          if (0 : Int) = (k : Int) - 1 then none
          else (lineWorld L info p P nid veh).map 0 from rfl,
        if_neg (by omega : ¬((0 : Int) = (k : Int) - 1)), lineWorld_map,
        if_pos (by omega : (0 : Int) ≤ 0 ∧ (0 : Int) < (L : Int))] at hc
      exact Option.noConfusion hc
    · intro i hi
      show IsCont (updMap (lineWorld L info p P nid veh) ((k : Int) - 1) none)
        ((0 : Int) + (i : Int)) ((0 : Int) + (i : Int) + 1) = true
      exact (clearedLine_isCont L info p P nid veh hDT _ _ _).mpr
        ⟨⟨by omega, by omega, by omega⟩, by omega, by omega, by omega⟩
    · apply bool_eq_false
      intro hc
      have := (clearedLine_isCont L info p P nid veh hDT ((k : Int) - 1) 0 (0 - 1)).mp hc
      omega
    · apply bool_eq_false
      intro hc
      have := (clearedLine_isCont L info p P nid veh hDT ((k : Int) - 1)
        ((0 : Int) + ((k - 1 : Nat) : Int) - 1) ((0 : Int) + ((k - 1 : Nat) : Int))).mp hc
      omega
  · -- the southern piece is a maximal run of L-k tiles
    unfold RunAt
    refine ⟨by omega, ?_, ?_, ?_, ?_⟩
    · show (updMap (lineWorld L info p P nid veh) ((k : Int) - 1) none).map (k : Int) ≠ none
      intro hc
      rw [show (updMap (lineWorld L info p P nid veh) ((k : Int) - 1) none).map (k : Int) =
          if (k : Int) = (k : Int) - 1 then none
          else (lineWorld L info p P nid veh).map (k : Int) from rfl,
        if_neg (by omega : ¬((k : Int) = (k : Int) - 1)), lineWorld_map,
        if_pos (by omega : (0 : Int) ≤ (k : Int) ∧ (k : Int) < (L : Int))] at hc
      exact Option.noConfusion hc
    · intro i hi
      show IsCont (updMap (lineWorld L info p P nid veh) ((k : Int) - 1) none)
        ((k : Int) + (i : Int)) ((k : Int) + (i : Int) + 1) = true
      exact (clearedLine_isCont L info p P nid veh hDT _ _ _).mpr
        ⟨⟨by omega, by omega, by omega⟩, by omega, by omega, by omega⟩
    · apply bool_eq_false
      intro hc
      have := (clearedLine_isCont L info p P nid veh hDT ((k : Int) - 1)
        (k : Int) ((k : Int) - 1)).mp hc
      omega
    · apply bool_eq_false
      intro hc
      have := (clearedLine_isCont L info p P nid veh hDT ((k : Int) - 1)
        ((k : Int) + ((L - k : Nat) : Int) - 1) ((k : Int) + ((L - k : Nat) : Int))).mp hc
      omega
  · -- records of the northern run: base on tile 0, platform p everywhere
    intro i hi
    have c1 : ¬((i : Int) = (k : Int) - 1) := by omega
    have c2 : ¬((k : Int) - 1 + 2 ≤ (i : Int) ∧
        (i : Int) < (k : Int) - 1 + 2 + ((L - k - 1 : Nat) : Int)) := by omega
    have c3 : ¬((i : Int) = (k : Int)) := by omega
    have c4 : (0 : Int) ≤ (i : Int) ∧ (i : Int) < (L : Int) := ⟨by omega, by omega⟩
    simp [repoint_stops, lineWorld_stops, c1, c2, c3, c4, natCast_beq_zero]
  · -- records of the southern run: base on tile k, platform nid everywhere
    intro i hi
    by_cases hi0 : i = 0
    · subst hi0
      have c1 : ¬((k : Int) + ((0 : Nat) : Int) = (k : Int) - 1) := by omega
      have c2 : ¬((k : Int) - 1 + 2 ≤ (k : Int) + ((0 : Nat) : Int) ∧
          (k : Int) + ((0 : Nat) : Int) <
            (k : Int) - 1 + 2 + ((L - k - 1 : Nat) : Int)) := by omega
      have c3 : (k : Int) + ((0 : Nat) : Int) = (k : Int) := by omega
      have c0 : ¬((k : Int) = (k : Int) - 1) := by omega
      simp [repoint_stops, c1, c2, c3, c0]
    · have c1 : ¬((k : Int) + (i : Int) = (k : Int) - 1) := by omega
      have c2 : (k : Int) - 1 + 2 ≤ (k : Int) + (i : Int) ∧
          (k : Int) + (i : Int) < (k : Int) - 1 + 2 + ((L - k - 1 : Nat) : Int) := by
        constructor <;> omega
      have c3 : ¬((k : Int) + (i : Int) = (k : Int)) := by omega
      have c4 : (0 : Int) ≤ (k : Int) + (i : Int) ∧ (k : Int) + (i : Int) < (L : Int) := by
        constructor <;> omega
      have c5 : (((k : Int) + (i : Int)) == (0 : Int)) = false :=
        beq_eq_false_iff_ne.mpr (by omega)
      have c6 : (i == 0) = false := beq_eq_false_iff_ne.mpr hi0
      simp [repoint_stops, lineWorld_stops, c1, c2, c3, c4, c5, c6]
  · -- the northern platform holds exactly the from-scratch rebuild
    simp [hnp]
    rfl
  · -- the southern platform holds exactly the from-scratch rebuild
    simp [hnp]
    rfl
  · -- Rebuild from the northern base recomputes the same values
    refine rebuild_eq_runRebuild _ 0 (k - 1) fuel ?_ ?_ (by omega)
    · intro i hi
      show IsCont (updMap (lineWorld L info p P nid veh) ((k : Int) - 1) none)
        (0 : Int) ((0 : Int) + (i : Int)) = true
      exact (clearedLine_isCont L info p P nid veh hDT _ _ _).mpr
        ⟨⟨by omega, by omega, by omega⟩, by omega, by omega, by omega⟩
    · apply bool_eq_false
      intro hc
      have hc' : IsCont (updMap (lineWorld L info p P nid veh) ((k : Int) - 1) none)
          (0 : Int) ((0 : Int) + ((k - 1 : Nat) : Int)) = true := hc
      have := (clearedLine_isCont L info p P nid veh hDT _ _ _).mp hc'
      omega
  · -- Rebuild from the southern base recomputes the same values
    refine rebuild_eq_runRebuild _ (k : Int) (L - k) fuel ?_ ?_ (by omega)
    · intro i hi
      show IsCont (updMap (lineWorld L info p P nid veh) ((k : Int) - 1) none)
        (k : Int) ((k : Int) + (i : Int)) = true
      exact (clearedLine_isCont L info p P nid veh hDT _ _ _).mpr
        ⟨⟨by omega, by omega, by omega⟩, by omega, by omega, by omega⟩
    · apply bool_eq_false
      intro hc
      have hc' : IsCont (updMap (lineWorld L info p P nid veh) ((k : Int) - 1) none)
          (k : Int) ((k : Int) + ((L - k : Nat) : Int)) = true := hc
      have := (clearedLine_isCont L info p P nid veh hDT _ _ _).mp hc'
      omega

/-- C1 witness: splitting the middle tile out of a three-tile run. -/
theorem split_middle_tile_witness :
    ∃ w', ClearDriveThrough (lineWorld 3 infoA 0 ⟨TILE_SIZE * 3, 0, 0⟩ 1 emptyVeh)
        (((2 : Nat) : Int) - 1) 5 = some w' ∧
      RunAt w' 0 1 ∧ RunAt w' ((2 : Nat) : Int) 1 ∧
      w'.plats 0 = some (runRebuild w' 0 1) ∧
      w'.plats 1 = some (runRebuild w' ((2 : Nat) : Int) 1) := by
  have hs : (ClearDriveThrough (lineWorld 3 infoA 0 ⟨TILE_SIZE * 3, 0, 0⟩ 1 emptyVeh)
      (((2 : Nat) : Int) - 1) 5).isSome = true := by decide
  cases h : ClearDriveThrough (lineWorld 3 infoA 0 ⟨TILE_SIZE * 3, 0, 0⟩ 1 emptyVeh)
      (((2 : Nat) : Int) - 1) 5 with
  | none => rw [h] at hs; cases hs
  | some w' =>
      have hc := split_middle_tile 3 2 infoA 0 1 ⟨TILE_SIZE * 3, 0, 0⟩ emptyVeh 5 w'
        rfl (by decide) (by decide) (by decide) (by decide) h
      exact ⟨w', rfl, hc.1, hc.2.1, hc.2.2.2.2.2.1, hc.2.2.2.2.2.2.1⟩

/-! ### Claim C2: attaching the gap tile between two runs merges them -/

lemma twoRunWorld_map (m n : Nat) (info : TileInfo) (p q : Nat) (P1 P2 : Platform) (nid : Nat)
    (veh : Int → List Vehicle) (a : Int) :
    (twoRunWorld m n info p q P1 P2 nid veh).map a =
      if 0 ≤ a ∧ a < (m : Int) + (n : Int) + 1 then some info else none := rfl

lemma twoRunWorld_stops (m n : Nat) (info : TileInfo) (p q : Nat) (P1 P2 : Platform) (nid : Nat)
    (veh : Int → List Vehicle) (a : Int) :
    (twoRunWorld m n info p q P1 P2 nid veh).stops a =
      if 0 ≤ a ∧ a < (m : Int) then some ⟨a == 0, some p⟩
      else if a = (m : Int) then some ⟨false, none⟩
      else if (m : Int) < a ∧ a < (m : Int) + (n : Int) + 1 then some ⟨a == (m : Int) + 1, some q⟩
      else none := rfl

lemma twoRunWorld_plats (m n : Nat) (info : TileInfo) (p q : Nat) (P1 P2 : Platform) (nid : Nat)
    (veh : Int → List Vehicle) (a : Nat) :
    (twoRunWorld m n info p q P1 P2 nid veh).plats a =
      if a = p then some P1 else if a = q then some P2 else none := rfl

lemma twoRunWorld_map_some (m n : Nat) (info : TileInfo) (p q : Nat) (P1 P2 : Platform)
    (nid : Nat) (veh : Int → List Vehicle) (a : Int) (ia : TileInfo) :
    (twoRunWorld m n info p q P1 P2 nid veh).map a = some ia ↔
      ((0 ≤ a ∧ a < (m : Int) + (n : Int) + 1) ∧ ia = info) := by
  rw [twoRunWorld_map]
  by_cases h : 0 ≤ a ∧ a < (m : Int) + (n : Int) + 1
  · rw [if_pos h]
    simp [h, eq_comm]
  · rw [if_neg h]
    simp [h]

lemma twoRunWorld_isCont (m n : Nat) (info : TileInfo) (p q : Nat) (P1 P2 : Platform)
    (nid : Nat) (veh : Int → List Vehicle) (hDT : info.isDT = true) (a b : Int) :
    IsCont (twoRunWorld m n info p q P1 P2 nid veh) a b = true ↔
      ((0 ≤ a ∧ a < (m : Int) + (n : Int) + 1) ∧ (0 ≤ b ∧ b < (m : Int) + (n : Int) + 1)) := by
  rw [isCont_iff]
  constructor
  · rintro ⟨ia, ib, ha, hb, -⟩
    exact ⟨((twoRunWorld_map_some m n info p q P1 P2 nid veh a ia).mp ha).1,
           ((twoRunWorld_map_some m n info p q P1 P2 nid veh b ib).mp hb).1⟩
  · rintro ⟨hA, hB⟩
    exact ⟨info, info, (twoRunWorld_map_some m n info p q P1 P2 nid veh a info).mpr ⟨hA, rfl⟩,
           (twoRunWorld_map_some m n info p q P1 P2 nid veh b info).mpr ⟨hB, rfl⟩,
           rfl, rfl, hDT, rfl⟩

/-- C2: attaching the gap tile between runs of `m` and `n` tiles yields
one maximal run of `m+n+1` tiles in which every record references the
northern platform `p` (the base staying on tile 0), whose length is
`(m+n+1) * TILE_SIZE` and whose occupancy totals are the sums of the two
previous platforms' totals; the southern platform `q` is freed. -/
theorem merge_runs (m n : Nat) (info : TileInfo) (p q : Nat) (P1 P2 : Platform) (nid : Nat)
    (veh : Int → List Vehicle) (fuel : Nat) (w' : World)
    (hDT : info.isDT = true) (hm : 1 ≤ m) (hn : 1 ≤ n) (hpq : p ≠ q)
    (hP1len : P1.length = TILE_SIZE * m)
    (hfuel : n < fuel)
    (h : MakeDriveThrough (twoRunWorld m n info p q P1 P2 nid veh) (m : Int) fuel = some w') :
    RunAt w' 0 (m + n + 1) ∧
    (∀ i : Nat, i < m + n + 1 → w'.stops (i : Int) = some ⟨i == 0, some p⟩) ∧
    (∃ P, w'.plats p = some P ∧
      P.length = TILE_SIZE * (m + n + 1) ∧
      P.occupied_east = P1.occupied_east + P2.occupied_east ∧
      P.occupied_west = P1.occupied_west + P2.occupied_west) ∧
    w'.plats q = none := by
  have h0 : (twoRunWorld m n info p q P1 P2 nid veh).stops (m : Int) =
      some ⟨false, none⟩ := by
    rw [twoRunWorld_stops, if_neg (by omega), if_pos rfl]
  have hrN : (twoRunWorld m n info p q P1 P2 nid veh).stops ((m : Int) - 1) =
      some ⟨((m : Int) - 1) == 0, some p⟩ := by
    rw [twoRunWorld_stops, if_pos (by omega : 0 ≤ (m : Int) - 1 ∧ (m : Int) - 1 < (m : Int))]
  have hrS : (twoRunWorld m n info p q P1 P2 nid veh).stops ((m : Int) + 1) =
      some ⟨true, some q⟩ := by
    rw [twoRunWorld_stops, if_neg (by omega), if_neg (by omega),
      if_pos (by omega : (m : Int) < (m : Int) + 1 ∧ (m : Int) + 1 < (m : Int) + (n : Int) + 1)]
    rw [show (((m : Int) + 1) == (m : Int) + 1) = true from beq_self_eq_true _]
  have hnb : IsCont (twoRunWorld m n info p q P1 P2 nid veh) (m : Int) ((m : Int) - 1) = true :=
    (twoRunWorld_isCont m n info p q P1 P2 nid veh hDT _ _).mpr
      ⟨⟨by omega, by omega⟩, by omega, by omega⟩
  have hsb : IsCont (twoRunWorld m n info p q P1 P2 nid veh) (m : Int) ((m : Int) + 1) = true :=
    (twoRunWorld_isCont m n info p q P1 P2 nid veh hDT _ _).mpr
      ⟨⟨by omega, by omega⟩, by omega, by omega⟩
  rw [mdt_merge (twoRunWorld m n info p q P1 P2 nid veh) (m : Int) fuel
    ⟨false, none⟩ ⟨((m : Int) - 1) == 0, some p⟩ ⟨true, some q⟩ p q P1 P2 n
    h0 hnb hrN rfl hsb hrS rfl
    (by rw [twoRunWorld_plats, if_pos rfl])
    (by rw [twoRunWorld_plats, if_neg (fun hc => hpq hc.symm), if_pos rfl])
    hpq
    (fun i hi => (twoRunWorld_isCont m n info p q P1 P2 nid veh hDT _ _).mpr
      ⟨⟨by omega, by omega⟩, by omega, by omega⟩)
    (bool_eq_false (fun hc => by
      have := (twoRunWorld_isCont m n info p q P1 P2 nid veh hDT _ _).mp hc
      omega))
    (fun i hi => by
      by_cases hi0 : i = 0
      · subst hi0
        refine ⟨⟨true, some q⟩, ?_, by simp⟩
        rw [show (m : Int) + 1 + ((0 : Nat) : Int) = (m : Int) + 1 by omega]
        exact hrS
      · refine ⟨⟨(((m : Int) + 1 + (i : Int)) == (m : Int) + 1), some q⟩, ?_, by simp⟩
        rw [twoRunWorld_stops, if_neg (by omega), if_neg (by omega),
          if_pos (by omega : (m : Int) < (m : Int) + 1 + (i : Int) ∧
            (m : Int) + 1 + (i : Int) < (m : Int) + (n : Int) + 1)])
    hfuel] at h
  cases h
  have hqp : ¬(q = p) := fun hc => hpq hc.symm
  refine ⟨?_, ?_, ?_, ?_⟩
  · -- one maximal run of m+n+1 tiles
    unfold RunAt
    refine ⟨by omega, ?_, ?_, ?_, ?_⟩
    · show (twoRunWorld m n info p q P1 P2 nid veh).map 0 ≠ none
      rw [twoRunWorld_map, if_pos (by omega : (0 : Int) ≤ 0 ∧ (0 : Int) < (m : Int) + (n : Int) + 1)]
      simp
    · intro i hi
      show IsCont (twoRunWorld m n info p q P1 P2 nid veh)
        ((0 : Int) + (i : Int)) ((0 : Int) + (i : Int) + 1) = true
      exact (twoRunWorld_isCont m n info p q P1 P2 nid veh hDT _ _).mpr
        ⟨⟨by omega, by omega⟩, by omega, by omega⟩
    · apply bool_eq_false
      intro hc
      have hc' : IsCont (twoRunWorld m n info p q P1 P2 nid veh) 0 (0 - 1) = true := hc
      have := (twoRunWorld_isCont m n info p q P1 P2 nid veh hDT _ _).mp hc'
      omega
    · apply bool_eq_false
      intro hc
      have hc' : IsCont (twoRunWorld m n info p q P1 P2 nid veh)
          ((0 : Int) + ((m + n + 1 : Nat) : Int) - 1) ((0 : Int) + ((m + n + 1 : Nat) : Int)) =
          true := hc
      have := (twoRunWorld_isCont m n info p q P1 P2 nid veh hDT _ _).mp hc'
      omega
  · -- every record now shares platform p, base bit only on tile 0
    intro i hi
    by_cases hiM : (i : Int) < (m : Int)
    · have c1 : ¬((i : Int) = (m : Int)) := by omega
      have c2 : ¬((m : Int) + 1 ≤ (i : Int) ∧ (i : Int) < (m : Int) + 1 + (n : Int)) := by omega
      have c3 : ¬((i : Int) = (m : Int) + 1) := by omega
      have c4 : (0 : Int) ≤ (i : Int) ∧ (i : Int) < (m : Int) := by omega
      simp [repoint_stops, twoRunWorld_stops, c1, c2, c3, c4, natCast_beq_zero]
    · by_cases hiEq : (i : Int) = (m : Int)
      · have c2 : ¬((m : Int) + 1 ≤ (i : Int) ∧ (i : Int) < (m : Int) + 1 + (n : Int)) := by
          omega
        have c6 : (i == 0) = false := beq_eq_false_iff_ne.mpr (by omega)
        simp [repoint_stops, c2, hiEq, c6]
      · -- southern tiles, re-pointed to p
        have c1 : ¬((i : Int) = (m : Int)) := hiEq
        have c2 : (m : Int) + 1 ≤ (i : Int) ∧ (i : Int) < (m : Int) + 1 + (n : Int) := by omega
        have c6 : (i == 0) = false := beq_eq_false_iff_ne.mpr (by omega)
        by_cases hiS : (i : Int) = (m : Int) + 1
        · have hlt : (m : Int) + 1 < (m : Int) + 1 + (n : Int) := by omega
          simp [repoint_stops, c1, c2, c6, hiS, hlt]
        · have c4 : ¬(0 ≤ (i : Int) ∧ (i : Int) < (m : Int)) := by omega
          have c4n : ¬(i < m) := by omega
          have c5 : (m : Int) < (i : Int) ∧ (i : Int) < (m : Int) + (n : Int) + 1 := by omega
          have c7 : (((i : Int)) == (m : Int) + 1) = false := beq_eq_false_iff_ne.mpr hiS
          simp [repoint_stops, twoRunWorld_stops, c1, c2, c4, c4n, c5, c6, c7, hiS]
  · -- the surviving platform carries summed occupancy and full length
    refine ⟨⟨P1.length + (1 + n) * TILE_SIZE,
      P1.occupied_east + P2.occupied_east, P1.occupied_west + P2.occupied_west⟩, ?_, ?_, rfl, rfl⟩
    · simp
    · rw [hP1len]
      unfold TILE_SIZE
      ring
  · -- the southern platform was deleted
    simp [hqp]

/-- C2 witness: bridging two one-tile runs with occupancy 2/3 and 5/7
yields one three-tile run whose platform carries the summed totals. -/
theorem merge_runs_witness :
    ∃ w', MakeDriveThrough
        (twoRunWorld 1 1 infoA 0 1 ⟨TILE_SIZE, 2, 3⟩ ⟨TILE_SIZE, 5, 7⟩ 2 emptyVeh)
        ((1 : Nat) : Int) 3 = some w' ∧
      RunAt w' 0 3 ∧
      (∃ P, w'.plats 0 = some P ∧ P.length = TILE_SIZE * 3 ∧
        P.occupied_east = 2 + 5 ∧ P.occupied_west = 3 + 7) ∧
      w'.plats 1 = none := by
  have hs : (MakeDriveThrough
      (twoRunWorld 1 1 infoA 0 1 ⟨TILE_SIZE, 2, 3⟩ ⟨TILE_SIZE, 5, 7⟩ 2 emptyVeh)
      ((1 : Nat) : Int) 3).isSome = true := by decide
  cases h : MakeDriveThrough
      (twoRunWorld 1 1 infoA 0 1 ⟨TILE_SIZE, 2, 3⟩ ⟨TILE_SIZE, 5, 7⟩ 2 emptyVeh)
      ((1 : Nat) : Int) 3 with
  | none => rw [h] at hs; cases hs
  | some w' =>
      have hc := merge_runs 1 1 infoA 0 1 ⟨TILE_SIZE, 2, 3⟩ ⟨TILE_SIZE, 5, 7⟩ 2 emptyVeh 3 w'
        rfl (by decide) (by decide) (by decide) (by decide) (by decide) h
      exact ⟨w', rfl, hc.1, hc.2.2.1, hc.2.2.2⟩

/-! ### The vehicle accumulation of Rebuild -/

lemma mem_addIfNew (e : List Vehicle) (u v : Vehicle) (h : v ∈ addIfNew e u) :
    v ∈ e ∨ v = u := by
  unfold addIfNew at h
  by_cases ha : e.any (fun x => x.vid == u.vid)
  · rw [if_pos ha] at h
    exact Or.inl h
  · rw [if_neg ha] at h
    rcases List.mem_append.mp h with h1 | h1
    · exact Or.inl h1
    · exact Or.inr (List.mem_singleton.mp h1)

lemma mem_addIfNew_of_mem (e : List Vehicle) (u v : Vehicle) (h : v ∈ e) :
    v ∈ addIfNew e u := by
  unfold addIfNew
  by_cases ha : e.any (fun x => x.vid == u.vid)
  · rw [if_pos ha]
    exact h
  · rw [if_neg ha]
    exact List.mem_append.mpr (Or.inl h)

lemma vid_mem_addIfNew (e : List Vehicle) (u : Vehicle) :
    ∃ x, x ∈ addIfNew e u ∧ x.vid = u.vid := by
  unfold addIfNew
  by_cases ha : e.any (fun x => x.vid == u.vid)
  · rw [if_pos ha]
    obtain ⟨x, hx, hvid⟩ := List.any_eq_true.mp ha
    exact ⟨x, hx, beq_iff_eq.mp hvid⟩
  · rw [if_neg ha]
    exact ⟨u, List.mem_append.mpr (Or.inr (List.mem_singleton.mpr rfl)), rfl⟩

lemma nodup_addIfNew (e : List Vehicle) (u : Vehicle)
    (h : (e.map (fun v => v.vid)).Nodup) :
    ((addIfNew e u).map (fun v => v.vid)).Nodup := by
  unfold addIfNew
  by_cases ha : e.any (fun x => x.vid == u.vid)
  · rw [if_pos ha]
    exact h
  · rw [if_neg ha]
    rw [List.map_append, List.map_singleton]
    apply List.Nodup.append h (List.nodup_singleton _)
    intro a hae hau
    rw [List.mem_singleton.mp hau] at hae
    obtain ⟨x, hx, hvid⟩ := List.mem_map.mp hae
    rw [List.any_eq_true] at ha
    exact ha ⟨x, hx, beq_iff_eq.mpr hvid⟩

lemma mem_dedupAdd (f : Vehicle → Bool) (l : List Vehicle) :
    ∀ (e : List Vehicle) (v : Vehicle), v ∈ dedupAdd f e l →
      v ∈ e ∨ (v ∈ l ∧ f v = true) := by
  induction l with
  | nil => intro e v h; exact Or.inl h
  | cons u l ih =>
      intro e v h
      unfold dedupAdd at h
      rw [List.foldl_cons] at h
      by_cases hu : f u
      · rw [if_pos hu] at h
        rcases ih (addIfNew e u) v h with h1 | h1
        · rcases mem_addIfNew e u v h1 with h2 | h2
          · exact Or.inl h2
          · subst h2
            exact Or.inr ⟨List.mem_cons_self _ _, hu⟩
        · exact Or.inr ⟨List.mem_cons_of_mem _ h1.1, h1.2⟩
      · rw [if_neg hu] at h
        rcases ih e v h with h1 | h1
        · exact Or.inl h1
        · exact Or.inr ⟨List.mem_cons_of_mem _ h1.1, h1.2⟩

lemma mem_dedupAdd_of_mem (f : Vehicle → Bool) (l : List Vehicle) :
    ∀ (e : List Vehicle) (v : Vehicle), v ∈ e → v ∈ dedupAdd f e l := by
  induction l with
  | nil => intro e v h; exact h
  | cons u l ih =>
      intro e v h
      unfold dedupAdd
      rw [List.foldl_cons]
      by_cases hu : f u
      · rw [if_pos hu]
        exact ih _ v (mem_addIfNew_of_mem e u v h)
      · rw [if_neg hu]
        exact ih e v h

lemma vid_cover_dedupAdd (f : Vehicle → Bool) (l : List Vehicle) :
    ∀ (e : List Vehicle) (v : Vehicle), v ∈ l → f v = true →
      ∃ u, u ∈ dedupAdd f e l ∧ u.vid = v.vid := by
  induction l with
  | nil => intro e v h; exact absurd h (List.not_mem_nil v)
  | cons u l ih =>
      intro e v hv hf
      unfold dedupAdd
      rw [List.foldl_cons]
      rcases List.mem_cons.mp hv with h1 | h1
      · subst h1
        rw [if_pos hf]
        obtain ⟨x, hx, hvid⟩ := vid_mem_addIfNew e v
        exact ⟨x, mem_dedupAdd_of_mem f l _ x hx, hvid⟩
      · by_cases hu : f u
        · rw [if_pos hu]
          exact ih _ v h1 hf
        · rw [if_neg hu]
          exact ih e v h1 hf

lemma nodup_dedupAdd (f : Vehicle → Bool) (l : List Vehicle) :
    ∀ (e : List Vehicle), (e.map (fun v => v.vid)).Nodup →
      ((dedupAdd f e l).map (fun v => v.vid)).Nodup := by
  induction l with
  | nil => intro e h; exact h
  | cons u l ih =>
      intro e h
      unfold dedupAdd
      rw [List.foldl_cons]
      by_cases hu : f u
      · rw [if_pos hu]
        exact ih _ (nodup_addIfNew e u h)
      · rw [if_neg hu]
        exact ih e h

lemma sumLengths_eq_map_sum (l : List Vehicle) :
    sumLengths l = (l.map (fun v => v.cachedLength)).sum := by
  suffices h : ∀ a : Nat, l.foldl (fun a v => a + v.cachedLength) a =
      a + (l.map (fun v => v.cachedLength)).sum by
    have := h 0
    rw [Nat.zero_add] at this
    exact this
  induction l with
  | nil => intro a; simp
  | cons u l ih =>
      intro a
      rw [List.foldl_cons, ih, List.map_cons, List.sum_cons]
      omega

/-- The first component of the vehicle fold of `Rebuild` is the
deduplicated list of east-countable vehicles. -/
lemma foldl_addVehicle_fst (l : List Vehicle) :
    ∀ acc : List Vehicle × List Vehicle,
      (l.foldl addVehicle acc).1 = dedupAdd eastCountable acc.1 l := by
  induction l with
  | nil => intro acc; rfl
  | cons u l ih =>
      intro acc
      rw [List.foldl_cons, ih]
      unfold dedupAdd
      rw [List.foldl_cons]
      congr 1
      unfold addVehicle eastCountable
      cases hc : countable u <;> cases hd : u.dirEast <;> simp [hc, hd]

/-- The second component of the vehicle fold of `Rebuild` is the
deduplicated list of west-countable vehicles. -/
lemma foldl_addVehicle_snd (l : List Vehicle) :
    ∀ acc : List Vehicle × List Vehicle,
      (l.foldl addVehicle acc).2 = dedupAdd westCountable acc.2 l := by
  induction l with
  | nil => intro acc; rfl
  | cons u l ih =>
      intro acc
      rw [List.foldl_cons, ih]
      unfold dedupAdd
      rw [List.foldl_cons]
      congr 1
      unfold addVehicle westCountable
      cases hc : countable u <;> cases hd : u.dirEast <;> simp [hc, hd]

/-- The tile-by-tile fold of `collectVehicles` equals the fold over the
concatenated vehicle list. -/
lemma collectVehicles_eq_fold (w : World) (tiles : List Int) :
    collectVehicles w tiles = (vehiclesOnTiles w tiles).foldl addVehicle ([], []) := by
  suffices h : ∀ acc, tiles.foldl (fun acc t => (w.veh t).foldl addVehicle acc) acc =
      (vehiclesOnTiles w tiles).foldl addVehicle acc from h ([], [])
  induction tiles with
  | nil => intro acc; rfl
  | cons t ts ih =>
      intro acc
      show ts.foldl (fun acc t => (w.veh t).foldl addVehicle acc) ((w.veh t).foldl addVehicle acc) =
        (w.veh t ++ vehiclesOnTiles w ts).foldl addVehicle acc
      rw [List.foldl_append, ih]

/-- Sum of cached lengths over a `dedupAdd`-deduplicated list, as a
`Finset` sum over the distinct filtered vehicles. -/
lemma sumLengths_dedupAdd (f : Vehicle → Bool) (l : List Vehicle)
    (hinj : ∀ u v, u ∈ l → v ∈ l → u.vid = v.vid → u = v) :
    sumLengths (dedupAdd f [] l) =
      ∑ v ∈ (l.filter f).toFinset, v.cachedLength := by
  have hnodvid : ((dedupAdd f [] l).map (fun v => v.vid)).Nodup :=
    nodup_dedupAdd f l [] (by simp)
  have hnd : (dedupAdd f [] l).Nodup := List.Nodup.of_map _ hnodvid
  have hset : (dedupAdd f [] l).toFinset = (l.filter f).toFinset := by
    apply Finset.ext
    intro v
    rw [List.mem_toFinset, List.mem_toFinset, List.mem_filter]
    constructor
    · intro hv
      rcases mem_dedupAdd f l [] v hv with h1 | h1
      · exact absurd h1 (List.not_mem_nil v)
      · exact h1
    · rintro ⟨hvl, hvf⟩
      obtain ⟨u, hu, hvid⟩ := vid_cover_dedupAdd f l [] v hvl hvf
      rcases mem_dedupAdd f l [] u hu with h1 | h1
      · exact absurd h1 (List.not_mem_nil u)
      · have : u = v := hinj u v h1.1 hvl hvid
        rw [← this]
        exact hu
  rw [sumLengths_eq_map_sum, ← List.sum_toFinset _ hnd, hset]

/-! ### Claim C5: Rebuild counts each distinct parked vehicle once -/

lemma runAt_cont_anchor (w : World) (s : Int) (n : Nat) (h : RunAt w s n)
    (hsDT : ∀ i, w.map s = some i → i.isDT = true) :
    ∀ i : Nat, i < n → IsCont w s (s + (i : Int)) = true := by
  intro i
  induction i with
  | zero =>
      intro _
      obtain ⟨-, hmap, -, -, -⟩ := h
      cases hm : w.map s with
      | none => exact absurd hm hmap
      | some info =>
          have := isCont_self w s info hm (hsDT info hm)
          convert this using 2
          push_cast
          ring
  | succ j ih =>
      intro hj
      have h1 := ih (by omega)
      have h2 := h.2.2.1 j (by omega)
      have h3 := isCont_trans w s (s + (j : Int)) (s + (j : Int) + 1) h1 h2
      convert h3 using 2
      push_cast
      ring

lemma runAt_cont_end (w : World) (s : Int) (n : Nat) (h : RunAt w s n)
    (hsDT : ∀ i, w.map s = some i → i.isDT = true) :
    IsCont w s (s + (n : Int)) = false := by
  have hend := h.2.2.2.2
  have h1le : 1 ≤ n := h.1
  have hanch := runAt_cont_anchor w s n h hsDT (n - 1) (by omega)
  have e : s + ((n - 1 : Nat) : Int) = s + (n : Int) - 1 := by omega
  rw [e] at hanch
  rw [← isCont_shift w s (s + (n : Int) - 1) hanch (s + (n : Int))]
  exact hend

/-- C5: `Platform::Rebuild` on the base of an `n`-tile run sets the
length to `TILE_SIZE * n` and each occupancy total to the sum of cached
lengths over the *distinct* primary, non-crashed, in-stop road vehicles
of the matching direction present anywhere on the run — a vehicle
spanning several run tiles is counted exactly once. -/
theorem rebuild_counts_distinct_vehicles (w : World) (s : Int) (n fuel : Nat)
    (hrun : RunAt w s n)
    (hsDT : ∀ i, w.map s = some i → i.isDT = true)
    (hfuel : n < fuel)
    (hinj : ∀ u v, u ∈ vehiclesOnTiles w (tileRange s n) →
      v ∈ vehiclesOnTiles w (tileRange s n) → u.vid = v.vid → u = v) :
    ∃ P, Platform.Rebuild w s fuel = some P ∧
      P.length = TILE_SIZE * n ∧
      P.occupied_east =
        ∑ v ∈ ((vehiclesOnTiles w (tileRange s n)).filter eastCountable).toFinset,
          v.cachedLength ∧
      P.occupied_west =
        ∑ v ∈ ((vehiclesOnTiles w (tileRange s n)).filter westCountable).toFinset,
          v.cachedLength := by
  have hrb := rebuild_eq_runRebuild w s n fuel (runAt_cont_anchor w s n hrun hsDT)
    (runAt_cont_end w s n hrun hsDT) hfuel
  refine ⟨runRebuild w s n, hrb, rfl, ?_, ?_⟩
  · show sumLengths (collectVehicles w (tileRange s n)).1 = _
    rw [collectVehicles_eq_fold, foldl_addVehicle_fst]
    exact sumLengths_dedupAdd eastCountable _ hinj
  · show sumLengths (collectVehicles w (tileRange s n)).2 = _
    rw [collectVehicles_eq_fold, foldl_addVehicle_snd]
    exact sumLengths_dedupAdd westCountable _ hinj

/-- C5 witness: a two-tile run where vehicle `vA` (east, length 8)
spans both tiles and `vB` (west, length 5) sits on one tile: the east
total counts `vA` once. -/
theorem rebuild_counts_distinct_vehicles_witness :
    ∃ P, Platform.Rebuild (lineWorld 2 infoA 0 ⟨TILE_SIZE * 2, 8, 5⟩ 1 vehW) 0 5 = some P ∧
      P.length = TILE_SIZE * 2 ∧ P.occupied_east = 8 ∧ P.occupied_west = 5 := by
  have hc := rebuild_counts_distinct_vehicles
    (lineWorld 2 infoA 0 ⟨TILE_SIZE * 2, 8, 5⟩ 1 vehW) 0 2 5
    (by
      unfold RunAt
      refine ⟨by decide, by decide, ?_, by decide, by decide⟩
      intro i hi
      have : i = 0 := by omega
      subst this
      decide)
    (by
      intro i hi
      have h2 : some infoA = some i := by
        rw [← hi]
        rfl
      cases Option.some.inj h2
      rfl)
    (by decide)
    (by
      have hlist : vehiclesOnTiles
          (lineWorld 2 infoA 0 ⟨TILE_SIZE * 2, 8, 5⟩ 1 vehW) (tileRange 0 2) =
          [vA, vA, vB] := rfl
      intro u v hu hv hvid
      rw [hlist] at hu hv
      simp only [List.mem_cons, List.not_mem_nil, or_false] at hu hv
      rcases hu with h1 | h1 | h1 <;> rcases hv with h2 | h2 | h2 <;>
        subst h1 <;> subst h2 <;>
        first
          | rfl
          | exact absurd hvid (by decide))
  obtain ⟨P, h1, h2, h3, h4⟩ := hc
  refine ⟨P, h1, h2, ?_, ?_⟩
  · rw [h3]
    decide
  · rw [h4]
    decide

/-! ### Claim C8: ClearDriveThrough always ends with the tile reset -/

/-- C8: every successful run of `ClearDriveThrough`, whichever neighbour
case applied, leaves the detached tile's record with the base bit
cleared and a NULL platform reference. -/
theorem clearDriveThrough_resets_tile (w : World) (xy : Int) (fuel : Nat) (w' : World)
    (h : ClearDriveThrough w xy fuel = some w') :
    w'.stops xy = some ⟨false, none⟩ := by
  unfold ClearDriveThrough at h
  split at h
  · exact Option.noConfusion h
  · obtain ⟨wf, -, hw⟩ := Option.map_eq_some'.mp h
    subst hw
    simp [updStop]

/-- C8 witness: detaching the sole tile of the one-tile sample run. -/
theorem clearDriveThrough_resets_tile_witness :
    ∃ w', ClearDriveThrough (sampleLine 1) 0 1 = some w' ∧ w'.stops 0 = some ⟨false, none⟩ := by
  have hs : (ClearDriveThrough (sampleLine 1) 0 1).isSome = true := by decide
  cases h : ClearDriveThrough (sampleLine 1) 0 1 with
  | none => rw [h] at hs; cases hs
  | some w' => exact ⟨w', rfl, clearDriveThrough_resets_tile (sampleLine 1) 0 1 w' h⟩

/-! ### Claim C9: CheckIntegrity does not mutate anything -/

/-- C9: `CheckIntegrity` is a pure consistency oracle: on every
successful call the resulting world is exactly the input world — the
recomputation is done only into a stack-local temporary platform. -/
theorem checkIntegrity_pure (w : World) (xy : Int) (fuel : Nat) (w' : World) (b : Bool)
    (h : CheckIntegrity w xy fuel = some (w', b)) :
    w' = w := by
  unfold CheckIntegrity at h
  obtain ⟨a, -, hw⟩ := Option.map_eq_some'.mp h
  exact ((Prod.mk.injEq _ _ _ _).mp hw).1.symm

/-- C9 witness: checking the base tile of the one-tile sample run. -/
theorem checkIntegrity_pure_witness :
    ∃ w' b, CheckIntegrity (sampleLine 1) 0 5 = some (w', b) ∧ w' = sampleLine 1 := by
  have hs : (CheckIntegrity (sampleLine 1) 0 5).isSome = true := by decide
  cases h : CheckIntegrity (sampleLine 1) 0 5 with
  | none => rw [h] at hs; cases hs
  | some pr =>
      obtain ⟨w', b⟩ := pr
      exact ⟨w', b, rfl, checkIntegrity_pure (sampleLine 1) 0 5 w' b h⟩

/-! ### Claim C10: the destructor deletes the platform iff the base bit is set -/

/-- C10: `~RoadStop` deletes the referenced platform exactly when the
record carries the `RSSFB_BASE_ENTRY` bit; destroying a non-base record
leaves the whole platform heap untouched. -/
theorem destructor_deletes_iff_base (w : World) (xy : Int) (rs : RoadStopRec) (p : Nat) (w' : World)
    (hrs : w.stops xy = some rs) (hp : rs.platform = some p)
    (h : destructRoadStop w xy = some w') :
    (rs.base = true → w'.plats p = none ∧ ∀ q, q ≠ p → w'.plats q = w.plats q) ∧
    (rs.base = false → w'.plats = w.plats) := by
  unfold destructRoadStop at h
  rw [hrs] at h
  simp only [hp] at h
  cases h
  cases hb : rs.base
  · simp [hb, updStop]
  · constructor
    · intro _
      constructor
      · simp [hb, updStop, updPlat]
      · intro q hq
        simp [hb, updStop, updPlat, hq]
    · intro hc
      exact Bool.noConfusion hc

/-- C10 witness: destroying the base record of the one-tile sample run
deletes its platform. -/
theorem destructor_deletes_iff_base_witness :
    ∃ w', destructRoadStop (sampleLine 1) 0 = some w' ∧ w'.plats 0 = none := by
  have hs : (destructRoadStop (sampleLine 1) 0).isSome = true := by decide
  cases h : destructRoadStop (sampleLine 1) 0 with
  | none => rw [h] at hs; cases hs
  | some w' =>
      refine ⟨w', rfl, ?_⟩
      exact ((destructor_deletes_iff_base (sampleLine 1) 0 ⟨true, some 0⟩ 0 w' rfl rfl h).1 rfl).1

/-! ### Fuel monotonicity: a loop that finishes with some fuel finishes
identically with more fuel -/

lemma scanTiles_mono (w : World) (a : Int) :
    ∀ (f1 : Nat) (t : Int) (l : List Int) (f2 : Nat), f1 ≤ f2 →
      scanTiles w a f1 t = some l → scanTiles w a f2 t = some l := by
  intro f1
  induction f1 with
  | zero =>
      intro t l f2 _ h
      unfold scanTiles at h
      cases hc : IsCont w a t with
      | true => rw [hc] at h; exact absurd h (by simp)
      | false =>
          rw [hc] at h
          cases f2 with
          | zero => unfold scanTiles; rw [hc]; exact h
          | succ f2 => unfold scanTiles; rw [hc]; exact h
  | succ f1 ih =>
      intro t l f2 hle h
      match f2, hle with
      | f2 + 1, hle =>
        unfold scanTiles at h ⊢
        cases hc : IsCont w a t with
        | false => rw [hc] at h; exact h
        | true =>
            rw [hc] at h
            cases hr : scanTiles w a f1 (t + 1) with
            | none => rw [hr] at h; exact absurd h (by simp)
            | some l2 =>
                rw [hr] at h
                rw [ih (t + 1) l2 f2 (by omega) hr]
                exact h

lemma rebuild_mono (w : World) (t : Int) (f1 f2 : Nat) (P : Platform) (hle : f1 ≤ f2)
    (h : Platform.Rebuild w t f1 = some P) : Platform.Rebuild w t f2 = some P := by
  unfold Platform.Rebuild at h ⊢
  cases hs : scanTiles w t f1 t with
  | none => rw [hs] at h; exact absurd h (by simp)
  | some l =>
      rw [hs] at h
      rw [scanTiles_mono w t f1 t l f2 hle hs]
      exact h

lemma joinSouth_mono (anchor : Int) (p : Nat) :
    ∀ (f1 : Nat) (w : World) (st : Int) (added : Nat) (r : World × Nat) (f2 : Nat), f1 ≤ f2 →
      joinSouth anchor p f1 w st added = some r → joinSouth anchor p f2 w st added = some r := by
  intro f1
  induction f1 with
  | zero =>
      intro w st added r f2 _ h
      unfold joinSouth at h
      cases hc : IsCont w anchor st with
      | true => rw [hc] at h; exact absurd h (by simp)
      | false =>
          rw [hc] at h
          cases f2 with
          | zero => unfold joinSouth; rw [hc]; exact h
          | succ f2 => unfold joinSouth; rw [hc]; exact h
  | succ f1 ih =>
      intro w st added r f2 hle h
      match f2, hle with
      | f2 + 1, hle =>
        unfold joinSouth at h ⊢
        cases hc : IsCont w anchor st with
        | false => rw [hc] at h; exact h
        | true =>
            rw [hc] at h
            cases hs : w.stops st with
            | none => simp [hs] at h
            | some rs =>
                simp only [hs] at h ⊢
                cases hp : rs.platform with
                | none => simp only [hp] at h ⊢; exact h
                | some q =>
                    simp only [hp] at h ⊢
                    exact ih _ _ _ r f2 (by omega) h

lemma splitSouth_mono (base : Int) (p : Nat) :
    ∀ (f1 : Nat) (w : World) (st : Int) (r : World) (f2 : Nat), f1 ≤ f2 →
      splitSouth base p f1 w st = some r → splitSouth base p f2 w st = some r := by
  intro f1
  induction f1 with
  | zero =>
      intro w st r f2 _ h
      unfold splitSouth at h
      cases hc : IsCont w base st with
      | true => rw [hc] at h; exact absurd h (by simp)
      | false =>
          rw [hc] at h
          cases f2 with
          | zero => unfold splitSouth; rw [hc]; exact h
          | succ f2 => unfold splitSouth; rw [hc]; exact h
  | succ f1 ih =>
      intro w st r f2 hle h
      match f2, hle with
      | f2 + 1, hle =>
        unfold splitSouth at h ⊢
        cases hc : IsCont w base st with
        | false => rw [hc] at h; exact h
        | true =>
            rw [hc] at h
            cases hs : w.stops st with
            | none => simp [hs] at h
            | some rs =>
                simp only [hs] at h ⊢
                exact ih _ _ r f2 (by omega) h

lemma findNorth_mono (w : World) (base : Int) :
    ∀ (f1 : Nat) (nt cur : Int) (r : Int) (f2 : Nat), f1 ≤ f2 →
      findNorth w base f1 nt cur = some r → findNorth w base f2 nt cur = some r := by
  intro f1
  induction f1 with
  | zero =>
      intro nt cur r f2 _ h
      unfold findNorth at h
      cases hc : IsCont w base nt with
      | true => rw [hc] at h; exact absurd h (by simp)
      | false =>
          rw [hc] at h
          cases f2 with
          | zero => unfold findNorth; rw [hc]; exact h
          | succ f2 => unfold findNorth; rw [hc]; exact h
  | succ f1 ih =>
      intro nt cur r f2 hle h
      match f2, hle with
      | f2 + 1, hle =>
        unfold findNorth at h ⊢
        cases hc : IsCont w base nt with
        | false => rw [hc] at h; exact h
        | true =>
            rw [hc] at h
            exact ih _ _ r f2 (by omega) h

lemma mdt_mono (w : World) (xy : Int) (f1 f2 : Nat) (w' : World) (hle : f1 ≤ f2)
    (h : MakeDriveThrough w xy f1 = some w') : MakeDriveThrough w xy f2 = some w' := by
  cases h0 : w.stops xy with
  | none => simp [MakeDriveThrough, h0] at h
  | some this0 =>
  cases hnb : IsCont w xy (xy - 1) with
  | false =>
      cases hsb : IsCont w xy (xy + 1) with
      | false =>
          simp [MakeDriveThrough, h0, hnb, hsb] at h ⊢
          exact h
      | true =>
          cases hS : w.stops (xy + 1) with
          | none => simp [MakeDriveThrough, h0, hnb, hsb, hS] at h
          | some rsS =>
              simp [MakeDriveThrough, h0, hnb, hsb, hS] at h ⊢
              exact h
  | true =>
      cases hN : w.stops (xy - 1) with
      | none => simp [MakeDriveThrough, h0, hnb, hN] at h
      | some rsN =>
      cases hNp : rsN.platform with
      | none =>
          cases hsb : IsCont w xy (xy + 1) with
          | false =>
              simp [MakeDriveThrough, h0, hnb, hN, hNp, hsb] at h ⊢
              exact h
          | true =>
              cases hS : w.stops (xy + 1) with
              | none => simp [MakeDriveThrough, h0, hnb, hN, hNp, hsb, hS] at h
              | some rsS =>
                  simp [MakeDriveThrough, h0, hnb, hN, hNp, hsb, hS] at h ⊢
                  exact h
      | some p =>
          cases hsb : IsCont w xy (xy + 1) with
          | false =>
              simp [MakeDriveThrough, h0, hnb, hN, hNp, hsb] at h ⊢
              exact h
          | true =>
              cases hS : w.stops (xy + 1) with
              | none => simp [MakeDriveThrough, h0, hnb, hN, hNp, hsb, hS] at h
              | some rsS =>
              cases hSp : rsS.platform with
              | none =>
                  simp [MakeDriveThrough, h0, hnb, hN, hNp, hsb, hS, hSp] at h ⊢
                  exact h
              | some q =>
                  simp [MakeDriveThrough, h0, hnb, hN, hNp, hsb, hS, hSp,
                    Option.map_some', updStop_plats, updStop_stops] at h ⊢
                  cases hPp : w.plats p with
                  | none => simp [hPp] at h
                  | some Pp =>
                  cases hPq : w.plats q with
                  | none => simp [hPp, hPq] at h
                  | some Pq =>
                  simp only [hPp, hPq] at h ⊢
                  split at h
                  · exact absurd h (by simp)
                  · rename_i w5add heq
                    rw [joinSouth_mono xy p f1 _ _ _ _ f2 hle heq]
                    exact h

lemma cdt_core_mono (w : World) (xy : Int) (f1 f2 : Nat) (this0 : RoadStopRec) (wf : World)
    (hle : f1 ≤ f2) (h : ClearDriveThroughCore w xy f1 this0 = some wf) :
    ClearDriveThroughCore w xy f2 this0 = some wf := by
  cases hnb : IsCont w xy (xy - 1) with
  | false =>
      cases hsb : IsCont w xy (xy + 1) with
      | false =>
          simp [ClearDriveThroughCore, hnb, hsb] at h ⊢
          exact h
      | true =>
          cases hS : w.stops (xy + 1) with
          | none => simp [ClearDriveThroughCore, hnb, hsb, hS] at h
          | some rsS =>
              simp [ClearDriveThroughCore, hnb, hsb, hS] at h ⊢
              exact h
  | true =>
      cases hN : w.stops (xy - 1) with
      | none => simp [ClearDriveThroughCore, hnb, hN] at h
      | some rsN =>
      cases hsb : IsCont w xy (xy + 1) with
      | false =>
          simp [ClearDriveThroughCore, hnb, hN, hsb] at h ⊢
          exact h
      | true =>
          cases hS : w.stops (xy + 1) with
          | none => simp [ClearDriveThroughCore, hnb, hN, hsb, hS] at h
          | some rsS =>
          simp [ClearDriveThroughCore, hnb, hN, hsb, hS, Option.map_some',
            updMap_nextId, updMap_stops, updMap_plats, updStop_stops, updStop_plats,
            updPlat_stops] at h ⊢
          split at h
          · exact absurd h (by simp)
          · rename_i w3 heq1
            have e1 := splitSouth_mono (xy + 1) w.nextId f1 _ _ w3 f2 hle heq1
            split at h
            · exact absurd h (by simp)
            · rename_i nb heq2
              have e2 := findNorth_mono w3 (xy + 1) f1 _ _ nb f2 hle heq2
              split at h
              · exact absurd h (by simp)
              · rename_i PS heq3
                have e3 := rebuild_mono w3 (xy + 1) f1 f2 PS hle heq3
                split at h
                · exact absurd h (by simp)
                · rename_i rsNB heq4
                  split at h
                  · exact absurd h (by simp)
                  · rename_i pN heq5
                    split at h
                    · exact absurd h (by simp)
                    · rename_i PN heq6
                      have e6 := rebuild_mono _ nb f1 f2 PN hle heq6
                      simp only [e1, e2, e3, heq4, heq5, e6]
                      exact h

lemma cdt_mono (w : World) (xy : Int) (f1 f2 : Nat) (w' : World) (hle : f1 ≤ f2)
    (h : ClearDriveThrough w xy f1 = some w') : ClearDriveThrough w xy f2 = some w' := by
  unfold ClearDriveThrough at h ⊢
  cases h0 : w.stops xy with
  | none => rw [h0] at h; exact absurd h (by simp)
  | some this0 =>
      rw [h0] at h
      rw [Option.map_eq_some'] at h ⊢
      obtain ⟨wf, hcore, hw'⟩ := h
      exact ⟨wf, cdt_core_mono w xy f1 f2 this0 wf hle hcore, hw'⟩

/-! ### Structure of maximal runs: congruence, uniqueness, existence -/

lemma isCont_congr_local (w w' : World) (a b : Int)
    (ha : w'.map a = w.map a) (hb : w'.map b = w.map b) :
    IsCont w' a b = IsCont w a b := by
  unfold IsCont IsDriveThroughRoadStopContinuation
  rw [ha, hb]

lemma runAt_congr_local (w w' : World) (s : Int) (n : Nat)
    (hmap : ∀ u : Int, s - 1 ≤ u → u ≤ s + (n : Int) → w'.map u = w.map u)
    (h : RunAt w s n) : RunAt w' s n := by
  obtain ⟨h1, h2, h3, h4, h5⟩ := h
  have hn1 : 1 ≤ (n : Int) := by exact_mod_cast h1
  refine ⟨h1, ?_, ?_, ?_, ?_⟩
  · rw [hmap s (by omega) (by omega)]
    exact h2
  · intro i hi
    have hi' : (i : Int) + 1 < (n : Int) := by exact_mod_cast hi
    rw [isCont_congr_local w w' _ _ (hmap _ (by omega) (by omega))
      (hmap _ (by omega) (by omega))]
    exact h3 i hi
  · rw [isCont_congr_local w w' _ _ (hmap s (by omega) (by omega))
      (hmap (s - 1) (by omega) (by omega))]
    exact h4
  · rw [isCont_congr_local w w' _ _ (hmap _ (by omega) (by omega))
      (hmap _ (by omega) (by omega))]
    exact h5

lemma runAt_mapped (w : World) (s : Int) (n : Nat) (h : RunAt w s n)
    (hsDT : ∀ i, w.map s = some i → i.isDT = true) :
    ∀ i : Nat, i < n → w.map (s + (i : Int)) ≠ none := by
  intro i hi
  cases i with
  | zero => simpa using h.2.1
  | succ j =>
      have hc := runAt_cont_anchor w s n h hsDT (j + 1) hi
      exact isCont_mapped_right w s _ hc

lemma runAt_cont_pair (w : World) (s : Int) (n : Nat) (h : RunAt w s n)
    (hDT : ∀ t i, w.map t = some i → i.isDT = true) (i j : Nat) (hi : i < n) (hj : j < n) :
    IsCont w (s + (i : Int)) (s + (j : Int)) = true := by
  have hsDT : ∀ i, w.map s = some i → i.isDT = true := fun i hm => hDT s i hm
  have h1 := runAt_cont_anchor w s n h hsDT i hi
  have h2 := runAt_cont_anchor w s n h hsDT j hj
  rw [isCont_shift w s (s + (i : Int)) h1 (s + (j : Int))]
  exact h2

lemma runAt_no_inner_start (w : World) (hDT : ∀ t i, w.map t = some i → i.isDT = true)
    (s : Int) (n : Nat) (s' : Int) (n' : Nat)
    (h : RunAt w s n) (h' : RunAt w s' n')
    (hlt : s < s') (hle : s' < s + (n : Int)) : False := by
  have hii : ((s' - 1 - s).toNat : Int) = s' - 1 - s := by omega
  have hlink := h.2.2.1 (s' - 1 - s).toNat (by omega)
  have hlink' : IsCont w (s' - 1) s' = true := by
    convert hlink using 2 <;> omega
  have hend := h'.2.2.2.1
  rw [isCont_symm w hDT s' (s' - 1), hlink'] at hend
  exact Bool.noConfusion hend

lemma runAt_unique (w : World) (hDT : ∀ t i, w.map t = some i → i.isDT = true)
    (s : Int) (n : Nat) (s' : Int) (n' : Nat)
    (h : RunAt w s n) (h' : RunAt w s' n') (t : Int)
    (ht1 : s ≤ t) (ht2 : t < s + (n : Int)) (ht3 : s' ≤ t) (ht4 : t < s' + (n' : Int)) :
    s = s' ∧ n = n' := by
  have h1n := h.1
  have h1n' := h'.1
  have hs : s = s' := by
    rcases lt_trichotomy s s' with hlt | heq | hgt
    · exact absurd (runAt_no_inner_start w hDT s n s' n' h h' hlt (by omega)) id
    · exact heq
    · exact absurd (runAt_no_inner_start w hDT s' n' s n h' h hgt (by omega)) id
  subst hs
  have hn : n = n' := by
    by_contra hne
    rcases Nat.lt_or_ge n n' with hlt | hge
    · have hlink := h'.2.2.1 (n - 1) (by omega)
      have hnd : IsCont w (s + (n : Int) - 1) (s + (n : Int)) = true := by
        convert hlink using 2 <;> omega
      have hend := h.2.2.2.2
      rw [hnd] at hend
      exact Bool.noConfusion hend
    · have hlt : n' < n := by omega
      have hlink := h.2.2.1 (n' - 1) (by omega)
      have hnd : IsCont w (s + (n' : Int) - 1) (s + (n' : Int)) = true := by
        convert hlink using 2 <;> omega
      have hend := h'.2.2.2.2
      rw [hnd] at hend
      exact Bool.noConfusion hend
  exact ⟨rfl, hn⟩

lemma north_chain (w : World) (lo : Int) (hlo : ∀ t : Int, t < lo → w.map t = none) :
    ∀ (b : Nat) (t : Int), w.map t ≠ none → (t - lo).toNat ≤ b →
    ∃ k : Nat, (∀ j : Nat, j < k → IsCont w (t - (j : Int)) (t - (j : Int) - 1) = true) ∧
      IsCont w (t - (k : Int)) (t - (k : Int) - 1) = false := by
  intro b
  induction b with
  | zero =>
      intro t hm hb
      have hge : lo ≤ t := by
        by_contra hc
        exact hm (hlo t (by omega))
      have h0 : w.map (t - 1) = none := hlo _ (by omega)
      refine ⟨0, fun j hj => absurd hj (Nat.not_lt_zero j), ?_⟩
      have := isCont_false_of_unmapped_right w t (t - 1) h0
      convert this using 2 <;> push_cast <;> ring
  | succ b ih =>
      intro t hm hb
      cases hc : IsCont w t (t - 1) with
      | false =>
          refine ⟨0, fun j hj => absurd hj (Nat.not_lt_zero j), ?_⟩
          convert hc using 2 <;> push_cast <;> ring
      | true =>
          have hm1 : w.map (t - 1) ≠ none := isCont_mapped_right w t (t - 1) hc
          have hge1 : lo ≤ t - 1 := by
            by_contra hcc
            exact hm1 (hlo _ (by omega))
          obtain ⟨k, hk1, hk2⟩ := ih (t - 1) hm1 (by omega)
          refine ⟨k + 1, ?_, ?_⟩
          · intro j hj
            cases j with
            | zero => convert hc using 2 <;> push_cast <;> ring
            | succ j2 =>
                have := hk1 j2 (by omega)
                convert this using 2 <;> push_cast <;> ring
          · convert hk2 using 2 <;> push_cast <;> ring

lemma south_chain (w : World) (hi : Int) (hhi : ∀ t : Int, hi < t → w.map t = none) :
    ∀ (b : Nat) (t : Int), w.map t ≠ none → (hi - t).toNat ≤ b →
    ∃ k : Nat, (∀ j : Nat, j < k → IsCont w (t + (j : Int)) (t + (j : Int) + 1) = true) ∧
      IsCont w (t + (k : Int)) (t + (k : Int) + 1) = false := by
  intro b
  induction b with
  | zero =>
      intro t hm hb
      have hge : t ≤ hi := by
        by_contra hc
        exact hm (hhi t (by omega))
      have h0 : w.map (t + 1) = none := hhi _ (by omega)
      refine ⟨0, fun j hj => absurd hj (Nat.not_lt_zero j), ?_⟩
      have := isCont_false_of_unmapped_right w t (t + 1) h0
      convert this using 2 <;> push_cast <;> ring
  | succ b ih =>
      intro t hm hb
      cases hc : IsCont w t (t + 1) with
      | false =>
          refine ⟨0, fun j hj => absurd hj (Nat.not_lt_zero j), ?_⟩
          convert hc using 2 <;> push_cast <;> ring
      | true =>
          have hm1 : w.map (t + 1) ≠ none := isCont_mapped_right w t (t + 1) hc
          have hge1 : t + 1 ≤ hi := by
            by_contra hcc
            exact hm1 (hhi _ (by omega))
          obtain ⟨k, hk1, hk2⟩ := ih (t + 1) hm1 (by omega)
          refine ⟨k + 1, ?_, ?_⟩
          · intro j hj
            cases j with
            | zero => convert hc using 2 <;> push_cast <;> ring
            | succ j2 =>
                have := hk1 j2 (by omega)
                convert this using 2 <;> push_cast <;> ring
          · convert hk2 using 2 <;> push_cast <;> ring

lemma exists_runAt (w : World) (hDT : ∀ t i, w.map t = some i → i.isDT = true)
    (lo hi : Int) (hb : ∀ t : Int, t < lo ∨ hi < t → w.map t = none)
    (t : Int) (hm : w.map t ≠ none) :
    ∃ (s : Int) (n : Nat), RunAt w s n ∧ s ≤ t ∧ t < s + (n : Int) := by
  obtain ⟨kN, hN1, hN2⟩ :=
    north_chain w lo (fun u hu => hb u (Or.inl hu)) ((t - lo).toNat) t hm (le_refl _)
  obtain ⟨kS, hS1, hS2⟩ :=
    south_chain w hi (fun u hu => hb u (Or.inr hu)) ((hi - t).toNat) t hm (le_refl _)
  have hmapS : w.map (t - (kN : Int)) ≠ none := by
    cases kN with
    | zero => simpa using hm
    | succ k =>
        have hl := hN1 k (by omega)
        have h2 := isCont_mapped_right w _ _ hl
        have he : t - ((k + 1 : Nat) : Int) = t - (k : Int) - 1 := by push_cast; ring
        rw [he]
        exact h2
  refine ⟨t - (kN : Int), kN + kS + 1, ⟨by omega, hmapS, ?_, ?_, ?_⟩, by omega, by push_cast; omega⟩
  · intro i hi2
    rcases Nat.lt_or_ge i kN with hiN | hiS
    · have hl := hN1 (kN - 1 - i) (by omega)
      rw [isCont_symm w hDT] at hl
      have he1 : t - ((kN - 1 - i : Nat) : Int) - 1 = t - (kN : Int) + (i : Int) := by omega
      have he2 : t - ((kN - 1 - i : Nat) : Int) = t - (kN : Int) + (i : Int) + 1 := by omega
      rw [he1, he2] at hl
      exact hl
    · have hl := hS1 (i - kN) (by omega)
      have he1 : t + ((i - kN : Nat) : Int) = t - (kN : Int) + (i : Int) := by omega
      rw [he1] at hl
      exact hl
  · exact hN2
  · have he1 : t - (kN : Int) + ((kN + kS + 1 : Nat) : Int) - 1 = t + (kS : Int) := by
      push_cast
      ring
    have he2 : t - (kN : Int) + ((kN + kS + 1 : Nat) : Int) = t + (kS : Int) + 1 := by
      push_cast
      ring
    rw [he1, he2]
    exact hS2

/-! ### Occupancy bookkeeping: splitting the deduplicating vehicle folds -/

lemma sumLengths_append (a b : List Vehicle) :
    sumLengths (a ++ b) = sumLengths a + sumLengths b := by
  rw [sumLengths_eq_map_sum, sumLengths_eq_map_sum, sumLengths_eq_map_sum,
    List.map_append, List.sum_append]

lemma dedupAdd_append (f : Vehicle → Bool) (e l1 l2 : List Vehicle) :
    dedupAdd f e (l1 ++ l2) = dedupAdd f (dedupAdd f e l1) l2 := by
  unfold dedupAdd
  rw [List.foldl_append]

lemma dedupAdd_skip (f : Vehicle → Bool) :
    ∀ (l : List Vehicle), (∀ v ∈ l, f v = false) → ∀ e, dedupAdd f e l = e := by
  intro l
  induction l with
  | nil => intro _ e; rfl
  | cons v l ih =>
      intro hl e
      have hv : f v = false := hl v (List.mem_cons_self v l)
      have h1 : dedupAdd f e (v :: l) = dedupAdd f e l := by
        unfold dedupAdd
        rw [List.foldl_cons]
        congr 1
        simp [hv]
      rw [h1]
      exact ih (fun u hu => hl u (List.mem_cons_of_mem v hu)) e

lemma dedupAdd_append_left (f : Vehicle → Bool) :
    ∀ (l e d : List Vehicle),
      (∀ v ∈ l, f v = true → ∀ u ∈ e, ¬ u.vid = v.vid) →
      dedupAdd f (e ++ d) l = e ++ dedupAdd f d l := by
  intro l
  induction l with
  | nil => intro e d _; rfl
  | cons v l ih =>
      intro e d hdis
      have step : (if f v = true then addIfNew (e ++ d) v else (e ++ d)) =
          e ++ (if f v = true then addIfNew d v else d) := by
        cases hf : f v with
        | false => simp
        | true =>
            show addIfNew (e ++ d) v = e ++ addIfNew d v
            unfold addIfNew
            have he : e.any (fun u => u.vid == v.vid) = false := by
              rw [List.any_eq_false]
              intro u hu
              simpa using hdis v (List.mem_cons_self v l) hf u hu
            rw [List.any_append, he, Bool.false_or]
            cases hd : d.any (fun u => u.vid == v.vid) with
            | true => rfl
            | false =>
                rw [List.append_assoc]
                rfl
      have h1 : dedupAdd f (e ++ d) (v :: l) =
          dedupAdd f (e ++ (if f v = true then addIfNew d v else d)) l := by
        show List.foldl (fun e v => if f v = true then addIfNew e v else e) (e ++ d) (v :: l) =
          dedupAdd f (e ++ (if f v = true then addIfNew d v else d)) l
        rw [List.foldl_cons]
        exact congrArg
          (fun acc => List.foldl (fun e v => if f v = true then addIfNew e v else e) acc l) step
      have h2 : dedupAdd f d (v :: l) =
          dedupAdd f (if f v = true then addIfNew d v else d) l := by
        unfold dedupAdd
        rw [List.foldl_cons]
      rw [h1, h2]
      apply ih
      intro u hu hfu x hx
      exact hdis u (List.mem_cons_of_mem v hu) hfu x hx

lemma mem_vehiclesOnTiles (w : World) :
    ∀ (tiles : List Int) (v : Vehicle),
      v ∈ vehiclesOnTiles w tiles ↔ ∃ t ∈ tiles, v ∈ w.veh t := by
  intro tiles
  induction tiles with
  | nil =>
      intro v
      constructor
      · intro h
        exact absurd h (List.not_mem_nil v)
      · rintro ⟨t, ht, _⟩
        exact absurd ht (List.not_mem_nil t)
  | cons t ts ih =>
      intro v
      rw [show vehiclesOnTiles w (t :: ts) = w.veh t ++ vehiclesOnTiles w ts from rfl,
        List.mem_append, ih v]
      constructor
      · rintro (hv | ⟨u, hu, hv⟩)
        · exact ⟨t, List.mem_cons_self t ts, hv⟩
        · exact ⟨u, List.mem_cons_of_mem t hu, hv⟩
      · rintro ⟨u, hu, hv⟩
        rcases List.mem_cons.mp hu with rfl | hu2
        · exact Or.inl hv
        · exact Or.inr ⟨u, hu2, hv⟩

lemma vehiclesOnTiles_append (w : World) (t1 t2 : List Int) :
    vehiclesOnTiles w (t1 ++ t2) = vehiclesOnTiles w t1 ++ vehiclesOnTiles w t2 := by
  induction t1 with
  | nil => rfl
  | cons t ts ih =>
      show w.veh t ++ vehiclesOnTiles w (ts ++ t2) =
        (w.veh t ++ vehiclesOnTiles w ts) ++ vehiclesOnTiles w t2
      rw [ih, List.append_assoc]

lemma tileRange_append (m : Nat) :
    ∀ (s : Int) (n : Nat), tileRange s (m + n) = tileRange s m ++ tileRange (s + (m : Int)) n := by
  induction m with
  | zero =>
      intro s n
      have h1 : 0 + n = n := by omega
      have h2 : s + ((0 : Nat) : Int) = s := by push_cast; ring
      rw [h1, h2, tileRange_zero, List.nil_append]
  | succ m ih =>
      intro s n
      have h1 : m + 1 + n = (m + n) + 1 := by omega
      rw [h1, tileRange_succ, tileRange_succ, ih (s + 1) n, List.cons_append]
      have h2 : s + 1 + (m : Int) = s + ((m + 1 : Nat) : Int) := by push_cast; ring
      rw [h2]

lemma collect_fst_eq (w : World) (tiles : List Int) :
    (collectVehicles w tiles).1 = dedupAdd eastCountable [] (vehiclesOnTiles w tiles) := by
  rw [collectVehicles_eq_fold, foldl_addVehicle_fst]

lemma collect_snd_eq (w : World) (tiles : List Int) :
    (collectVehicles w tiles).2 = dedupAdd westCountable [] (vehiclesOnTiles w tiles) := by
  rw [collectVehicles_eq_fold, foldl_addVehicle_snd]

lemma dedup_skip_front (f : Vehicle → Bool) (lg l2 : List Vehicle)
    (hg : ∀ v ∈ lg, f v = false) :
    dedupAdd f [] (lg ++ l2) = dedupAdd f [] l2 := by
  rw [dedupAdd_append, dedupAdd_skip f lg hg]

lemma dedup_skip_back (f : Vehicle → Bool) (l1 lg : List Vehicle)
    (hg : ∀ v ∈ lg, f v = false) :
    dedupAdd f [] (l1 ++ lg) = dedupAdd f [] l1 := by
  rw [dedupAdd_append, dedupAdd_skip f lg hg]

lemma sum_dedup_concat (f : Vehicle → Bool) (l1 lg l2 : List Vehicle)
    (hg : ∀ v ∈ lg, f v = false)
    (hdis : ∀ v ∈ l2, f v = true → ∀ u ∈ l1, f u = true → ¬ u.vid = v.vid) :
    sumLengths (dedupAdd f [] (l1 ++ lg ++ l2)) =
      sumLengths (dedupAdd f [] l1) + sumLengths (dedupAdd f [] l2) := by
  rw [dedupAdd_append, dedupAdd_append, dedupAdd_skip f lg hg]
  have hsplit : dedupAdd f (dedupAdd f [] l1) l2 =
      dedupAdd f [] l1 ++ dedupAdd f [] l2 := by
    rw [show dedupAdd f [] l1 = dedupAdd f [] l1 ++ [] from (List.append_nil _).symm]
    rw [dedupAdd_append_left]
    · rw [List.append_nil]
    · intro v hv hfv u hu
      rcases mem_dedupAdd f l1 [] u hu with hin | ⟨hu1, hfu⟩
      · exact absurd hin (List.not_mem_nil u)
      · exact hdis v hv hfv u hu1 hfu
  rw [hsplit, sumLengths_append]

/-! ### The built-up state, and transfers of runs across one map change -/

@[simp] lemma buildWorld_map (w : World) (xy : Int) (info : TileInfo) (u : Int) :
    (buildWorld w xy info).map u = if u = xy then some info else w.map u := rfl

@[simp] lemma buildWorld_stops (w : World) (xy : Int) (info : TileInfo) (u : Int) :
    (buildWorld w xy info).stops u =
      if u = xy then some ⟨false, none⟩ else w.stops u := rfl

@[simp] lemma buildWorld_plats (w : World) (xy : Int) (info : TileInfo) :
    (buildWorld w xy info).plats = w.plats := rfl

@[simp] lemma buildWorld_nextId (w : World) (xy : Int) (info : TileInfo) :
    (buildWorld w xy info).nextId = w.nextId := rfl

@[simp] lemma buildWorld_veh (w : World) (xy : Int) (info : TileInfo) :
    (buildWorld w xy info).veh = w.veh := rfl

lemma runPlat_eq_of_stops (w : World) (s : Int) (r : RoadStopRec) (h : w.stops s = some r) :
    runPlat w s = r.platform := by
  unfold runPlat
  rw [h]

lemma countable_of_east (v : Vehicle) (h : eastCountable v = true) : countable v = true := by
  unfold eastCountable at h
  simp only [Bool.and_eq_true] at h
  exact h.1

lemma countable_of_west (v : Vehicle) (h : westCountable v = true) : countable v = true := by
  unfold westCountable at h
  simp only [Bool.and_eq_true] at h
  exact h.1

lemma east_false_of_nc (v : Vehicle) (h : countable v = false) : eastCountable v = false := by
  unfold eastCountable
  rw [h]
  rfl

lemma west_false_of_nc (v : Vehicle) (h : countable v = false) : westCountable v = false := by
  unfold westCountable
  rw [h]
  rfl

lemma run_transfer_to_unmapped (w w2 : World) (xy : Int)
    (hxy : w.map xy = none)
    (hmap : ∀ u : Int, u ≠ xy → w2.map u = w.map u)
    (s : Int) (n : Nat) (h : RunAt w2 s n)
    (hnot : ¬ (s ≤ xy ∧ xy < s + (n : Int))) : RunAt w s n := by
  obtain ⟨h1, h2, h3, h4, h5⟩ := h
  have hn1 : 1 ≤ (n : Int) := by exact_mod_cast h1
  have hout : xy < s ∨ s + (n : Int) ≤ xy := by
    by_contra hc
    push_neg at hc
    exact hnot ⟨by omega, by omega⟩
  refine ⟨h1, ?_, ?_, ?_, ?_⟩
  · rw [← hmap s (by omega)]
    exact h2
  · intro i hi
    have hi' : (i : Int) + 1 < (n : Int) := by exact_mod_cast hi
    rw [← isCont_congr_local w w2 _ _ (hmap _ (by omega)) (hmap _ (by omega))]
    exact h3 i hi
  · by_cases he : s - 1 = xy
    · rw [he]
      exact isCont_false_of_unmapped_right w s xy hxy
    · rw [← isCont_congr_local w w2 _ _ (hmap s (by omega)) (hmap _ he)]
      exact h4
  · by_cases he : s + (n : Int) = xy
    · rw [he]
      exact isCont_false_of_unmapped_right w _ xy hxy
    · rw [← isCont_congr_local w w2 _ _ (hmap _ (by omega)) (hmap _ he)]
      exact h5

lemma run_transfer_removed (w w2 : World) (xy : Int)
    (hmap : ∀ u : Int, u ≠ xy → w2.map u = w.map u)
    (hxy2 : w2.map xy = none)
    (s : Int) (n : Nat) (h : RunAt w2 s n)
    (hendN : s - 1 = xy → IsCont w s (s - 1) = false)
    (hendS : s + (n : Int) = xy → IsCont w (s + (n : Int) - 1) (s + (n : Int)) = false) :
    RunAt w s n := by
  obtain ⟨h1, h2, h3, h4, h5⟩ := h
  have hn1 : 1 ≤ (n : Int) := by exact_mod_cast h1
  have hmapped : ∀ i : Nat, i < n → w2.map (s + (i : Int)) ≠ none := by
    intro i hi
    cases i with
    | zero => simpa using h2
    | succ j =>
        have hl := h3 j (by omega)
        have hmr := isCont_mapped_right w2 _ _ hl
        have he : s + ((j + 1 : Nat) : Int) = s + (j : Int) + 1 := by push_cast; ring
        rw [he]
        exact hmr
  have hnotin : ∀ i : Nat, i < n → s + (i : Int) ≠ xy := by
    intro i hi hEq
    exact hmapped i hi (by rw [hEq]; exact hxy2)
  have hs : s ≠ xy := by
    have := hnotin 0 (by omega)
    simpa using this
  refine ⟨h1, ?_, ?_, ?_, ?_⟩
  · rw [← hmap s hs]
    exact h2
  · intro i hi
    have hi' : (i : Int) + 1 < (n : Int) := by exact_mod_cast hi
    have ha : s + (i : Int) ≠ xy := hnotin i (by omega)
    have hb : s + (i : Int) + 1 ≠ xy := by
      have hx := hnotin (i + 1) (by omega)
      push_cast at hx
      omega
    rw [← isCont_congr_local w w2 _ _ (hmap _ ha) (hmap _ hb)]
    exact h3 i hi
  · by_cases he : s - 1 = xy
    · exact hendN he
    · rw [← isCont_congr_local w w2 _ _ (hmap s hs) (hmap _ he)]
      exact h4
  · by_cases he : s + (n : Int) = xy
    · exact hendS he
    · have ha : s + (n : Int) - 1 ≠ xy := by
        have hx := hnotin (n - 1) (by omega)
        push_cast at hx
        omega
      rw [← isCont_congr_local w w2 _ _ (hmap _ ha) (hmap _ he)]
      exact h5

lemma north_run_of_cont (w : World) (hinv : Inv w) (xy : Int) (hxy : w.map xy = none)
    (hm : w.map (xy - 1) ≠ none) :
    ∃ (nN : Nat) (p : Nat), 1 ≤ nN ∧ RunAt w (xy - (nN : Int)) nN ∧
      (∀ i : Nat, i < nN → w.stops (xy - (nN : Int) + (i : Int)) = some ⟨i == 0, some p⟩) ∧
      (∃ P, w.plats p = some P ∧ P.length = TILE_SIZE * nN) := by
  obtain ⟨lo, hi, hbound⟩ := hinv.bounded
  obtain ⟨s, n, hr, hs1, hs2⟩ := exists_runAt w hinv.allDT lo hi hbound (xy - 1) hm
  have hn1 := hr.1
  have hend : s + (n : Int) = xy := by
    rcases lt_or_ge xy (s + (n : Int)) with hlt | hge
    · exfalso
      have hmp := runAt_mapped w s n hr (fun i hm2 => hinv.allDT s i hm2) (xy - s).toNat
        (by omega)
      apply hmp
      rw [show s + (((xy - s).toNat : Nat) : Int) = xy from by omega]
      exact hxy
    · omega
  obtain ⟨p, hrec, hP⟩ := hinv.runs s n hr
  refine ⟨n, p, hr.1, ?_, ?_, hP⟩
  · rw [show xy - (n : Int) = s from by omega]
    exact hr
  · intro i hi
    rw [show xy - (n : Int) + (i : Int) = s + (i : Int) from by omega]
    exact hrec i hi

lemma south_run_of_cont (w : World) (hinv : Inv w) (xy : Int) (hxy : w.map xy = none)
    (hm : w.map (xy + 1) ≠ none) :
    ∃ (nS : Nat) (p : Nat), 1 ≤ nS ∧ RunAt w (xy + 1) nS ∧
      (∀ i : Nat, i < nS → w.stops (xy + 1 + (i : Int)) = some ⟨i == 0, some p⟩) ∧
      (∃ P, w.plats p = some P ∧ P.length = TILE_SIZE * nS) := by
  obtain ⟨lo, hi, hbound⟩ := hinv.bounded
  obtain ⟨s, n, hr, hs1, hs2⟩ := exists_runAt w hinv.allDT lo hi hbound (xy + 1) hm
  have hn1 := hr.1
  have hstart : s = xy + 1 := by
    rcases lt_or_ge xy s with hlt | hge
    · omega
    · exfalso
      have hmp := runAt_mapped w s n hr (fun i hm2 => hinv.allDT s i hm2) (xy - s).toNat
        (by omega)
      apply hmp
      rw [show s + (((xy - s).toNat : Nat) : Int) = xy from by omega]
      exact hxy
  subst hstart
  obtain ⟨p, hrec, hP⟩ := hinv.runs (xy + 1) n hr
  exact ⟨n, p, hr.1, hr, hrec, hP⟩

/-! ### Re-assembling the invariant after one operation -/

lemma inv_assemble_zero (w w' : World) (hinv : Inv w)
    (hDT' : ∀ t i, w'.map t = some i → i.isDT = true)
    (hbound' : ∃ lo hi : Int, ∀ t : Int, t < lo ∨ hi < t → w'.map t = none)
    (hdead' : ∀ t r, w'.map t = none → w'.stops t = some r → r = ⟨false, none⟩)
    (hnid : w.nextId ≤ w'.nextId)
    (hfar : ∀ s n, RunAt w' s n →
      RunAt w s n ∧
      (∀ i : Nat, i < n → w'.stops (s + (i : Int)) = w.stops (s + (i : Int))) ∧
      (∀ q, runPlat w s = some q → w'.plats q = w.plats q)) :
    Inv w' := by
  have hfarPlat : ∀ s n, RunAt w' s n → ∀ q, runPlat w' s = some q →
      runPlat w s = some q := by
    intro s n hr q hq
    obtain ⟨hw, hrec, -⟩ := hfar s n hr
    have h0 := hrec 0 (by have := hr.1; omega)
    unfold runPlat at hq ⊢
    rw [show s + ((0 : Nat) : Int) = s from by push_cast; ring] at h0
    rw [← h0]
    exact hq
  refine ⟨hDT', hbound', hdead', ?_, ?_, ?_⟩
  · intro s n hr
    obtain ⟨hw, hrec, hq⟩ := hfar s n hr
    obtain ⟨p, hrecw, P, hP, hlen⟩ := hinv.runs s n hw
    refine ⟨p, ?_, ?_⟩
    · intro i hi
      rw [hrec i hi]
      exact hrecw i hi
    · have h0 := hrecw 0 (by have := hw.1; omega)
      rw [show s + ((0 : Nat) : Int) = s from by push_cast; ring] at h0
      have hrp : runPlat w s = some p := runPlat_eq_of_stops w s _ h0
      exact ⟨P, by rw [hq p hrp]; exact hP, hlen⟩
  · intro s n s' n' hr hr' hne p1 p2 hp1 hp2
    obtain ⟨hw1, -, -⟩ := hfar s n hr
    obtain ⟨hw2, -, -⟩ := hfar s' n' hr'
    exact hinv.distinct s n s' n' hw1 hw2 hne p1 p2
      (hfarPlat s n hr p1 hp1) (hfarPlat s' n' hr' p2 hp2)
  · intro s n p hr hp
    obtain ⟨hw1, -, -⟩ := hfar s n hr
    have := hinv.freshPlat s n p hw1 (hfarPlat s n hr p hp)
    omega

lemma invOcc_assemble_zero (w w' : World)
    (hveh : w'.veh = w.veh)
    (hfar : ∀ s n, RunAt w' s n →
      RunAt w s n ∧
      (∀ i : Nat, i < n → w'.stops (s + (i : Int)) = w.stops (s + (i : Int))) ∧
      (∀ q, runPlat w s = some q → w'.plats q = w.plats q))
    (hocc : InvOcc w) : InvOcc w' := by
  intro s n hr p P hp hP
  obtain ⟨hw, hrec, hq⟩ := hfar s n hr
  have h0 := hrec 0 (by have := hr.1; omega)
  have hrp : runPlat w s = some p := by
    unfold runPlat at hp ⊢
    rw [show s + ((0 : Nat) : Int) = s from by push_cast; ring] at h0
    rw [← h0]
    exact hp
  have hPw : w.plats p = some P := by
    rw [← hq p hrp]
    exact hP
  have hres := hocc s n hw p P hrp hPw
  rw [hres]
  exact (runRebuild_eq_of_veh w' w hveh s n).symm

lemma inv_assemble_one (w w' : World) (hinv : Inv w)
    (hDT' : ∀ t i, w'.map t = some i → i.isDT = true)
    (hbound' : ∃ lo hi : Int, ∀ t : Int, t < lo ∨ hi < t → w'.map t = none)
    (hdead' : ∀ t r, w'.map t = none → w'.stops t = some r → r = ⟨false, none⟩)
    (hnid : w.nextId ≤ w'.nextId)
    (ss : Int) (ns : Nat) (ps : Nat)
    (hrunS : RunAt w' ss ns)
    (hrecS : ∀ i : Nat, i < ns → w'.stops (ss + (i : Int)) = some ⟨i == 0, some ps⟩)
    (hplatS : ∃ P, w'.plats ps = some P ∧ P.length = TILE_SIZE * ns)
    (hpS : ps < w'.nextId)
    (hfar : ∀ s n, RunAt w' s n → s ≠ ss →
      RunAt w s n ∧
      (∀ i : Nat, i < n → w'.stops (s + (i : Int)) = w.stops (s + (i : Int))) ∧
      (∀ q, runPlat w s = some q → w'.plats q = w.plats q ∧ q ≠ ps)) :
    Inv w' := by
  have hstar0 : w'.stops ss = some ⟨true, some ps⟩ := by
    have h0 := hrecS 0 (by have := hrunS.1; omega)
    simpa using h0
  have hfarPlat : ∀ s n, RunAt w' s n → s ≠ ss → ∀ q, runPlat w' s = some q →
      runPlat w s = some q := by
    intro s n hr hne q hq
    obtain ⟨hw, hrec, -⟩ := hfar s n hr hne
    have h0 := hrec 0 (by have := hr.1; omega)
    unfold runPlat at hq ⊢
    rw [show s + ((0 : Nat) : Int) = s from by push_cast; ring] at h0
    rw [← h0]
    exact hq
  refine ⟨hDT', hbound', hdead', ?_, ?_, ?_⟩
  · intro s n hr
    by_cases hss : s = ss
    · subst hss
      obtain ⟨-, hnn⟩ := runAt_unique w' hDT' s n s ns hr hrunS s (le_refl s)
        (by have := hr.1; omega) (le_refl s) (by have := hrunS.1; omega)
      subst hnn
      exact ⟨ps, hrecS, hplatS⟩
    · obtain ⟨hw, hrec, hq⟩ := hfar s n hr hss
      obtain ⟨p, hrecw, P, hP, hlen⟩ := hinv.runs s n hw
      refine ⟨p, ?_, ?_⟩
      · intro i hi
        rw [hrec i hi]
        exact hrecw i hi
      · have h0 := hrecw 0 (by have := hw.1; omega)
        rw [show s + ((0 : Nat) : Int) = s from by push_cast; ring] at h0
        have hrp : runPlat w s = some p := runPlat_eq_of_stops w s _ h0
        exact ⟨P, by rw [(hq p hrp).1]; exact hP, hlen⟩
  · intro s n s' n' hr hr' hne p1 p2 hp1 hp2
    by_cases h1 : s = ss
    · have hp1' : p1 = ps := by
        rw [h1, runPlat_eq_of_stops w' ss _ hstar0] at hp1
        exact (Option.some.inj hp1).symm
      have hne' : s' ≠ ss := by
        rw [h1] at hne
        exact fun hEq => hne hEq.symm
      obtain ⟨hw', hrec', hq'⟩ := hfar s' n' hr' hne'
      have hrp2 : runPlat w s' = some p2 := hfarPlat s' n' hr' hne' p2 hp2
      intro hEq
      exact (hq' p2 hrp2).2 (by rw [← hEq, hp1'])
    · by_cases h2 : s' = ss
      · have hp2' : p2 = ps := by
          rw [h2, runPlat_eq_of_stops w' ss _ hstar0] at hp2
          exact (Option.some.inj hp2).symm
        obtain ⟨hw1, hrec1, hq1⟩ := hfar s n hr h1
        have hrp1 : runPlat w s = some p1 := hfarPlat s n hr h1 p1 hp1
        intro hEq
        exact (hq1 p1 hrp1).2 (by rw [hEq, hp2'])
      · obtain ⟨hw1, -, -⟩ := hfar s n hr h1
        obtain ⟨hw2, -, -⟩ := hfar s' n' hr' h2
        exact hinv.distinct s n s' n' hw1 hw2 hne p1 p2
          (hfarPlat s n hr h1 p1 hp1) (hfarPlat s' n' hr' h2 p2 hp2)
  · intro s n p hr hp
    by_cases h1 : s = ss
    · have hps : p = ps := by
        rw [h1, runPlat_eq_of_stops w' ss _ hstar0] at hp
        exact (Option.some.inj hp).symm
      rw [hps]
      exact hpS
    · obtain ⟨hw1, -, -⟩ := hfar s n hr h1
      have := hinv.freshPlat s n p hw1 (hfarPlat s n hr h1 p hp)
      omega

lemma invOcc_assemble_one (w w' : World)
    (hDT' : ∀ t i, w'.map t = some i → i.isDT = true)
    (hveh : w'.veh = w.veh)
    (ss : Int) (ns : Nat) (ps : Nat)
    (hrunS : RunAt w' ss ns)
    (hrecS : ∀ i : Nat, i < ns → w'.stops (ss + (i : Int)) = some ⟨i == 0, some ps⟩)
    (hoccS : ∀ P, w'.plats ps = some P → P = runRebuild w' ss ns)
    (hfar : ∀ s n, RunAt w' s n → s ≠ ss →
      RunAt w s n ∧
      (∀ i : Nat, i < n → w'.stops (s + (i : Int)) = w.stops (s + (i : Int))) ∧
      (∀ q, runPlat w s = some q → w'.plats q = w.plats q ∧ q ≠ ps))
    (hocc : InvOcc w) : InvOcc w' := by
  have hstar0 : w'.stops ss = some ⟨true, some ps⟩ := by
    have h0 := hrecS 0 (by have := hrunS.1; omega)
    simpa using h0
  intro s n hr p P hp hP
  by_cases hss : s = ss
  · subst hss
    obtain ⟨-, hnn⟩ := runAt_unique w' hDT' s n s ns hr hrunS s (le_refl s)
      (by have := hr.1; omega) (le_refl s) (by have := hrunS.1; omega)
    subst hnn
    have hps : p = ps := by
      rw [runPlat_eq_of_stops w' s _ hstar0] at hp
      exact (Option.some.inj hp).symm
    rw [hps] at hP
    exact hoccS P hP
  · obtain ⟨hw, hrec, hq⟩ := hfar s n hr hss
    have h0 := hrec 0 (by have := hr.1; omega)
    have hrp : runPlat w s = some p := by
      unfold runPlat at hp ⊢
      rw [show s + ((0 : Nat) : Int) = s from by push_cast; ring] at h0
      rw [← h0]
      exact hp
    have hPw : w.plats p = some P := by
      rw [← (hq p hrp).1]
      exact hP
    have hres := hocc s n hw p P hrp hPw
    rw [hres]
    exact (runRebuild_eq_of_veh w' w hveh s n).symm

lemma inv_assemble_two (w w' : World) (hinv : Inv w)
    (hDT' : ∀ t i, w'.map t = some i → i.isDT = true)
    (hbound' : ∃ lo hi : Int, ∀ t : Int, t < lo ∨ hi < t → w'.map t = none)
    (hdead' : ∀ t r, w'.map t = none → w'.stops t = some r → r = ⟨false, none⟩)
    (hnid : w.nextId ≤ w'.nextId)
    (s1 : Int) (n1 : Nat) (p1 : Nat) (s2 : Int) (n2 : Nat) (p2 : Nat)
    (hr1 : RunAt w' s1 n1)
    (hrec1 : ∀ i : Nat, i < n1 → w'.stops (s1 + (i : Int)) = some ⟨i == 0, some p1⟩)
    (hplat1 : ∃ P, w'.plats p1 = some P ∧ P.length = TILE_SIZE * n1)
    (hp1 : p1 < w'.nextId)
    (hr2 : RunAt w' s2 n2)
    (hrec2 : ∀ i : Nat, i < n2 → w'.stops (s2 + (i : Int)) = some ⟨i == 0, some p2⟩)
    (hplat2 : ∃ P, w'.plats p2 = some P ∧ P.length = TILE_SIZE * n2)
    (hp2 : p2 < w'.nextId)
    (hp12 : p1 ≠ p2)
    (hs12 : s1 ≠ s2)
    (hfar : ∀ s n, RunAt w' s n → s ≠ s1 → s ≠ s2 →
      RunAt w s n ∧
      (∀ i : Nat, i < n → w'.stops (s + (i : Int)) = w.stops (s + (i : Int))) ∧
      (∀ q, runPlat w s = some q → w'.plats q = w.plats q ∧ q ≠ p1 ∧ q ≠ p2)) :
    Inv w' := by
  have hstar1 : w'.stops s1 = some ⟨true, some p1⟩ := by
    have h0 := hrec1 0 (by have := hr1.1; omega)
    simpa using h0
  have hstar2 : w'.stops s2 = some ⟨true, some p2⟩ := by
    have h0 := hrec2 0 (by have := hr2.1; omega)
    simpa using h0
  have hfarPlat : ∀ s n, RunAt w' s n → s ≠ s1 → s ≠ s2 → ∀ q, runPlat w' s = some q →
      runPlat w s = some q := by
    intro s n hr hne1 hne2 q hq
    obtain ⟨hw, hrec, -⟩ := hfar s n hr hne1 hne2
    have h0 := hrec 0 (by have := hr.1; omega)
    unfold runPlat at hq ⊢
    rw [show s + ((0 : Nat) : Int) = s from by push_cast; ring] at h0
    rw [← h0]
    exact hq
  have hrunsPlat : ∀ s n, RunAt w' s n → ∀ q, runPlat w' s = some q →
      (s = s1 ∧ q = p1) ∨ (s = s2 ∧ q = p2) ∨
      (s ≠ s1 ∧ s ≠ s2 ∧ runPlat w s = some q ∧ w'.plats q = w.plats q ∧ q ≠ p1 ∧ q ≠ p2 ∧
        RunAt w s n) := by
    intro s n hr q hq
    by_cases he1 : s = s1
    · left
      refine ⟨he1, ?_⟩
      rw [he1, runPlat_eq_of_stops w' s1 _ hstar1] at hq
      exact (Option.some.inj hq).symm
    · by_cases he2 : s = s2
      · right; left
        refine ⟨he2, ?_⟩
        rw [he2, runPlat_eq_of_stops w' s2 _ hstar2] at hq
        exact (Option.some.inj hq).symm
      · right; right
        have hrp := hfarPlat s n hr he1 he2 q hq
        obtain ⟨hw, -, hqq⟩ := hfar s n hr he1 he2
        obtain ⟨ha, hb, hc⟩ := hqq q hrp
        exact ⟨he1, he2, hrp, ha, hb, hc, hw⟩
  refine ⟨hDT', hbound', hdead', ?_, ?_, ?_⟩
  · intro s n hr
    by_cases he1 : s = s1
    · subst he1
      obtain ⟨-, hnn⟩ := runAt_unique w' hDT' s n s n1 hr hr1 s (le_refl s)
        (by have := hr.1; omega) (le_refl s) (by have := hr1.1; omega)
      subst hnn
      exact ⟨p1, hrec1, hplat1⟩
    · by_cases he2 : s = s2
      · subst he2
        obtain ⟨-, hnn⟩ := runAt_unique w' hDT' s n s n2 hr hr2 s (le_refl s)
          (by have := hr.1; omega) (le_refl s) (by have := hr2.1; omega)
        subst hnn
        exact ⟨p2, hrec2, hplat2⟩
      · obtain ⟨hw, hrec, hq⟩ := hfar s n hr he1 he2
        obtain ⟨p, hrecw, P, hP, hlen⟩ := hinv.runs s n hw
        refine ⟨p, ?_, ?_⟩
        · intro i hi
          rw [hrec i hi]
          exact hrecw i hi
        · have h0 := hrecw 0 (by have := hw.1; omega)
          rw [show s + ((0 : Nat) : Int) = s from by push_cast; ring] at h0
          have hrp : runPlat w s = some p := runPlat_eq_of_stops w s _ h0
          exact ⟨P, by rw [(hq p hrp).1]; exact hP, hlen⟩
  · intro s n s' n' hra hrb hne q1 q2 hq1 hq2
    rcases hrunsPlat s n hra q1 hq1 with ⟨hsa, hqa⟩ | ⟨hsa, hqa⟩ |
      ⟨hsa1, hsa2, hrpa, hpla, hna1, hna2, hwa⟩ <;>
      rcases hrunsPlat s' n' hrb q2 hq2 with ⟨hsb, hqb⟩ | ⟨hsb, hqb⟩ |
        ⟨hsb1, hsb2, hrpb, hplb, hnb1, hnb2, hwb⟩
    · exact absurd (hsa.trans hsb.symm) hne
    · rw [hqa, hqb]
      exact hp12
    · rw [hqa]
      intro hEq
      exact hnb1 hEq.symm
    · rw [hqa, hqb]
      exact fun hEq => hp12 hEq.symm
    · exact absurd (hsa.trans hsb.symm) hne
    · rw [hqa]
      intro hEq
      exact hnb2 hEq.symm
    · rw [hqb]
      exact hna1
    · rw [hqb]
      exact hna2
    · exact hinv.distinct s n s' n' hwa hwb hne q1 q2 hrpa hrpb
  · intro s n p hr hp
    rcases hrunsPlat s n hr p hp with ⟨-, hq⟩ | ⟨-, hq⟩ |
      ⟨-, -, hrp, -, -, -, hw⟩
    · rw [hq]
      exact hp1
    · rw [hq]
      exact hp2
    · have := hinv.freshPlat s n p hw hrp
      omega

lemma invOcc_assemble_two (w w' : World)
    (hDT' : ∀ t i, w'.map t = some i → i.isDT = true)
    (hveh : w'.veh = w.veh)
    (s1 : Int) (n1 : Nat) (p1 : Nat) (s2 : Int) (n2 : Nat) (p2 : Nat)
    (hr1 : RunAt w' s1 n1)
    (hrec1 : ∀ i : Nat, i < n1 → w'.stops (s1 + (i : Int)) = some ⟨i == 0, some p1⟩)
    (hocc1 : ∀ P, w'.plats p1 = some P → P = runRebuild w' s1 n1)
    (hr2 : RunAt w' s2 n2)
    (hrec2 : ∀ i : Nat, i < n2 → w'.stops (s2 + (i : Int)) = some ⟨i == 0, some p2⟩)
    (hocc2 : ∀ P, w'.plats p2 = some P → P = runRebuild w' s2 n2)
    (hfar : ∀ s n, RunAt w' s n → s ≠ s1 → s ≠ s2 →
      RunAt w s n ∧
      (∀ i : Nat, i < n → w'.stops (s + (i : Int)) = w.stops (s + (i : Int))) ∧
      (∀ q, runPlat w s = some q → w'.plats q = w.plats q ∧ q ≠ p1 ∧ q ≠ p2))
    (hocc : InvOcc w) : InvOcc w' := by
  have hstar1 : w'.stops s1 = some ⟨true, some p1⟩ := by
    have h0 := hrec1 0 (by have := hr1.1; omega)
    simpa using h0
  have hstar2 : w'.stops s2 = some ⟨true, some p2⟩ := by
    have h0 := hrec2 0 (by have := hr2.1; omega)
    simpa using h0
  intro s n hr p P hp hP
  by_cases he1 : s = s1
  · subst he1
    obtain ⟨-, hnn⟩ := runAt_unique w' hDT' s n s n1 hr hr1 s (le_refl s)
      (by have := hr.1; omega) (le_refl s) (by have := hr1.1; omega)
    subst hnn
    have hps : p = p1 := by
      rw [runPlat_eq_of_stops w' s _ hstar1] at hp
      exact (Option.some.inj hp).symm
    rw [hps] at hP
    exact hocc1 P hP
  · by_cases he2 : s = s2
    · subst he2
      obtain ⟨-, hnn⟩ := runAt_unique w' hDT' s n s n2 hr hr2 s (le_refl s)
        (by have := hr.1; omega) (le_refl s) (by have := hr2.1; omega)
      subst hnn
      have hps : p = p2 := by
        rw [runPlat_eq_of_stops w' s _ hstar2] at hp
        exact (Option.some.inj hp).symm
      rw [hps] at hP
      exact hocc2 P hP
    · obtain ⟨hw, hrec, hq⟩ := hfar s n hr he1 he2
      have h0 := hrec 0 (by have := hr.1; omega)
      have hrp : runPlat w s = some p := by
        unfold runPlat at hp ⊢
        rw [show s + ((0 : Nat) : Int) = s from by push_cast; ring] at h0
        rw [← h0]
        exact hp
      have hPw : w.plats p = some P := by
        rw [← (hq p hrp).1]
        exact hP
      have hres := hocc s n hw p P hrp hPw
      rw [hres]
      exact (runRebuild_eq_of_veh w' w hveh s n).symm

/-! ### Preservation of the invariant by MakeDriveThrough, case by case -/

lemma build_caseC_preserve (w W : World) (xy : Int) (info : TileInfo)
    (hinv : Inv w) (hxy : w.map xy = none) (hDTi : info.isDT = true)
    (hnb : IsCont (buildWorld w xy info) xy (xy - 1) = false)
    (hsb : IsCont (buildWorld w xy info) xy (xy + 1) = false)
    (hmapW : W.map = (buildWorld w xy info).map)
    (hstopsW : ∀ u : Int, W.stops u = if u = xy then some ⟨true, some w.nextId⟩ else w.stops u)
    (hplatsW : ∀ a : Nat, W.plats a = if a = w.nextId then some ⟨TILE_SIZE, 0, 0⟩ else w.plats a)
    (hnidW : W.nextId = w.nextId + 1)
    (hvehW : W.veh = w.veh) :
    Inv W ∧ ((∀ v ∈ w.veh xy, countable v = false) → InvOcc w → InvOcc W) := by
  have hDT' : ∀ t i, W.map t = some i → i.isDT = true := by
    intro t i hm
    rw [hmapW, buildWorld_map] at hm
    by_cases ht : t = xy
    · rw [if_pos ht] at hm
      cases Option.some.inj hm
      exact hDTi
    · rw [if_neg ht] at hm
      exact hinv.allDT t i hm
  have hmapW' : ∀ u : Int, u ≠ xy → W.map u = w.map u := by
    intro u hu
    rw [hmapW, buildWorld_map, if_neg hu]
  have hmapXY : W.map xy = some info := by
    rw [hmapW, buildWorld_map, if_pos rfl]
  have hbound' : ∃ lo hi : Int, ∀ t : Int, t < lo ∨ hi < t → W.map t = none := by
    obtain ⟨lo, hi, hb⟩ := hinv.bounded
    refine ⟨min lo xy, max hi xy, ?_⟩
    intro t ht
    have htxy : t ≠ xy := by
      intro hEq
      subst hEq
      rcases ht with h | h
      · exact absurd (min_le_right lo t) (not_le.mpr h)
      · exact absurd (le_max_right hi t) (not_le.mpr h)
    rw [hmapW' t htxy]
    apply hb
    rcases ht with h | h
    · exact Or.inl (lt_of_lt_of_le h (min_le_left lo xy))
    · exact Or.inr (lt_of_le_of_lt (le_max_left hi xy) h)
  have hdead' : ∀ t r, W.map t = none → W.stops t = some r → r = ⟨false, none⟩ := by
    intro t r hm hs
    have ht : t ≠ xy := by
      intro hEq
      rw [hEq, hmapXY] at hm
      exact Option.noConfusion hm
    rw [hstopsW, if_neg ht] at hs
    rw [hmapW' t ht] at hm
    exact hinv.deadRec t r hm hs
  have hrunW : RunAt W xy 1 := by
    refine ⟨le_refl 1, ?_, ?_, ?_, ?_⟩
    · rw [hmapXY]
      simp
    · intro i hi
      exact absurd hi (by omega)
    · rw [isCont_congr W (buildWorld w xy info) hmapW]
      exact hnb
    · rw [isCont_congr W (buildWorld w xy info) hmapW]
      convert hsb using 2 <;> push_cast <;> ring
  have hrecW : ∀ i : Nat, i < 1 → W.stops (xy + (i : Int)) = some ⟨i == 0, some w.nextId⟩ := by
    intro i hi
    have h0 : i = 0 := by omega
    subst h0
    rw [show xy + ((0 : Nat) : Int) = xy from by push_cast; ring, hstopsW, if_pos rfl]
    rfl
  have hplatW : ∃ P, W.plats w.nextId = some P ∧ P.length = TILE_SIZE * 1 :=
    ⟨⟨TILE_SIZE, 0, 0⟩, by rw [hplatsW, if_pos rfl], (Nat.mul_one _).symm⟩
  have hfarW : ∀ s n, RunAt W s n → s ≠ xy →
      RunAt w s n ∧
      (∀ i : Nat, i < n → W.stops (s + (i : Int)) = w.stops (s + (i : Int))) ∧
      (∀ q, runPlat w s = some q → W.plats q = w.plats q ∧ q ≠ w.nextId) := by
    intro s n hr hne
    have hnotin : ¬ (s ≤ xy ∧ xy < s + (n : Int)) := by
      intro hc
      obtain ⟨heq, -⟩ := runAt_unique W hDT' s n xy 1 hr hrunW xy hc.1 hc.2 (le_refl xy)
        (by push_cast; omega)
      exact hne heq
    have hw : RunAt w s n := run_transfer_to_unmapped w W xy hxy hmapW' s n hr hnotin
    refine ⟨hw, ?_, ?_⟩
    · intro i hi
      have hneq : s + (i : Int) ≠ xy := by
        intro hEq
        exact hnotin ⟨by omega, by omega⟩
      rw [hstopsW, if_neg hneq]
    · intro q hq
      have hql := hinv.freshPlat s n q hw hq
      refine ⟨?_, by omega⟩
      rw [hplatsW, if_neg (by omega)]
  constructor
  · exact inv_assemble_one w W hinv hDT' hbound' hdead' (by omega) xy 1 w.nextId
      hrunW hrecW hplatW (by omega) hfarW
  · intro hemp hocc
    have hoccW : ∀ P, W.plats w.nextId = some P → P = runRebuild W xy 1 := by
      intro P hP
      rw [hplatsW, if_pos rfl] at hP
      have hPv : P = ⟨TILE_SIZE, 0, 0⟩ := (Option.some.inj hP).symm
      subst hPv
      have ht1 : tileRange xy 1 = [xy] := by
        rw [show (1 : Nat) = 0 + 1 from rfl, tileRange_succ, tileRange_zero]
      have hv : vehiclesOnTiles W (tileRange xy 1) = w.veh xy := by
        rw [ht1]
        show W.veh xy ++ [] = w.veh xy
        rw [List.append_nil, hvehW]
      have hE : (collectVehicles W (tileRange xy 1)).1 = [] := by
        rw [collect_fst_eq, hv]
        exact dedupAdd_skip eastCountable (w.veh xy)
          (fun v hv2 => east_false_of_nc v (hemp v hv2)) []
      have hW2 : (collectVehicles W (tileRange xy 1)).2 = [] := by
        rw [collect_snd_eq, hv]
        exact dedupAdd_skip westCountable (w.veh xy)
          (fun v hv2 => west_false_of_nc v (hemp v hv2)) []
      unfold runRebuild
      rw [hE, hW2]
      show (⟨TILE_SIZE, 0, 0⟩ : Platform) = ⟨TILE_SIZE * 1, 0, 0⟩
      rw [Nat.mul_one]
    exact invOcc_assemble_one w W hDT' hvehW xy 1 w.nextId hrunW hrecW hoccW hfarW hocc

lemma build_caseB_preserve (w W : World) (xy : Int) (info : TileInfo)
    (nS : Nat) (q : Nat) (Pq : Platform)
    (hinv : Inv w) (hxy : w.map xy = none) (hDTi : info.isDT = true)
    (hnb : IsCont (buildWorld w xy info) xy (xy - 1) = false)
    (hsb : IsCont (buildWorld w xy info) xy (xy + 1) = true)
    (hrunS : RunAt w (xy + 1) nS)
    (hrecS : ∀ i : Nat, i < nS → w.stops (xy + 1 + (i : Int)) = some ⟨i == 0, some q⟩)
    (hPq : w.plats q = some Pq)
    (hlenq : Pq.length = TILE_SIZE * nS)
    (hmapW : W.map = (buildWorld w xy info).map)
    (hstopsW : ∀ u : Int, W.stops u =
      if u = xy + 1 then some ⟨false, some q⟩
      else if u = xy then some ⟨true, some q⟩ else w.stops u)
    (hplatsW : ∀ a : Nat, W.plats a =
      if a = q then some ⟨Pq.length + 1 * TILE_SIZE, Pq.occupied_east, Pq.occupied_west⟩
      else w.plats a)
    (hnidW : W.nextId = w.nextId)
    (hvehW : W.veh = w.veh) :
    Inv W ∧ ((∀ v ∈ w.veh xy, countable v = false) → InvOcc w → InvOcc W) := by
  have hnS1 : 1 ≤ nS := hrunS.1
  have hstopS0 : w.stops (xy + 1) = some ⟨true, some q⟩ := by
    have h0 := hrecS 0 (by omega)
    simpa using h0
  have hrpS : runPlat w (xy + 1) = some q := runPlat_eq_of_stops w (xy + 1) _ hstopS0
  have hDT' : ∀ t i, W.map t = some i → i.isDT = true := by
    intro t i hm
    rw [hmapW, buildWorld_map] at hm
    by_cases ht : t = xy
    · rw [if_pos ht] at hm
      cases Option.some.inj hm
      exact hDTi
    · rw [if_neg ht] at hm
      exact hinv.allDT t i hm
  have hmapW' : ∀ u : Int, u ≠ xy → W.map u = w.map u := by
    intro u hu
    rw [hmapW, buildWorld_map, if_neg hu]
  have hmapXY : W.map xy = some info := by
    rw [hmapW, buildWorld_map, if_pos rfl]
  have hbound' : ∃ lo hi : Int, ∀ t : Int, t < lo ∨ hi < t → W.map t = none := by
    obtain ⟨lo, hi, hb⟩ := hinv.bounded
    refine ⟨min lo xy, max hi xy, ?_⟩
    intro t ht
    have htxy : t ≠ xy := by
      intro hEq
      subst hEq
      rcases ht with h | h
      · exact absurd (min_le_right lo t) (not_le.mpr h)
      · exact absurd (le_max_right hi t) (not_le.mpr h)
    rw [hmapW' t htxy]
    apply hb
    rcases ht with h | h
    · exact Or.inl (lt_of_lt_of_le h (min_le_left lo xy))
    · exact Or.inr (lt_of_le_of_lt (le_max_left hi xy) h)
  have hmapS1 : w.map (xy + 1) ≠ none := hrunS.2.1
  have hdead' : ∀ t r, W.map t = none → W.stops t = some r → r = ⟨false, none⟩ := by
    intro t r hm hs
    have ht : t ≠ xy := by
      intro hEq
      rw [hEq, hmapXY] at hm
      exact Option.noConfusion hm
    have ht1 : t ≠ xy + 1 := by
      intro hEq
      rw [hEq, hmapW' (xy + 1) (by omega)] at hm
      exact hmapS1 hm
    rw [hstopsW, if_neg ht1, if_neg ht] at hs
    rw [hmapW' t ht] at hm
    exact hinv.deadRec t r hm hs
  have hrunW : RunAt W xy (1 + nS) := by
    refine ⟨by omega, ?_, ?_, ?_, ?_⟩
    · rw [hmapXY]
      simp
    · intro i hi
      cases i with
      | zero =>
          rw [isCont_congr W (buildWorld w xy info) hmapW]
          convert hsb using 2 <;> push_cast <;> ring
      | succ j =>
          have hl := hrunS.2.2.1 j (by omega)
          have hgoal : IsCont W (xy + 1 + (j : Int)) (xy + 1 + (j : Int) + 1) = true := by
            rw [isCont_congr_local w W _ _ (hmapW' _ (by omega)) (hmapW' _ (by omega))]
            exact hl
          convert hgoal using 2 <;> push_cast <;> ring
    · rw [isCont_congr W (buildWorld w xy info) hmapW]
      exact hnb
    · have hl := hrunS.2.2.2.2
      have hgoal : IsCont W (xy + 1 + (nS : Int) - 1) (xy + 1 + (nS : Int)) = false := by
        rw [isCont_congr_local w W _ _ (hmapW' _ (by omega)) (hmapW' _ (by omega))]
        exact hl
      convert hgoal using 2 <;> push_cast <;> ring
  have hrecW : ∀ i : Nat, i < 1 + nS → W.stops (xy + (i : Int)) = some ⟨i == 0, some q⟩ := by
    intro i hi
    by_cases h0 : i = 0
    · subst h0
      rw [show xy + ((0 : Nat) : Int) = xy from by push_cast; ring, hstopsW,
        if_neg (by omega), if_pos rfl]
      rfl
    · by_cases h1 : i = 1
      · subst h1
        rw [show xy + ((1 : Nat) : Int) = xy + 1 from by push_cast; ring, hstopsW, if_pos rfl]
        rfl
      · have hrec' := hrecS (i - 1) (by omega)
        have hidx : xy + 1 + ((i - 1 : Nat) : Int) = xy + (i : Int) := by omega
        rw [hidx] at hrec'
        rw [hstopsW, if_neg (by omega), if_neg (by omega), hrec']
        have hb1 : ((i - 1 : Nat) == 0) = false := beq_eq_false_iff_ne.mpr (by omega)
        have hb2 : ((i : Nat) == 0) = false := beq_eq_false_iff_ne.mpr (by omega)
        rw [hb1, hb2]
  have hplatW : ∃ P, W.plats q = some P ∧ P.length = TILE_SIZE * (1 + nS) :=
    ⟨⟨Pq.length + 1 * TILE_SIZE, Pq.occupied_east, Pq.occupied_west⟩,
      by rw [hplatsW, if_pos rfl], by show Pq.length + 1 * TILE_SIZE = _; rw [hlenq]; ring⟩
  have hqfresh : q < w.nextId := hinv.freshPlat (xy + 1) nS q hrunS hrpS
  have hfarW : ∀ s n, RunAt W s n → s ≠ xy →
      RunAt w s n ∧
      (∀ i : Nat, i < n → W.stops (s + (i : Int)) = w.stops (s + (i : Int))) ∧
      (∀ q2, runPlat w s = some q2 → W.plats q2 = w.plats q2 ∧ q2 ≠ q) := by
    intro s n hr hne
    have hnotin : ¬ (s ≤ xy ∧ xy < s + (n : Int)) := by
      intro hc
      obtain ⟨heq, -⟩ := runAt_unique W hDT' s n xy (1 + nS) hr hrunW xy hc.1 hc.2 (le_refl xy)
        (by push_cast; omega)
      exact hne heq
    have hnotin1 : ¬ (s ≤ xy + 1 ∧ xy + 1 < s + (n : Int)) := by
      intro hc
      obtain ⟨heq, -⟩ := runAt_unique W hDT' s n xy (1 + nS) hr hrunW (xy + 1) hc.1 hc.2
        (by omega) (by push_cast; omega)
      exact hne heq
    have hw : RunAt w s n := run_transfer_to_unmapped w W xy hxy hmapW' s n hr hnotin
    have hsne1 : s ≠ xy + 1 := by
      intro hEq
      exact hnotin1 ⟨le_of_eq hEq, by have := hr.1; omega⟩
    refine ⟨hw, ?_, ?_⟩
    · intro i hi
      have hne0 : s + (i : Int) ≠ xy := by
        intro hEq
        exact hnotin ⟨by omega, by omega⟩
      have hne1 : s + (i : Int) ≠ xy + 1 := by
        intro hEq
        exact hnotin1 ⟨by omega, by omega⟩
      rw [hstopsW, if_neg hne1, if_neg hne0]
    · intro q2 hq2
      have hqne : q2 ≠ q := by
        intro hEq
        exact hinv.distinct s n (xy + 1) nS hw hrunS hsne1 q2 q hq2 hrpS hEq
      exact ⟨by rw [hplatsW, if_neg hqne], hqne⟩
  constructor
  · exact inv_assemble_one w W hinv hDT' hbound' hdead' (by omega) xy (1 + nS) q
      hrunW hrecW hplatW (by omega) hfarW
  · intro hemp hocc
    have hoccW : ∀ P, W.plats q = some P → P = runRebuild W xy (1 + nS) := by
      intro P hP
      rw [hplatsW, if_pos rfl] at hP
      have hPv : P = ⟨Pq.length + 1 * TILE_SIZE, Pq.occupied_east, Pq.occupied_west⟩ :=
        (Option.some.inj hP).symm
      subst hPv
      have hrw : runRebuild W xy (1 + nS) = runRebuild w xy (1 + nS) :=
        runRebuild_eq_of_veh W w hvehW xy (1 + nS)
      have htiles : tileRange xy (1 + nS) = xy :: tileRange (xy + 1) nS := by
        rw [show 1 + nS = nS + 1 from by omega]
        exact tileRange_succ xy nS
      have hveh2 : vehiclesOnTiles w (tileRange xy (1 + nS)) =
          w.veh xy ++ vehiclesOnTiles w (tileRange (xy + 1) nS) := by
        rw [htiles]
        rfl
      have hE : (collectVehicles w (tileRange xy (1 + nS))).1 =
          (collectVehicles w (tileRange (xy + 1) nS)).1 := by
        rw [collect_fst_eq, collect_fst_eq, hveh2]
        exact dedup_skip_front eastCountable _ _
          (fun v hv => east_false_of_nc v (hemp v hv))
      have hW2 : (collectVehicles w (tileRange xy (1 + nS))).2 =
          (collectVehicles w (tileRange (xy + 1) nS)).2 := by
        rw [collect_snd_eq, collect_snd_eq, hveh2]
        exact dedup_skip_front westCountable _ _
          (fun v hv => west_false_of_nc v (hemp v hv))
      have hPq_eq : Pq = runRebuild w (xy + 1) nS := hocc (xy + 1) nS hrunS q Pq hrpS hPq
      rw [hrw]
      unfold runRebuild
      rw [hE, hW2, hPq_eq]
      show (⟨(runRebuild w (xy + 1) nS).length + 1 * TILE_SIZE,
        (runRebuild w (xy + 1) nS).occupied_east,
        (runRebuild w (xy + 1) nS).occupied_west⟩ : Platform) = _
      unfold runRebuild
      congr 1
      ring
    exact invOcc_assemble_one w W hDT' hvehW xy (1 + nS) q hrunW hrecW hoccW hfarW hocc

lemma build_caseA_preserve (w W : World) (xy : Int) (info : TileInfo)
    (nN : Nat) (p : Nat) (Pp : Platform)
    (hinv : Inv w) (hxy : w.map xy = none) (hDTi : info.isDT = true)
    (hnb : IsCont (buildWorld w xy info) xy (xy - 1) = true)
    (hsb : IsCont (buildWorld w xy info) xy (xy + 1) = false)
    (hrunN : RunAt w (xy - (nN : Int)) nN)
    (hrecN : ∀ i : Nat, i < nN → w.stops (xy - (nN : Int) + (i : Int)) = some ⟨i == 0, some p⟩)
    (hPp : w.plats p = some Pp)
    (hlenp : Pp.length = TILE_SIZE * nN)
    (hmapW : W.map = (buildWorld w xy info).map)
    (hstopsW : ∀ u : Int, W.stops u =
      if u = xy then some ⟨false, some p⟩ else w.stops u)
    (hplatsW : ∀ a : Nat, W.plats a =
      if a = p then some ⟨Pp.length + 1 * TILE_SIZE, Pp.occupied_east, Pp.occupied_west⟩
      else w.plats a)
    (hnidW : W.nextId = w.nextId)
    (hvehW : W.veh = w.veh) :
    Inv W ∧ ((∀ v ∈ w.veh xy, countable v = false) → InvOcc w → InvOcc W) := by
  have hnN1 : 1 ≤ nN := hrunN.1
  have hstopN0 : w.stops (xy - (nN : Int)) = some ⟨true, some p⟩ := by
    have h0 := hrecN 0 (by omega)
    simpa using h0
  have hrpN : runPlat w (xy - (nN : Int)) = some p := runPlat_eq_of_stops w _ _ hstopN0
  have hDT' : ∀ t i, W.map t = some i → i.isDT = true := by
    intro t i hm
    rw [hmapW, buildWorld_map] at hm
    by_cases ht : t = xy
    · rw [if_pos ht] at hm
      cases Option.some.inj hm
      exact hDTi
    · rw [if_neg ht] at hm
      exact hinv.allDT t i hm
  have hmapW' : ∀ u : Int, u ≠ xy → W.map u = w.map u := by
    intro u hu
    rw [hmapW, buildWorld_map, if_neg hu]
  have hmapXY : W.map xy = some info := by
    rw [hmapW, buildWorld_map, if_pos rfl]
  have hbound' : ∃ lo hi : Int, ∀ t : Int, t < lo ∨ hi < t → W.map t = none := by
    obtain ⟨lo, hi, hb⟩ := hinv.bounded
    refine ⟨min lo xy, max hi xy, ?_⟩
    intro t ht
    have htxy : t ≠ xy := by
      intro hEq
      subst hEq
      rcases ht with h | h
      · exact absurd (min_le_right lo t) (not_le.mpr h)
      · exact absurd (le_max_right hi t) (not_le.mpr h)
    rw [hmapW' t htxy]
    apply hb
    rcases ht with h | h
    · exact Or.inl (lt_of_lt_of_le h (min_le_left lo xy))
    · exact Or.inr (lt_of_le_of_lt (le_max_left hi xy) h)
  have hdead' : ∀ t r, W.map t = none → W.stops t = some r → r = ⟨false, none⟩ := by
    intro t r hm hs
    have ht : t ≠ xy := by
      intro hEq
      rw [hEq, hmapXY] at hm
      exact Option.noConfusion hm
    rw [hstopsW, if_neg ht] at hs
    rw [hmapW' t ht] at hm
    exact hinv.deadRec t r hm hs
  have hcontN : IsCont W (xy - 1) xy = true := by
    rw [isCont_symm W hDT' (xy - 1) xy, isCont_congr W (buildWorld w xy info) hmapW]
    exact hnb
  have hrunW : RunAt W (xy - (nN : Int)) (nN + 1) := by
    refine ⟨by omega, ?_, ?_, ?_, ?_⟩
    · rw [hmapW' _ (by omega)]
      exact hrunN.2.1
    · intro i hi
      by_cases hlast : i = nN - 1
      · subst hlast
        have hgoal : IsCont W (xy - 1) xy = true := hcontN
        convert hgoal using 2 <;> omega
      · have hl := hrunN.2.2.1 i (by omega)
        rw [isCont_congr_local w W _ _ (hmapW' _ (by omega)) (hmapW' _ (by omega))]
        exact hl
    · rw [isCont_congr_local w W _ _ (hmapW' _ (by omega)) (hmapW' _ (by omega))]
      exact hrunN.2.2.2.1
    · have hgoal : IsCont W xy (xy + 1) = false := by
        rw [isCont_congr W (buildWorld w xy info) hmapW]
        exact hsb
      convert hgoal using 2 <;> push_cast <;> omega
  have hrecW : ∀ i : Nat, i < nN + 1 →
      W.stops (xy - (nN : Int) + (i : Int)) = some ⟨i == 0, some p⟩ := by
    intro i hi
    by_cases hlast : i = nN
    · subst hlast
      rw [show xy - (i : Int) + (i : Int) = xy from by ring, hstopsW, if_pos rfl]
      have hb2 : ((i : Nat) == 0) = false := beq_eq_false_iff_ne.mpr (by omega)
      rw [hb2]
    · rw [hstopsW, if_neg (by omega)]
      exact hrecN i (by omega)
  have hplatW : ∃ P, W.plats p = some P ∧ P.length = TILE_SIZE * (nN + 1) :=
    ⟨⟨Pp.length + 1 * TILE_SIZE, Pp.occupied_east, Pp.occupied_west⟩,
      by rw [hplatsW, if_pos rfl], by show Pp.length + 1 * TILE_SIZE = _; rw [hlenp]; ring⟩
  have hpfresh : p < w.nextId := hinv.freshPlat _ nN p hrunN hrpN
  have hfarW : ∀ s n, RunAt W s n → s ≠ xy - (nN : Int) →
      RunAt w s n ∧
      (∀ i : Nat, i < n → W.stops (s + (i : Int)) = w.stops (s + (i : Int))) ∧
      (∀ q2, runPlat w s = some q2 → W.plats q2 = w.plats q2 ∧ q2 ≠ p) := by
    intro s n hr hne
    have hnotin : ¬ (s ≤ xy ∧ xy < s + (n : Int)) := by
      intro hc
      obtain ⟨heq, -⟩ := runAt_unique W hDT' s n (xy - (nN : Int)) (nN + 1) hr hrunW xy hc.1
        hc.2 (by omega) (by push_cast; omega)
      exact hne heq
    have hw : RunAt w s n := run_transfer_to_unmapped w W xy hxy hmapW' s n hr hnotin
    have hsneN : s ≠ xy - (nN : Int) := hne
    refine ⟨hw, ?_, ?_⟩
    · intro i hi
      have hne0 : s + (i : Int) ≠ xy := by
        intro hEq
        exact hnotin ⟨by omega, by omega⟩
      rw [hstopsW, if_neg hne0]
    · intro q2 hq2
      have hqne : q2 ≠ p := by
        intro hEq
        exact hinv.distinct s n (xy - (nN : Int)) nN hw hrunN hsneN q2 p hq2 hrpN hEq
      exact ⟨by rw [hplatsW, if_neg hqne], hqne⟩
  constructor
  · exact inv_assemble_one w W hinv hDT' hbound' hdead' (by omega) (xy - (nN : Int)) (nN + 1) p
      hrunW hrecW hplatW (by omega) hfarW
  · intro hemp hocc
    have hoccW : ∀ P, W.plats p = some P → P = runRebuild W (xy - (nN : Int)) (nN + 1) := by
      intro P hP
      rw [hplatsW, if_pos rfl] at hP
      have hPv : P = ⟨Pp.length + 1 * TILE_SIZE, Pp.occupied_east, Pp.occupied_west⟩ :=
        (Option.some.inj hP).symm
      subst hPv
      have hrw : runRebuild W (xy - (nN : Int)) (nN + 1) =
          runRebuild w (xy - (nN : Int)) (nN + 1) :=
        runRebuild_eq_of_veh W w hvehW _ (nN + 1)
      have htiles : tileRange (xy - (nN : Int)) (nN + 1) =
          tileRange (xy - (nN : Int)) nN ++ [xy] := by
        rw [tileRange_append nN (xy - (nN : Int)) 1]
        rw [show xy - (nN : Int) + (nN : Int) = xy from by ring]
        rw [show (1 : Nat) = 0 + 1 from rfl, tileRange_succ, tileRange_zero]
      have hveh2 : vehiclesOnTiles w (tileRange (xy - (nN : Int)) (nN + 1)) =
          vehiclesOnTiles w (tileRange (xy - (nN : Int)) nN) ++ w.veh xy := by
        rw [htiles, vehiclesOnTiles_append]
        congr 1
        show w.veh xy ++ [] = w.veh xy
        rw [List.append_nil]
      have hE : (collectVehicles w (tileRange (xy - (nN : Int)) (nN + 1))).1 =
          (collectVehicles w (tileRange (xy - (nN : Int)) nN)).1 := by
        rw [collect_fst_eq, collect_fst_eq, hveh2]
        exact dedup_skip_back eastCountable _ _
          (fun v hv => east_false_of_nc v (hemp v hv))
      have hW2 : (collectVehicles w (tileRange (xy - (nN : Int)) (nN + 1))).2 =
          (collectVehicles w (tileRange (xy - (nN : Int)) nN)).2 := by
        rw [collect_snd_eq, collect_snd_eq, hveh2]
        exact dedup_skip_back westCountable _ _
          (fun v hv => west_false_of_nc v (hemp v hv))
      have hPp_eq : Pp = runRebuild w (xy - (nN : Int)) nN :=
        hocc _ nN hrunN p Pp hrpN hPp
      rw [hrw]
      unfold runRebuild
      rw [hE, hW2, hPp_eq]
      show (⟨(runRebuild w (xy - (nN : Int)) nN).length + 1 * TILE_SIZE,
        (runRebuild w (xy - (nN : Int)) nN).occupied_east,
        (runRebuild w (xy - (nN : Int)) nN).occupied_west⟩ : Platform) = _
      unfold runRebuild
      congr 1
    exact invOcc_assemble_one w W hDT' hvehW (xy - (nN : Int)) (nN + 1) p
      hrunW hrecW hoccW hfarW hocc

lemma build_merge_preserve (w W : World) (xy : Int) (info : TileInfo)
    (nN : Nat) (p : Nat) (Pp : Platform) (nS : Nat) (q : Nat) (Pq : Platform)
    (hinv : Inv w) (hxy : w.map xy = none) (hDTi : info.isDT = true)
    (hnb : IsCont (buildWorld w xy info) xy (xy - 1) = true)
    (hsb : IsCont (buildWorld w xy info) xy (xy + 1) = true)
    (hrunN : RunAt w (xy - (nN : Int)) nN)
    (hrecN : ∀ i : Nat, i < nN → w.stops (xy - (nN : Int) + (i : Int)) = some ⟨i == 0, some p⟩)
    (hPp : w.plats p = some Pp)
    (hlenp : Pp.length = TILE_SIZE * nN)
    (hrunS : RunAt w (xy + 1) nS)
    (hrecS : ∀ i : Nat, i < nS → w.stops (xy + 1 + (i : Int)) = some ⟨i == 0, some q⟩)
    (hPq : w.plats q = some Pq)
    (hlenq : Pq.length = TILE_SIZE * nS)
    (hmapW : W.map = (buildWorld w xy info).map)
    (hstopsW : ∀ u : Int, W.stops u =
      if u = xy + 1 then some ⟨false, some p⟩
      else if xy + 1 ≤ u ∧ u < xy + 1 + (nS : Int) then
        (w.stops u).map (fun r => { r with platform := some p })
      else if u = xy then some ⟨false, some p⟩
      else w.stops u)
    (hplatsW : ∀ a : Nat, W.plats a =
      if a = p then some ⟨Pp.length + (1 + nS) * TILE_SIZE,
        Pp.occupied_east + Pq.occupied_east, Pp.occupied_west + Pq.occupied_west⟩
      else if a = q then none
      else w.plats a)
    (hnidW : W.nextId = w.nextId)
    (hvehW : W.veh = w.veh) :
    Inv W ∧ ((∀ v ∈ w.veh xy, countable v = false) → Contig w.veh → InvOcc w → InvOcc W) := by
  have hnN1 : 1 ≤ nN := hrunN.1
  have hnS1 : 1 ≤ nS := hrunS.1
  have hstopN0 : w.stops (xy - (nN : Int)) = some ⟨true, some p⟩ := by
    have h0 := hrecN 0 (by omega)
    simpa using h0
  have hrpN : runPlat w (xy - (nN : Int)) = some p := runPlat_eq_of_stops w _ _ hstopN0
  have hstopS0 : w.stops (xy + 1) = some ⟨true, some q⟩ := by
    have h0 := hrecS 0 (by omega)
    simpa using h0
  have hrpS : runPlat w (xy + 1) = some q := runPlat_eq_of_stops w _ _ hstopS0
  have hpq : p ≠ q :=
    hinv.distinct (xy - (nN : Int)) nN (xy + 1) nS hrunN hrunS (by omega) p q hrpN hrpS
  have hDT' : ∀ t i, W.map t = some i → i.isDT = true := by
    intro t i hm
    rw [hmapW, buildWorld_map] at hm
    by_cases ht : t = xy
    · rw [if_pos ht] at hm
      cases Option.some.inj hm
      exact hDTi
    · rw [if_neg ht] at hm
      exact hinv.allDT t i hm
  have hmapW' : ∀ u : Int, u ≠ xy → W.map u = w.map u := by
    intro u hu
    rw [hmapW, buildWorld_map, if_neg hu]
  have hmapXY : W.map xy = some info := by
    rw [hmapW, buildWorld_map, if_pos rfl]
  have hbound' : ∃ lo hi : Int, ∀ t : Int, t < lo ∨ hi < t → W.map t = none := by
    obtain ⟨lo, hi, hb⟩ := hinv.bounded
    refine ⟨min lo xy, max hi xy, ?_⟩
    intro t ht
    have htxy : t ≠ xy := by
      intro hEq
      subst hEq
      rcases ht with h | h
      · exact absurd (min_le_right lo t) (not_le.mpr h)
      · exact absurd (le_max_right hi t) (not_le.mpr h)
    rw [hmapW' t htxy]
    apply hb
    rcases ht with h | h
    · exact Or.inl (lt_of_lt_of_le h (min_le_left lo xy))
    · exact Or.inr (lt_of_le_of_lt (le_max_left hi xy) h)
  have hmappedS : ∀ i : Nat, i < nS → w.map (xy + 1 + (i : Int)) ≠ none :=
    runAt_mapped w (xy + 1) nS hrunS (fun i hm => hinv.allDT _ i hm)
  have hdead' : ∀ t r, W.map t = none → W.stops t = some r → r = ⟨false, none⟩ := by
    intro t r hm hs
    have ht : t ≠ xy := by
      intro hEq
      rw [hEq, hmapXY] at hm
      exact Option.noConfusion hm
    have ht1 : t ≠ xy + 1 := by
      intro hEq
      rw [hEq, hmapW' (xy + 1) (by omega)] at hm
      exact hrunS.2.1 hm
    have ht2 : ¬ (xy + 1 ≤ t ∧ t < xy + 1 + (nS : Int)) := by
      intro hc
      have hms := hmappedS (t - (xy + 1)).toNat (by omega)
      rw [show xy + 1 + (((t - (xy + 1)).toNat : Nat) : Int) = t from by omega] at hms
      rw [hmapW' t ht] at hm
      exact hms hm
    rw [hstopsW, if_neg ht1, if_neg ht2, if_neg ht] at hs
    rw [hmapW' t ht] at hm
    exact hinv.deadRec t r hm hs
  have hcontN : IsCont W (xy - 1) xy = true := by
    rw [isCont_symm W hDT' (xy - 1) xy, isCont_congr W (buildWorld w xy info) hmapW]
    exact hnb
  have hrunW : RunAt W (xy - (nN : Int)) (nN + 1 + nS) := by
    refine ⟨by omega, ?_, ?_, ?_, ?_⟩
    · rw [hmapW' _ (by omega)]
      exact hrunN.2.1
    · intro i hi
      by_cases hc1 : i < nN - 1
      · have hl := hrunN.2.2.1 i (by omega)
        rw [isCont_congr_local w W _ _ (hmapW' _ (by omega)) (hmapW' _ (by omega))]
        exact hl
      · by_cases hc2 : i = nN - 1
        · subst hc2
          convert hcontN using 2 <;> omega
        · by_cases hc3 : i = nN
          · subst hc3
            have hgoal : IsCont W xy (xy + 1) = true := by
              rw [isCont_congr W (buildWorld w xy info) hmapW]
              exact hsb
            convert hgoal using 2 <;> push_cast <;> omega
          · have hl := hrunS.2.2.1 (i - nN - 1) (by omega)
            have hgoal : IsCont W (xy + 1 + ((i - nN - 1 : Nat) : Int))
                (xy + 1 + ((i - nN - 1 : Nat) : Int) + 1) = true := by
              rw [isCont_congr_local w W _ _ (hmapW' _ (by omega)) (hmapW' _ (by omega))]
              exact hl
            convert hgoal using 2 <;> push_cast <;> omega
    · rw [isCont_congr_local w W _ _ (hmapW' _ (by omega)) (hmapW' _ (by omega))]
      exact hrunN.2.2.2.1
    · have hl := hrunS.2.2.2.2
      have hgoal : IsCont W (xy + 1 + (nS : Int) - 1) (xy + 1 + (nS : Int)) = false := by
        rw [isCont_congr_local w W _ _ (hmapW' _ (by omega)) (hmapW' _ (by omega))]
        exact hl
      convert hgoal using 2 <;> push_cast <;> omega
  have hrecW : ∀ i : Nat, i < nN + 1 + nS →
      W.stops (xy - (nN : Int) + (i : Int)) = some ⟨i == 0, some p⟩ := by
    intro i hi
    by_cases hc1 : i < nN
    · rw [hstopsW, if_neg (by omega), if_neg (by omega), if_neg (by omega)]
      exact hrecN i hc1
    · by_cases hc2 : i = nN
      · subst hc2
        rw [show xy - (i : Int) + (i : Int) = xy from by ring, hstopsW,
          if_neg (by omega), if_neg (by omega), if_pos rfl]
        have hb2 : ((i : Nat) == 0) = false := beq_eq_false_iff_ne.mpr (by omega)
        rw [hb2]
      · by_cases hc3 : i = nN + 1
        · subst hc3
          rw [show xy - (nN : Int) + ((nN + 1 : Nat) : Int) = xy + 1 from by push_cast; ring,
            hstopsW, if_pos rfl]
          have hb2 : ((nN + 1 : Nat) == 0) = false := beq_eq_false_iff_ne.mpr (by omega)
          rw [hb2]
        · have hrec' := hrecS (i - nN - 1) (by omega)
          have hidx : xy + 1 + ((i - nN - 1 : Nat) : Int) = xy - (nN : Int) + (i : Int) := by
            omega
          rw [hidx] at hrec'
          rw [hstopsW, if_neg (by omega), if_pos (by omega), hrec']
          have hb1 : ((i - nN - 1 : Nat) == 0) = false := beq_eq_false_iff_ne.mpr (by omega)
          have hb2 : ((i : Nat) == 0) = false := beq_eq_false_iff_ne.mpr (by omega)
          rw [Option.map_some']
          rw [hb1, hb2]
  have hplatW : ∃ P, W.plats p = some P ∧ P.length = TILE_SIZE * (nN + 1 + nS) :=
    ⟨⟨Pp.length + (1 + nS) * TILE_SIZE, Pp.occupied_east + Pq.occupied_east,
       Pp.occupied_west + Pq.occupied_west⟩,
      by rw [hplatsW, if_pos rfl],
      by show Pp.length + (1 + nS) * TILE_SIZE = _; rw [hlenp]; ring⟩
  have hpfresh : p < w.nextId := hinv.freshPlat _ nN p hrunN hrpN
  have hqfresh : q < w.nextId := hinv.freshPlat _ nS q hrunS hrpS
  have hfarW : ∀ s n, RunAt W s n → s ≠ xy - (nN : Int) →
      RunAt w s n ∧
      (∀ i : Nat, i < n → W.stops (s + (i : Int)) = w.stops (s + (i : Int))) ∧
      (∀ q2, runPlat w s = some q2 → W.plats q2 = w.plats q2 ∧ q2 ≠ p) := by
    intro s n hr hne
    have hnotint : ∀ u : Int, s ≤ u → u < s + (n : Int) →
        ¬ (xy - (nN : Int) ≤ u ∧ u < xy - (nN : Int) + ((nN + 1 + nS : Nat) : Int)) := by
      intro u hu1 hu2 hc
      obtain ⟨heq, -⟩ := runAt_unique W hDT' s n (xy - (nN : Int)) (nN + 1 + nS) hr hrunW u
        hu1 hu2 hc.1 hc.2
      exact hne heq
    have hnotin : ¬ (s ≤ xy ∧ xy < s + (n : Int)) := by
      intro hc
      exact hnotint xy hc.1 hc.2 ⟨by omega, by push_cast; omega⟩
    have hw : RunAt w s n := run_transfer_to_unmapped w W xy hxy hmapW' s n hr hnotin
    refine ⟨hw, ?_, ?_⟩
    · intro i hi
      have hnot2 := hnotint (s + (i : Int)) (by omega) (by omega)
      push_cast at hnot2
      rw [hstopsW, if_neg (by omega), if_neg (by omega), if_neg (by omega)]
    · intro q2 hq2
      have hqne1 : q2 ≠ p := by
        intro hEq
        refine hinv.distinct s n (xy - (nN : Int)) nN hw hrunN ?_ q2 p hq2 hrpN hEq
        intro hEq2
        have := hr.1
        exact hnotint s (le_refl s) (by omega) ⟨le_of_eq hEq2.symm, by push_cast; omega⟩
      have hqne2 : q2 ≠ q := by
        intro hEq
        refine hinv.distinct s n (xy + 1) nS hw hrunS ?_ q2 q hq2 hrpS hEq
        intro hEq2
        have := hr.1
        exact hnotint s (le_refl s) (by omega) ⟨by omega, by push_cast; omega⟩
      exact ⟨by rw [hplatsW, if_neg hqne1, if_neg hqne2], hqne1⟩
  constructor
  · exact inv_assemble_one w W hinv hDT' hbound' hdead' (by omega) (xy - (nN : Int))
      (nN + 1 + nS) p hrunW hrecW hplatW (by omega) hfarW
  · intro hemp hcontig hocc
    have hoccW : ∀ P, W.plats p = some P → P = runRebuild W (xy - (nN : Int)) (nN + 1 + nS) := by
      intro P hP
      rw [hplatsW, if_pos rfl] at hP
      have hPv : P = ⟨Pp.length + (1 + nS) * TILE_SIZE,
          Pp.occupied_east + Pq.occupied_east, Pp.occupied_west + Pq.occupied_west⟩ :=
        (Option.some.inj hP).symm
      subst hPv
      have hrw : runRebuild W (xy - (nN : Int)) (nN + 1 + nS) =
          runRebuild w (xy - (nN : Int)) (nN + 1 + nS) :=
        runRebuild_eq_of_veh W w hvehW _ _
      have htiles : tileRange (xy - (nN : Int)) (nN + 1 + nS) =
          tileRange (xy - (nN : Int)) nN ++ (xy :: tileRange (xy + 1) nS) := by
        rw [show nN + 1 + nS = nN + (1 + nS) from by omega,
          tileRange_append nN (xy - (nN : Int)) (1 + nS),
          show xy - (nN : Int) + (nN : Int) = xy from by ring]
        congr 1
        rw [show 1 + nS = nS + 1 from by omega]
        exact tileRange_succ xy nS
      have hveh2 : vehiclesOnTiles w (tileRange (xy - (nN : Int)) (nN + 1 + nS)) =
          vehiclesOnTiles w (tileRange (xy - (nN : Int)) nN) ++
          (w.veh xy ++ vehiclesOnTiles w (tileRange (xy + 1) nS)) := by
        rw [htiles, vehiclesOnTiles_append]
        rfl
      have hdisE : ∀ v ∈ vehiclesOnTiles w (tileRange (xy + 1) nS), eastCountable v = true →
          ∀ u ∈ vehiclesOnTiles w (tileRange (xy - (nN : Int)) nN), eastCountable u = true →
          ¬ u.vid = v.vid := by
        intro v hv hfv u hu hfu hEq
        obtain ⟨tS, htS, hvS⟩ := (mem_vehiclesOnTiles w _ v).mp hv
        obtain ⟨tN, htN, huN⟩ := (mem_vehiclesOnTiles w _ u).mp hu
        rw [mem_tileRange] at htS htN
        obtain ⟨vm, hvm, hcm, -⟩ := hcontig tN tS xy (by omega) (by omega) u v huN hvS
          (countable_of_east u hfu) (countable_of_east v hfv) hEq
        rw [hemp vm hvm] at hcm
        exact Bool.noConfusion hcm
      have hdisW : ∀ v ∈ vehiclesOnTiles w (tileRange (xy + 1) nS), westCountable v = true →
          ∀ u ∈ vehiclesOnTiles w (tileRange (xy - (nN : Int)) nN), westCountable u = true →
          ¬ u.vid = v.vid := by
        intro v hv hfv u hu hfu hEq
        obtain ⟨tS, htS, hvS⟩ := (mem_vehiclesOnTiles w _ v).mp hv
        obtain ⟨tN, htN, huN⟩ := (mem_vehiclesOnTiles w _ u).mp hu
        rw [mem_tileRange] at htS htN
        obtain ⟨vm, hvm, hcm, -⟩ := hcontig tN tS xy (by omega) (by omega) u v huN hvS
          (countable_of_west u hfu) (countable_of_west v hfv) hEq
        rw [hemp vm hvm] at hcm
        exact Bool.noConfusion hcm
      have hE : sumLengths (collectVehicles w (tileRange (xy - (nN : Int)) (nN + 1 + nS))).1 =
          sumLengths (collectVehicles w (tileRange (xy - (nN : Int)) nN)).1 +
          sumLengths (collectVehicles w (tileRange (xy + 1) nS)).1 := by
        rw [collect_fst_eq, collect_fst_eq, collect_fst_eq, hveh2, ← List.append_assoc]
        exact sum_dedup_concat eastCountable _ _ _
          (fun v hv => east_false_of_nc v (hemp v hv)) hdisE
      have hW2 : sumLengths (collectVehicles w (tileRange (xy - (nN : Int)) (nN + 1 + nS))).2 =
          sumLengths (collectVehicles w (tileRange (xy - (nN : Int)) nN)).2 +
          sumLengths (collectVehicles w (tileRange (xy + 1) nS)).2 := by
        rw [collect_snd_eq, collect_snd_eq, collect_snd_eq, hveh2, ← List.append_assoc]
        exact sum_dedup_concat westCountable _ _ _
          (fun v hv => west_false_of_nc v (hemp v hv)) hdisW
      have hPp_eq : Pp = runRebuild w (xy - (nN : Int)) nN := hocc _ nN hrunN p Pp hrpN hPp
      have hPq_eq : Pq = runRebuild w (xy + 1) nS := hocc _ nS hrunS q Pq hrpS hPq
      have hlgoal : Pp.length + (1 + nS) * TILE_SIZE = TILE_SIZE * (nN + 1 + nS) := by
        rw [hlenp]
        ring
      have hegoal : Pp.occupied_east + Pq.occupied_east =
          sumLengths (collectVehicles w (tileRange (xy - (nN : Int)) (nN + 1 + nS))).1 := by
        rw [hE, hPp_eq, hPq_eq]
        rfl
      have hwgoal : Pp.occupied_west + Pq.occupied_west =
          sumLengths (collectVehicles w (tileRange (xy - (nN : Int)) (nN + 1 + nS))).2 := by
        rw [hW2, hPp_eq, hPq_eq]
        rfl
      rw [hrw]
      rw [show runRebuild w (xy - (nN : Int)) (nN + 1 + nS) =
        ⟨TILE_SIZE * (nN + 1 + nS),
         sumLengths (collectVehicles w (tileRange (xy - (nN : Int)) (nN + 1 + nS))).1,
         sumLengths (collectVehicles w (tileRange (xy - (nN : Int)) (nN + 1 + nS))).2⟩ from rfl]
      rw [hlgoal, hegoal, hwgoal]
    exact invOcc_assemble_one w W hDT' hvehW (xy - (nN : Int)) (nN + 1 + nS) p
      hrunW hrecW hoccW hfarW hocc

lemma mdt_build_preserve (w : World) (xy : Int) (info : TileInfo) (fuel : Nat) (w' : World)
    (hinv : Inv w) (hxy : w.map xy = none) (hDTi : info.isDT = true)
    (h : MakeDriveThrough (buildWorld w xy info) xy fuel = some w') :
    Inv w' ∧ w'.veh = w.veh ∧
      ((∀ v ∈ w.veh xy, countable v = false) → Contig w.veh → InvOcc w → InvOcc w') := by
  have h0 : (buildWorld w xy info).stops xy = some ⟨false, none⟩ := by
    rw [buildWorld_stops, if_pos rfl]
  cases hnb : IsCont (buildWorld w xy info) xy (xy - 1) with
  | false =>
      have hN : IsCont (buildWorld w xy info) xy (xy - 1) = true →
          ∃ r, (buildWorld w xy info).stops (xy - 1) = some r ∧ r.platform = none := by
        intro hc
        rw [hnb] at hc
        exact Bool.noConfusion hc
      cases hsb : IsCont (buildWorld w xy info) xy (xy + 1) with
      | false =>
          have hS : IsCont (buildWorld w xy info) xy (xy + 1) = true →
              ∃ r, (buildWorld w xy info).stops (xy + 1) = some r ∧ r.platform = none := by
            intro hc
            rw [hsb] at hc
            exact Bool.noConfusion hc
          have hexec := mdt_caseC (buildWorld w xy info) xy fuel ⟨false, none⟩ h0 hN hS
          rw [hexec] at h
          have hw' := Option.some.inj h
          have hmapW : w'.map = (buildWorld w xy info).map := by
            rw [← hw']
            rfl
          have hstopsW : ∀ u : Int, w'.stops u =
              if u = xy then some ⟨true, some w.nextId⟩ else w.stops u := by
            intro u
            rw [← hw']
            show (if u = xy then some ⟨true, some w.nextId⟩
              else (buildWorld w xy info).stops u) = _
            by_cases hu : u = xy
            · rw [if_pos hu, if_pos hu]
            · rw [if_neg hu, if_neg hu, buildWorld_stops, if_neg hu]
          have hplatsW : ∀ a : Nat, w'.plats a =
              if a = w.nextId then some ⟨TILE_SIZE, 0, 0⟩ else w.plats a := by
            intro a
            rw [← hw']
            show (if a = w.nextId then some ⟨0 + 1 * TILE_SIZE, 0, 0⟩
              else if a = w.nextId then some Platform.fresh else w.plats a) = _
            by_cases ha : a = w.nextId
            · rw [if_pos ha, if_pos ha]
              rfl
            · rw [if_neg ha, if_neg ha, if_neg ha]
          have hnidW : w'.nextId = w.nextId + 1 := by
            rw [← hw']
            rfl
          have hvehW : w'.veh = w.veh := by
            rw [← hw']
            rfl
          obtain ⟨hInv, hOcc⟩ := build_caseC_preserve w w' xy info hinv hxy hDTi hnb hsb
            hmapW hstopsW hplatsW hnidW hvehW
          exact ⟨hInv, hvehW, fun hemp _ hocc => hOcc hemp hocc⟩
      | true =>
          have hmS : w.map (xy + 1) ≠ none := by
            have hmr := isCont_mapped_right _ xy (xy + 1) hsb
            rw [buildWorld_map, if_neg (by omega : ¬ xy + 1 = xy)] at hmr
            exact hmr
          obtain ⟨nS, q, hnS1, hrunS, hrecS, Pq, hPq, hlenq⟩ :=
            south_run_of_cont w hinv xy hxy hmS
          have hstS : w.stops (xy + 1) = some ⟨true, some q⟩ := by
            have h1 := hrecS 0 (by omega)
            simpa using h1
          have hexec := mdt_caseB (buildWorld w xy info) xy fuel ⟨false, none⟩
            ⟨true, some q⟩ q Pq h0 hN hsb
            (by rw [buildWorld_stops, if_neg (by omega : ¬ xy + 1 = xy)]; exact hstS)
            rfl hPq
          rw [hexec] at h
          have hw' := Option.some.inj h
          have hmapW : w'.map = (buildWorld w xy info).map := by
            rw [← hw']
            rfl
          have hstopsW : ∀ u : Int, w'.stops u =
              if u = xy + 1 then some ⟨false, some q⟩
              else if u = xy then some ⟨true, some q⟩ else w.stops u := by
            intro u
            rw [← hw']
            show (if u = xy + 1 then some ⟨false, some q⟩
              else if u = xy then some ⟨true, some q⟩
              else (buildWorld w xy info).stops u) = _
            by_cases h1 : u = xy + 1
            · rw [if_pos h1, if_pos h1]
            · rw [if_neg h1, if_neg h1]
              by_cases h2 : u = xy
              · rw [if_pos h2, if_pos h2]
              · rw [if_neg h2, if_neg h2, buildWorld_stops, if_neg h2]
          have hplatsW : ∀ a : Nat, w'.plats a =
              if a = q then
                some ⟨Pq.length + 1 * TILE_SIZE, Pq.occupied_east, Pq.occupied_west⟩
              else w.plats a := by
            intro a
            rw [← hw']
            rfl
          have hnidW : w'.nextId = w.nextId := by
            rw [← hw']
            rfl
          have hvehW : w'.veh = w.veh := by
            rw [← hw']
            rfl
          obtain ⟨hInv, hOcc⟩ := build_caseB_preserve w w' xy info nS q Pq hinv hxy hDTi
            hnb hsb hrunS hrecS hPq hlenq hmapW hstopsW hplatsW hnidW hvehW
          exact ⟨hInv, hvehW, fun hemp _ hocc => hOcc hemp hocc⟩
  | true =>
      have hmN : w.map (xy - 1) ≠ none := by
        have hmr := isCont_mapped_right _ xy (xy - 1) hnb
        rw [buildWorld_map, if_neg (by omega : ¬ xy - 1 = xy)] at hmr
        exact hmr
      obtain ⟨nN, p, hnN1, hrunN, hrecN, Pp, hPp, hlenp⟩ :=
        north_run_of_cont w hinv xy hxy hmN
      have hstN : w.stops (xy - 1) = some ⟨(nN - 1 == 0 : Bool), some p⟩ := by
        have h1 := hrecN (nN - 1) (by omega)
        rw [show xy - (nN : Int) + ((nN - 1 : Nat) : Int) = xy - 1 from by omega] at h1
        exact h1
      cases hsb : IsCont (buildWorld w xy info) xy (xy + 1) with
      | false =>
          have hS : IsCont (buildWorld w xy info) xy (xy + 1) = true →
              ∃ r, (buildWorld w xy info).stops (xy + 1) = some r ∧ r.platform = none := by
            intro hc
            rw [hsb] at hc
            exact Bool.noConfusion hc
          have hexec := mdt_caseA (buildWorld w xy info) xy fuel ⟨false, none⟩
            ⟨(nN - 1 == 0 : Bool), some p⟩ p Pp h0 hnb
            (by rw [buildWorld_stops, if_neg (by omega : ¬ xy - 1 = xy)]; exact hstN)
            rfl hS hPp
          rw [hexec] at h
          have hw' := Option.some.inj h
          have hmapW : w'.map = (buildWorld w xy info).map := by
            rw [← hw']
            rfl
          have hstopsW : ∀ u : Int, w'.stops u =
              if u = xy then some ⟨false, some p⟩ else w.stops u := by
            intro u
            rw [← hw']
            show (if u = xy then some ⟨false, some p⟩
              else (buildWorld w xy info).stops u) = _
            by_cases hu : u = xy
            · rw [if_pos hu, if_pos hu]
            · rw [if_neg hu, if_neg hu, buildWorld_stops, if_neg hu]
          have hplatsW : ∀ a : Nat, w'.plats a =
              if a = p then
                some ⟨Pp.length + 1 * TILE_SIZE, Pp.occupied_east, Pp.occupied_west⟩
              else w.plats a := by
            intro a
            rw [← hw']
            rfl
          have hnidW : w'.nextId = w.nextId := by
            rw [← hw']
            rfl
          have hvehW : w'.veh = w.veh := by
            rw [← hw']
            rfl
          obtain ⟨hInv, hOcc⟩ := build_caseA_preserve w w' xy info nN p Pp hinv hxy hDTi
            hnb hsb hrunN hrecN hPp hlenp hmapW hstopsW hplatsW hnidW hvehW
          exact ⟨hInv, hvehW, fun hemp _ hocc => hOcc hemp hocc⟩
      | true =>
          have hmS : w.map (xy + 1) ≠ none := by
            have hmr := isCont_mapped_right _ xy (xy + 1) hsb
            rw [buildWorld_map, if_neg (by omega : ¬ xy + 1 = xy)] at hmr
            exact hmr
          obtain ⟨nS, q, hnS1, hrunS, hrecS, Pq, hPq, hlenq⟩ :=
            south_run_of_cont w hinv xy hxy hmS
          have hstS : w.stops (xy + 1) = some ⟨true, some q⟩ := by
            have h1 := hrecS 0 (by omega)
            simpa using h1
          have hstopN0 : w.stops (xy - (nN : Int)) = some ⟨true, some p⟩ := by
            have h1 := hrecN 0 (by omega)
            simpa using h1
          have hrpN : runPlat w (xy - (nN : Int)) = some p :=
            runPlat_eq_of_stops w _ _ hstopN0
          have hrpS : runPlat w (xy + 1) = some q := runPlat_eq_of_stops w _ _ hstS
          have hpq : p ≠ q :=
            hinv.distinct (xy - (nN : Int)) nN (xy + 1) nS hrunN hrunS (by omega) p q hrpN hrpS
          have hanchor := runAt_cont_anchor w (xy + 1) nS hrunS
            (fun i hm => hinv.allDT _ i hm)
          have hend := runAt_cont_end w (xy + 1) nS hrunS
            (fun i hm => hinv.allDT _ i hm)
          have hmapwb : ∀ u : Int, u ≠ xy → (buildWorld w xy info).map u = w.map u := by
            intro u hu
            rw [buildWorld_map, if_neg hu]
          have hcr : ∀ i : Nat, i < nS →
              IsCont (buildWorld w xy info) xy (xy + 1 + (i : Int)) = true := by
            intro i hi
            rw [← isCont_shift (buildWorld w xy info) xy (xy + 1) hsb (xy + 1 + (i : Int))]
            rw [isCont_congr_local w (buildWorld w xy info) _ _
              (hmapwb _ (by omega)) (hmapwb _ (by omega))]
            exact hanchor i hi
          have hce : IsCont (buildWorld w xy info) xy (xy + 1 + (nS : Int)) = false := by
            rw [← isCont_shift (buildWorld w xy info) xy (xy + 1) hsb (xy + 1 + (nS : Int))]
            rw [isCont_congr_local w (buildWorld w xy info) _ _
              (hmapwb _ (by omega)) (hmapwb _ (by omega))]
            exact hend
          have hrecs : ∀ i : Nat, i < nS →
              ∃ r, (buildWorld w xy info).stops (xy + 1 + (i : Int)) = some r ∧
                r.platform ≠ none := by
            intro i hi
            refine ⟨⟨i == 0, some q⟩, ?_, by simp⟩
            rw [buildWorld_stops, if_neg (by omega : ¬ xy + 1 + (i : Int) = xy)]
            exact hrecS i hi
          have hmono := mdt_mono (buildWorld w xy info) xy fuel (fuel + nS + 1) w'
            (by omega) h
          have hexec := mdt_merge (buildWorld w xy info) xy (fuel + nS + 1) ⟨false, none⟩
            ⟨(nN - 1 == 0 : Bool), some p⟩ ⟨true, some q⟩ p q Pp Pq nS h0 hnb
            (by rw [buildWorld_stops, if_neg (by omega : ¬ xy - 1 = xy)]; exact hstN)
            rfl hsb
            (by rw [buildWorld_stops, if_neg (by omega : ¬ xy + 1 = xy)]; exact hstS)
            rfl hPp hPq hpq hcr hce hrecs (by omega)
          rw [hexec] at hmono
          have hw' := Option.some.inj hmono
          have hmapW : w'.map = (buildWorld w xy info).map := by
            rw [← hw']
            rfl
          have hstopsW : ∀ u : Int, w'.stops u =
              if u = xy + 1 then some ⟨false, some p⟩
              else if xy + 1 ≤ u ∧ u < xy + 1 + (nS : Int) then
                (w.stops u).map (fun r => { r with platform := some p })
              else if u = xy then some ⟨false, some p⟩
              else w.stops u := by
            intro u
            rw [← hw']
            show (if xy + 1 ≤ u ∧ u < xy + 1 + (nS : Int) then
                ((if u = xy + 1 then some ⟨false, some q⟩
                  else if u = xy then some ⟨false, some p⟩
                  else (buildWorld w xy info).stops u).map
                    (fun r => { r with platform := some p }))
              else (if u = xy + 1 then some ⟨false, some q⟩
                else if u = xy then some ⟨false, some p⟩
                else (buildWorld w xy info).stops u)) = _
            by_cases hrange : xy + 1 ≤ u ∧ u < xy + 1 + (nS : Int)
            · rw [if_pos hrange]
              by_cases h1 : u = xy + 1
              · rw [if_pos h1, if_pos h1]
                rfl
              · rw [if_neg h1, if_neg h1, if_pos hrange,
                  if_neg (by omega : ¬ u = xy), buildWorld_stops,
                  if_neg (by omega : ¬ u = xy)]
            · rw [if_neg hrange]
              have h1 : ¬ u = xy + 1 := by omega
              rw [if_neg h1, if_neg h1, if_neg hrange]
              by_cases h2 : u = xy
              · rw [if_pos h2, if_pos h2]
              · rw [if_neg h2, if_neg h2, buildWorld_stops, if_neg h2]
          have hplatsW : ∀ a : Nat, w'.plats a =
              if a = p then some ⟨Pp.length + (1 + nS) * TILE_SIZE,
                Pp.occupied_east + Pq.occupied_east, Pp.occupied_west + Pq.occupied_west⟩
              else if a = q then none
              else w.plats a := by
            intro a
            rw [← hw']
            show (if a = p then some ⟨Pp.length + (1 + nS) * TILE_SIZE,
                Pp.occupied_east + Pq.occupied_east, Pp.occupied_west + Pq.occupied_west⟩
              else if a = q then none
              else if a = p then some ⟨Pp.length,
                Pp.occupied_east + Pq.occupied_east, Pp.occupied_west + Pq.occupied_west⟩
              else w.plats a) = _
            by_cases ha : a = p
            · simp [ha]
            · by_cases hb : a = q
              · simp [ha, hb]
              · simp [ha, hb]
          have hnidW : w'.nextId = w.nextId := by
            rw [← hw']
            rfl
          have hvehW : w'.veh = w.veh := by
            rw [← hw']
            rfl
          obtain ⟨hInv, hOcc⟩ := build_merge_preserve w w' xy info nN p Pp nS q Pq hinv hxy
            hDTi hnb hsb hrunN hrecN hPp hlenp hrunS hrecS hPq hlenq
            hmapW hstopsW hplatsW hnidW hvehW
          exact ⟨hInv, hvehW, hOcc⟩

/-! ### Preservation of the invariant by ClearDriveThrough, case by case -/

lemma tileRange_one (t : Int) : tileRange t 1 = [t] := by
  rw [show (1 : Nat) = 0 + 1 from rfl, tileRange_succ, tileRange_zero]

lemma run_around (w : World) (hinv : Inv w) (xy : Int) (r : RoadStopRec)
    (hr : w.stops xy = some r) (hp : r.platform ≠ none) :
    ∃ (n0 j0 : Nat) (p0 : Nat),
      RunAt w (xy - (j0 : Int)) n0 ∧ j0 < n0 ∧
      (∀ i : Nat, i < n0 → w.stops (xy - (j0 : Int) + (i : Int)) = some ⟨i == 0, some p0⟩) ∧
      (∃ P, w.plats p0 = some P ∧ P.length = TILE_SIZE * n0) ∧
      r = ⟨j0 == 0, some p0⟩ := by
  have hm : w.map xy ≠ none := by
    intro hm
    have hd := hinv.deadRec xy r hm hr
    rw [hd] at hp
    exact hp rfl
  obtain ⟨lo, hi, hbound⟩ := hinv.bounded
  obtain ⟨s, n, hrun, hs1, hs2⟩ := exists_runAt w hinv.allDT lo hi hbound xy hm
  obtain ⟨p, hrec, hP⟩ := hinv.runs s n hrun
  have hsx : s = xy - (((xy - s).toNat : Nat) : Int) := by omega
  refine ⟨n, (xy - s).toNat, p, by rw [← hsx]; exact hrun, by omega, ?_, hP, ?_⟩
  · intro i hi
    rw [← hsx]
    exact hrec i hi
  · have h1 := hrec (xy - s).toNat (by omega)
    rw [show s + (((xy - s).toNat : Nat) : Int) = xy from by omega] at h1
    exact Option.some.inj (hr.symm.trans h1)

lemma clear_sole_preserve (w W : World) (xy : Int) (p0 : Nat)
    (hinv : Inv w)
    (hrun0 : RunAt w xy 1)
    (hrec0 : ∀ i : Nat, i < 1 → w.stops (xy + (i : Int)) = some ⟨i == 0, some p0⟩)
    (hmapW : ∀ u : Int, W.map u = if u = xy then none else w.map u)
    (hstopsW : ∀ u : Int, W.stops u = if u = xy then some ⟨false, none⟩ else w.stops u)
    (hplatsW : ∀ a : Nat, W.plats a = if a = p0 then none else w.plats a)
    (hnidW : W.nextId = w.nextId)
    (hvehW : W.veh = w.veh) :
    Inv W ∧ (InvOcc w → InvOcc W) := by
  have hstop0 : w.stops xy = some ⟨true, some p0⟩ := by
    have h1 := hrec0 0 (by omega)
    simpa using h1
  have hrp0 : runPlat w xy = some p0 := runPlat_eq_of_stops w _ _ hstop0
  have hnbF : IsCont w xy (xy - 1) = false := hrun0.2.2.2.1
  have hsbF : IsCont w xy (xy + 1) = false := by
    have h1 := hrun0.2.2.2.2
    convert h1 using 2 <;> push_cast <;> omega
  have hmapW' : ∀ u : Int, u ≠ xy → W.map u = w.map u := by
    intro u hu
    rw [hmapW, if_neg hu]
  have hmapXY : W.map xy = none := by
    rw [hmapW, if_pos rfl]
  have hDT' : ∀ t i, W.map t = some i → i.isDT = true := by
    intro t i hm
    by_cases ht : t = xy
    · rw [ht, hmapXY] at hm
      exact Option.noConfusion hm
    · rw [hmapW' t ht] at hm
      exact hinv.allDT t i hm
  have hbound' : ∃ lo hi : Int, ∀ t : Int, t < lo ∨ hi < t → W.map t = none := by
    obtain ⟨lo, hi, hb⟩ := hinv.bounded
    refine ⟨lo, hi, ?_⟩
    intro t ht
    by_cases htx : t = xy
    · rw [htx, hmapXY]
    · rw [hmapW' t htx]
      exact hb t ht
  have hdead' : ∀ t r, W.map t = none → W.stops t = some r → r = ⟨false, none⟩ := by
    intro t r hm hs
    by_cases ht : t = xy
    · rw [hstopsW, if_pos ht] at hs
      exact (Option.some.inj hs).symm
    · rw [hstopsW, if_neg ht] at hs
      rw [hmapW' t ht] at hm
      exact hinv.deadRec t r hm hs
  have hfarW : ∀ s n, RunAt W s n →
      RunAt w s n ∧
      (∀ i : Nat, i < n → W.stops (s + (i : Int)) = w.stops (s + (i : Int))) ∧
      (∀ q, runPlat w s = some q → W.plats q = w.plats q) := by
    intro s n hr
    have hw : RunAt w s n := by
      refine run_transfer_removed w W xy hmapW' hmapXY s n hr ?_ ?_
      · intro he
        have hs2 : s = xy + 1 := by omega
        have hsym := isCont_symm w hinv.allDT s (s - 1)
        rw [hsym, he, hs2]
        exact hsbF
      · intro he
        have hsym := isCont_symm w hinv.allDT (s + (n : Int) - 1) (s + (n : Int))
        rw [hsym, he]
        convert hnbF using 2 <;> omega
    have hne : s ≠ xy := by
      intro hEq
      have := hr.2.1
      rw [hEq, hmapXY] at this
      exact this rfl
    have hnotin : ∀ i : Nat, i < n → s + (i : Int) ≠ xy := by
      intro i hi hEq
      have hmp := runAt_mapped W s n hr (fun i2 hm => hDT' s i2 hm) i hi
      rw [hEq, hmapXY] at hmp
      exact hmp rfl
    refine ⟨hw, ?_, ?_⟩
    · intro i hi
      rw [hstopsW, if_neg (hnotin i hi)]
    · intro q hq
      have hqp : q ≠ p0 := by
        intro hEq
        exact hinv.distinct s n xy 1 hw hrun0 hne q p0 hq hrp0 hEq
      rw [hplatsW, if_neg hqp]
  constructor
  · exact inv_assemble_zero w W hinv hDT' hbound' hdead' (by omega) hfarW
  · intro hocc
    exact invOcc_assemble_zero w W hvehW hfarW hocc

lemma clear_shrinkN_preserve (w W : World) (xy s0 : Int) (n0 : Nat) (p0 : Nat) (P0 : Platform)
    (hinv : Inv w)
    (hn2 : 2 ≤ n0)
    (hxy0 : xy = s0 + (n0 : Int) - 1)
    (hrun0 : RunAt w s0 n0)
    (hrec0 : ∀ i : Nat, i < n0 → w.stops (s0 + (i : Int)) = some ⟨i == 0, some p0⟩)
    (hP0 : w.plats p0 = some P0)
    (hlen0 : P0.length = TILE_SIZE * n0)
    (hmapW : ∀ u : Int, W.map u = if u = xy then none else w.map u)
    (hstopsW : ∀ u : Int, W.stops u = if u = xy then some ⟨false, none⟩ else w.stops u)
    (hplatsW : ∀ a : Nat, W.plats a =
      if a = p0 then some ⟨P0.length - TILE_SIZE, P0.occupied_east, P0.occupied_west⟩
      else w.plats a)
    (hnidW : W.nextId = w.nextId)
    (hvehW : W.veh = w.veh) :
    Inv W ∧ ((∀ v ∈ w.veh xy, countable v = false) → InvOcc w → InvOcc W) := by
  have hstop00 : w.stops s0 = some ⟨true, some p0⟩ := by
    have h1 := hrec0 0 (by omega)
    simpa using h1
  have hrp0 : runPlat w s0 = some p0 := runPlat_eq_of_stops w _ _ hstop00
  have hsbF : IsCont w xy (xy + 1) = false := by
    have h1 := hrun0.2.2.2.2
    convert h1 using 2 <;> omega
  have hmapW' : ∀ u : Int, u ≠ xy → W.map u = w.map u := by
    intro u hu
    rw [hmapW, if_neg hu]
  have hmapXY : W.map xy = none := by
    rw [hmapW, if_pos rfl]
  have hDT' : ∀ t i, W.map t = some i → i.isDT = true := by
    intro t i hm
    by_cases ht : t = xy
    · rw [ht, hmapXY] at hm
      exact Option.noConfusion hm
    · rw [hmapW' t ht] at hm
      exact hinv.allDT t i hm
  have hbound' : ∃ lo hi : Int, ∀ t : Int, t < lo ∨ hi < t → W.map t = none := by
    obtain ⟨lo, hi, hb⟩ := hinv.bounded
    refine ⟨lo, hi, ?_⟩
    intro t ht
    by_cases htx : t = xy
    · rw [htx, hmapXY]
    · rw [hmapW' t htx]
      exact hb t ht
  have hdead' : ∀ t r, W.map t = none → W.stops t = some r → r = ⟨false, none⟩ := by
    intro t r hm hs
    by_cases ht : t = xy
    · rw [hstopsW, if_pos ht] at hs
      exact (Option.some.inj hs).symm
    · rw [hstopsW, if_neg ht] at hs
      rw [hmapW' t ht] at hm
      exact hinv.deadRec t r hm hs
  have hrunW : RunAt W s0 (n0 - 1) := by
    refine ⟨by omega, ?_, ?_, ?_, ?_⟩
    · rw [hmapW' s0 (by omega)]
      exact hrun0.2.1
    · intro i hi
      have hl := hrun0.2.2.1 i (by omega)
      rw [isCont_congr_local w W _ _ (hmapW' _ (by omega)) (hmapW' _ (by omega))]
      exact hl
    · rw [isCont_congr_local w W _ _ (hmapW' _ (by omega)) (hmapW' _ (by omega))]
      exact hrun0.2.2.2.1
    · have hidx : s0 + ((n0 - 1 : Nat) : Int) = xy := by omega
      rw [hidx]
      exact isCont_false_of_unmapped_right W _ xy hmapXY
  have hrecW : ∀ i : Nat, i < n0 - 1 → W.stops (s0 + (i : Int)) = some ⟨i == 0, some p0⟩ := by
    intro i hi
    rw [hstopsW, if_neg (by omega : ¬ s0 + (i : Int) = xy)]
    exact hrec0 i (by omega)
  have hplatW : ∃ P, W.plats p0 = some P ∧ P.length = TILE_SIZE * (n0 - 1) :=
    ⟨⟨P0.length - TILE_SIZE, P0.occupied_east, P0.occupied_west⟩,
      by rw [hplatsW, if_pos rfl],
      by
        show P0.length - TILE_SIZE = _
        rw [hlen0]
        show 16 * n0 - 16 = 16 * (n0 - 1)
        omega⟩
  have hpfresh : p0 < w.nextId := hinv.freshPlat s0 n0 p0 hrun0 hrp0
  have hfarW : ∀ s n, RunAt W s n → s ≠ s0 →
      RunAt w s n ∧
      (∀ i : Nat, i < n → W.stops (s + (i : Int)) = w.stops (s + (i : Int))) ∧
      (∀ q, runPlat w s = some q → W.plats q = w.plats q ∧ q ≠ p0) := by
    intro s n hr hne
    have hnotstar : ∀ u : Int, s ≤ u → u < s + (n : Int) →
        ¬ (s0 ≤ u ∧ u < s0 + ((n0 - 1 : Nat) : Int)) := by
      intro u hu1 hu2 hc
      obtain ⟨heq, -⟩ := runAt_unique W hDT' s n s0 (n0 - 1) hr hrunW u hu1 hu2 hc.1 hc.2
      exact hne heq
    have hw : RunAt w s n := by
      refine run_transfer_removed w W xy hmapW' hmapXY s n hr ?_ ?_
      · intro he
        have hs2 : s = xy + 1 := by omega
        have hsym := isCont_symm w hinv.allDT s (s - 1)
        rw [hsym, he, hs2]
        exact hsbF
      · intro he
        exfalso
        have h1n := hr.1
        exact hnotstar (s + (n : Int) - 1) (by omega) (by omega)
          ⟨by omega, by push_cast; omega⟩
    have hnotin : ∀ i : Nat, i < n → s + (i : Int) ≠ xy := by
      intro i hi hEq
      have hmp := runAt_mapped W s n hr (fun i2 hm => hDT' s i2 hm) i hi
      rw [hEq, hmapXY] at hmp
      exact hmp rfl
    refine ⟨hw, ?_, ?_⟩
    · intro i hi
      rw [hstopsW, if_neg (hnotin i hi)]
    · intro q hq
      have hqp : q ≠ p0 := by
        intro hEq
        exact hinv.distinct s n s0 n0 hw hrun0 hne q p0 hq hrp0 hEq
      exact ⟨by rw [hplatsW, if_neg hqp], hqp⟩
  constructor
  · exact inv_assemble_one w W hinv hDT' hbound' hdead' (by omega) s0 (n0 - 1) p0
      hrunW hrecW hplatW (by omega) hfarW
  · intro hemp hocc
    have hoccW : ∀ P, W.plats p0 = some P → P = runRebuild W s0 (n0 - 1) := by
      intro P hP
      rw [hplatsW, if_pos rfl] at hP
      have hPv : P = ⟨P0.length - TILE_SIZE, P0.occupied_east, P0.occupied_west⟩ :=
        (Option.some.inj hP).symm
      subst hPv
      have hrw : runRebuild W s0 (n0 - 1) = runRebuild w s0 (n0 - 1) :=
        runRebuild_eq_of_veh W w hvehW _ _
      have htiles : tileRange s0 n0 = tileRange s0 (n0 - 1) ++ [xy] := by
        have h1 : tileRange s0 ((n0 - 1) + 1) =
            tileRange s0 (n0 - 1) ++ tileRange (s0 + ((n0 - 1 : Nat) : Int)) 1 :=
          tileRange_append (n0 - 1) s0 1
        rw [show (n0 - 1) + 1 = n0 from by omega] at h1
        rw [h1, show s0 + ((n0 - 1 : Nat) : Int) = xy from by omega, tileRange_one]
      have hveh2 : vehiclesOnTiles w (tileRange s0 n0) =
          vehiclesOnTiles w (tileRange s0 (n0 - 1)) ++ w.veh xy := by
        rw [htiles, vehiclesOnTiles_append]
        congr 1
        show w.veh xy ++ [] = w.veh xy
        rw [List.append_nil]
      have hE : (collectVehicles w (tileRange s0 n0)).1 =
          (collectVehicles w (tileRange s0 (n0 - 1))).1 := by
        rw [collect_fst_eq, collect_fst_eq, hveh2]
        exact dedup_skip_back eastCountable _ _
          (fun v hv => east_false_of_nc v (hemp v hv))
      have hW2 : (collectVehicles w (tileRange s0 n0)).2 =
          (collectVehicles w (tileRange s0 (n0 - 1))).2 := by
        rw [collect_snd_eq, collect_snd_eq, hveh2]
        exact dedup_skip_back westCountable _ _
          (fun v hv => west_false_of_nc v (hemp v hv))
      have hP0_eq : P0 = runRebuild w s0 n0 := hocc s0 n0 hrun0 p0 P0 hrp0 hP0
      have hlgoal : P0.length - TILE_SIZE = TILE_SIZE * (n0 - 1) := by
        rw [hlen0]
        show 16 * n0 - 16 = 16 * (n0 - 1)
        omega
      have hegoal : P0.occupied_east =
          sumLengths (collectVehicles w (tileRange s0 (n0 - 1))).1 := by
        rw [hP0_eq, ← hE]
        rfl
      have hwgoal : P0.occupied_west =
          sumLengths (collectVehicles w (tileRange s0 (n0 - 1))).2 := by
        rw [hP0_eq, ← hW2]
        rfl
      rw [hrw]
      rw [show runRebuild w s0 (n0 - 1) =
        ⟨TILE_SIZE * (n0 - 1),
         sumLengths (collectVehicles w (tileRange s0 (n0 - 1))).1,
         sumLengths (collectVehicles w (tileRange s0 (n0 - 1))).2⟩ from rfl]
      rw [hlgoal, hegoal, hwgoal]
    exact invOcc_assemble_one w W hDT' hvehW s0 (n0 - 1) p0
      hrunW hrecW hoccW hfarW hocc

lemma clear_shrinkS_preserve (w W : World) (xy : Int) (n0 : Nat) (p0 : Nat) (P0 : Platform)
    (hinv : Inv w)
    (hn2 : 2 ≤ n0)
    (hrun0 : RunAt w xy n0)
    (hrec0 : ∀ i : Nat, i < n0 → w.stops (xy + (i : Int)) = some ⟨i == 0, some p0⟩)
    (hP0 : w.plats p0 = some P0)
    (hlen0 : P0.length = TILE_SIZE * n0)
    (hmapW : ∀ u : Int, W.map u = if u = xy then none else w.map u)
    (hstopsW : ∀ u : Int, W.stops u =
      if u = xy then some ⟨false, none⟩
      else if u = xy + 1 then some ⟨true, some p0⟩
      else w.stops u)
    (hplatsW : ∀ a : Nat, W.plats a =
      if a = p0 then some ⟨P0.length - TILE_SIZE, P0.occupied_east, P0.occupied_west⟩
      else w.plats a)
    (hnidW : W.nextId = w.nextId)
    (hvehW : W.veh = w.veh) :
    Inv W ∧ ((∀ v ∈ w.veh xy, countable v = false) → InvOcc w → InvOcc W) := by
  have hstop00 : w.stops xy = some ⟨true, some p0⟩ := by
    have h1 := hrec0 0 (by omega)
    simpa using h1
  have hrp0 : runPlat w xy = some p0 := runPlat_eq_of_stops w _ _ hstop00
  have hnbF : IsCont w xy (xy - 1) = false := hrun0.2.2.2.1
  have hmapW' : ∀ u : Int, u ≠ xy → W.map u = w.map u := by
    intro u hu
    rw [hmapW, if_neg hu]
  have hmapXY : W.map xy = none := by
    rw [hmapW, if_pos rfl]
  have hDT' : ∀ t i, W.map t = some i → i.isDT = true := by
    intro t i hm
    by_cases ht : t = xy
    · rw [ht, hmapXY] at hm
      exact Option.noConfusion hm
    · rw [hmapW' t ht] at hm
      exact hinv.allDT t i hm
  have hbound' : ∃ lo hi : Int, ∀ t : Int, t < lo ∨ hi < t → W.map t = none := by
    obtain ⟨lo, hi, hb⟩ := hinv.bounded
    refine ⟨lo, hi, ?_⟩
    intro t ht
    by_cases htx : t = xy
    · rw [htx, hmapXY]
    · rw [hmapW' t htx]
      exact hb t ht
  have hmapped0 := runAt_mapped w xy n0 hrun0 (fun i hm => hinv.allDT _ i hm)
  have hdead' : ∀ t r, W.map t = none → W.stops t = some r → r = ⟨false, none⟩ := by
    intro t r hm hs
    by_cases ht : t = xy
    · rw [hstopsW, if_pos ht] at hs
      exact (Option.some.inj hs).symm
    · have ht1 : t ≠ xy + 1 := by
        intro hEq
        have hmp := hmapped0 1 (by omega)
        rw [show xy + ((1 : Nat) : Int) = xy + 1 from by push_cast; ring] at hmp
        rw [hEq, hmapW' (xy + 1) (by omega)] at hm
        exact hmp hm
      rw [hstopsW, if_neg ht, if_neg ht1] at hs
      rw [hmapW' t ht] at hm
      exact hinv.deadRec t r hm hs
  have hrunW : RunAt W (xy + 1) (n0 - 1) := by
    refine ⟨by omega, ?_, ?_, ?_, ?_⟩
    · rw [hmapW' (xy + 1) (by omega)]
      have hmp := hmapped0 1 (by omega)
      rw [show xy + ((1 : Nat) : Int) = xy + 1 from by push_cast; ring] at hmp
      exact hmp
    · intro i hi
      have hl := hrun0.2.2.1 (i + 1) (by omega)
      have hgoal : IsCont W (xy + ((i + 1 : Nat) : Int)) (xy + ((i + 1 : Nat) : Int) + 1) =
          true := by
        rw [isCont_congr_local w W _ _ (hmapW' _ (by push_cast; omega))
          (hmapW' _ (by push_cast; omega))]
        exact hl
      convert hgoal using 2 <;> push_cast <;> ring
    · have hfu := isCont_false_of_unmapped_right W (xy + 1) xy hmapXY
      convert hfu using 2
      omega
    · have hl := hrun0.2.2.2.2
      have hgoal : IsCont W (xy + (n0 : Int) - 1) (xy + (n0 : Int)) = false := by
        rw [isCont_congr_local w W _ _ (hmapW' _ (by omega)) (hmapW' _ (by omega))]
        exact hl
      convert hgoal using 2 <;> push_cast <;> omega
  have hrecW : ∀ i : Nat, i < n0 - 1 →
      W.stops (xy + 1 + (i : Int)) = some ⟨i == 0, some p0⟩ := by
    intro i hi
    by_cases h0 : i = 0
    · subst h0
      rw [show xy + 1 + ((0 : Nat) : Int) = xy + 1 from by push_cast; ring, hstopsW,
        if_neg (by omega), if_pos rfl]
      rfl
    · have hrec' := hrec0 (i + 1) (by omega)
      have hidx : xy + ((i + 1 : Nat) : Int) = xy + 1 + (i : Int) := by push_cast; ring
      rw [hidx] at hrec'
      rw [hstopsW, if_neg (by omega), if_neg (by omega), hrec']
      have hb1 : ((i + 1 : Nat) == 0) = false := beq_eq_false_iff_ne.mpr (by omega)
      have hb2 : ((i : Nat) == 0) = false := beq_eq_false_iff_ne.mpr (by omega)
      rw [hb1, hb2]
  have hplatW : ∃ P, W.plats p0 = some P ∧ P.length = TILE_SIZE * (n0 - 1) :=
    ⟨⟨P0.length - TILE_SIZE, P0.occupied_east, P0.occupied_west⟩,
      by rw [hplatsW, if_pos rfl],
      by
        show P0.length - TILE_SIZE = _
        rw [hlen0]
        show 16 * n0 - 16 = 16 * (n0 - 1)
        omega⟩
  have hpfresh : p0 < w.nextId := hinv.freshPlat xy n0 p0 hrun0 hrp0
  have hfarW : ∀ s n, RunAt W s n → s ≠ xy + 1 →
      RunAt w s n ∧
      (∀ i : Nat, i < n → W.stops (s + (i : Int)) = w.stops (s + (i : Int))) ∧
      (∀ q, runPlat w s = some q → W.plats q = w.plats q ∧ q ≠ p0) := by
    intro s n hr hne
    have hnotstar : ∀ u : Int, s ≤ u → u < s + (n : Int) →
        ¬ (xy + 1 ≤ u ∧ u < xy + 1 + ((n0 - 1 : Nat) : Int)) := by
      intro u hu1 hu2 hc
      obtain ⟨heq, -⟩ := runAt_unique W hDT' s n (xy + 1) (n0 - 1) hr hrunW u hu1 hu2 hc.1 hc.2
      exact hne heq
    have hw : RunAt w s n := by
      refine run_transfer_removed w W xy hmapW' hmapXY s n hr ?_ ?_
      · intro he
        exfalso
        have h1n := hr.1
        exact hnotstar s (le_refl s) (by omega) ⟨by omega, by push_cast; omega⟩
      · intro he
        have hsym := isCont_symm w hinv.allDT (s + (n : Int) - 1) (s + (n : Int))
        rw [hsym, he]
        convert hnbF using 2 <;> omega
    have hnotin : ∀ i : Nat, i < n → s + (i : Int) ≠ xy := by
      intro i hi hEq
      have hmp := runAt_mapped W s n hr (fun i2 hm => hDT' s i2 hm) i hi
      rw [hEq, hmapXY] at hmp
      exact hmp rfl
    refine ⟨hw, ?_, ?_⟩
    · intro i hi
      have hne1 : s + (i : Int) ≠ xy + 1 := by
        intro hEq
        exact hnotstar (s + (i : Int)) (by omega) (by omega) ⟨by omega, by push_cast; omega⟩
      rw [hstopsW, if_neg (hnotin i hi), if_neg hne1]
    · intro q hq
      have hsne : s ≠ xy := by
        intro hEq
        have hmp := hr.2.1
        rw [hEq, hmapXY] at hmp
        exact hmp rfl
      have hqp : q ≠ p0 := by
        intro hEq
        exact hinv.distinct s n xy n0 hw hrun0 hsne q p0 hq hrp0 hEq
      exact ⟨by rw [hplatsW, if_neg hqp], hqp⟩
  constructor
  · exact inv_assemble_one w W hinv hDT' hbound' hdead' (by omega) (xy + 1) (n0 - 1) p0
      hrunW hrecW hplatW (by omega) hfarW
  · intro hemp hocc
    have hoccW : ∀ P, W.plats p0 = some P → P = runRebuild W (xy + 1) (n0 - 1) := by
      intro P hP
      rw [hplatsW, if_pos rfl] at hP
      have hPv : P = ⟨P0.length - TILE_SIZE, P0.occupied_east, P0.occupied_west⟩ :=
        (Option.some.inj hP).symm
      subst hPv
      have hrw : runRebuild W (xy + 1) (n0 - 1) = runRebuild w (xy + 1) (n0 - 1) :=
        runRebuild_eq_of_veh W w hvehW _ _
      have htiles : tileRange xy n0 = xy :: tileRange (xy + 1) (n0 - 1) := by
        rw [show n0 = (n0 - 1) + 1 from by omega]
        exact tileRange_succ xy (n0 - 1)
      have hveh2 : vehiclesOnTiles w (tileRange xy n0) =
          w.veh xy ++ vehiclesOnTiles w (tileRange (xy + 1) (n0 - 1)) := by
        rw [htiles]
        rfl
      have hE : (collectVehicles w (tileRange xy n0)).1 =
          (collectVehicles w (tileRange (xy + 1) (n0 - 1))).1 := by
        rw [collect_fst_eq, collect_fst_eq, hveh2]
        exact dedup_skip_front eastCountable _ _
          (fun v hv => east_false_of_nc v (hemp v hv))
      have hW2 : (collectVehicles w (tileRange xy n0)).2 =
          (collectVehicles w (tileRange (xy + 1) (n0 - 1))).2 := by
        rw [collect_snd_eq, collect_snd_eq, hveh2]
        exact dedup_skip_front westCountable _ _
          (fun v hv => west_false_of_nc v (hemp v hv))
      have hP0_eq : P0 = runRebuild w xy n0 := hocc xy n0 hrun0 p0 P0 hrp0 hP0
      have hlgoal : P0.length - TILE_SIZE = TILE_SIZE * (n0 - 1) := by
        rw [hlen0]
        show 16 * n0 - 16 = 16 * (n0 - 1)
        omega
      have hegoal : P0.occupied_east =
          sumLengths (collectVehicles w (tileRange (xy + 1) (n0 - 1))).1 := by
        rw [hP0_eq, ← hE]
        rfl
      have hwgoal : P0.occupied_west =
          sumLengths (collectVehicles w (tileRange (xy + 1) (n0 - 1))).2 := by
        rw [hP0_eq, ← hW2]
        rfl
      rw [hrw]
      rw [show runRebuild w (xy + 1) (n0 - 1) =
        ⟨TILE_SIZE * (n0 - 1),
         sumLengths (collectVehicles w (tileRange (xy + 1) (n0 - 1))).1,
         sumLengths (collectVehicles w (tileRange (xy + 1) (n0 - 1))).2⟩ from rfl]
      rw [hlgoal, hegoal, hwgoal]
    exact invOcc_assemble_one w W hDT' hvehW (xy + 1) (n0 - 1) p0
      hrunW hrecW hoccW hfarW hocc

lemma clear_split_preserve (w W : World) (xy s0 : Int) (n0 j0 : Nat) (p0 : Nat) (P0 : Platform)
    (hinv : Inv w)
    (hj1 : 1 ≤ j0) (hj2 : j0 + 2 ≤ n0)
    (hs0 : s0 = xy - (j0 : Int))
    (hrun0 : RunAt w s0 n0)
    (hrec0 : ∀ i : Nat, i < n0 → w.stops (s0 + (i : Int)) = some ⟨i == 0, some p0⟩)
    (hP0 : w.plats p0 = some P0)
    (hlen0 : P0.length = TILE_SIZE * n0)
    (hmapW : ∀ u : Int, W.map u = if u = xy then none else w.map u)
    (hstopsW : ∀ u : Int, W.stops u =
      if u = xy then some ⟨false, none⟩
      else if u = xy + 1 then some ⟨true, some w.nextId⟩
      else if xy + 2 ≤ u ∧ u < xy + 2 + ((n0 - j0 - 2 : Nat) : Int) then
        (w.stops u).map (fun r => { r with platform := some w.nextId })
      else w.stops u)
    (hplatsW : ∀ a : Nat, W.plats a =
      if a = p0 then some (runRebuild w s0 j0)
      else if a = w.nextId then some (runRebuild w (xy + 1) (n0 - j0 - 1))
      else w.plats a)
    (hnidW : W.nextId = w.nextId + 1)
    (hvehW : W.veh = w.veh) :
    Inv W ∧ (InvOcc w → InvOcc W) := by
  have hstop00 : w.stops s0 = some ⟨true, some p0⟩ := by
    have h1 := hrec0 0 (by omega)
    simpa using h1
  have hrp0 : runPlat w s0 = some p0 := runPlat_eq_of_stops w _ _ hstop00
  have hmapW' : ∀ u : Int, u ≠ xy → W.map u = w.map u := by
    intro u hu
    rw [hmapW, if_neg hu]
  have hmapXY : W.map xy = none := by
    rw [hmapW, if_pos rfl]
  have hDT' : ∀ t i, W.map t = some i → i.isDT = true := by
    intro t i hm
    by_cases ht : t = xy
    · rw [ht, hmapXY] at hm
      exact Option.noConfusion hm
    · rw [hmapW' t ht] at hm
      exact hinv.allDT t i hm
  have hbound' : ∃ lo hi : Int, ∀ t : Int, t < lo ∨ hi < t → W.map t = none := by
    obtain ⟨lo, hi, hb⟩ := hinv.bounded
    refine ⟨lo, hi, ?_⟩
    intro t ht
    by_cases htx : t = xy
    · rw [htx, hmapXY]
    · rw [hmapW' t htx]
      exact hb t ht
  have hmapped0 := runAt_mapped w s0 n0 hrun0 (fun i hm => hinv.allDT _ i hm)
  have hdead' : ∀ t r, W.map t = none → W.stops t = some r → r = ⟨false, none⟩ := by
    intro t r hm hs
    by_cases ht : t = xy
    · rw [hstopsW, if_pos ht] at hs
      exact (Option.some.inj hs).symm
    · have hmw : w.map t = none := by
        rw [← hmapW' t ht]
        exact hm
      have ht1 : t ≠ xy + 1 := by
        intro hEq
        have hmp := hmapped0 (j0 + 1) (by omega)
        rw [show s0 + ((j0 + 1 : Nat) : Int) = xy + 1 from by push_cast; omega] at hmp
        rw [hEq] at hmw
        exact hmp hmw
      have ht2 : ¬ (xy + 2 ≤ t ∧ t < xy + 2 + ((n0 - j0 - 2 : Nat) : Int)) := by
        intro hc
        have hmp := hmapped0 (j0 + 2 + (t - (xy + 2)).toNat) (by omega)
        rw [show s0 + ((j0 + 2 + (t - (xy + 2)).toNat : Nat) : Int) = t from by
          push_cast; omega] at hmp
        exact hmp hmw
      rw [hstopsW, if_neg ht, if_neg ht1, if_neg ht2] at hs
      exact hinv.deadRec t r hmw hs
  have hrunW1 : RunAt W s0 j0 := by
    refine ⟨hj1, ?_, ?_, ?_, ?_⟩
    · rw [hmapW' s0 (by omega)]
      exact hrun0.2.1
    · intro i hi
      have hl := hrun0.2.2.1 i (by omega)
      rw [isCont_congr_local w W _ _ (hmapW' _ (by omega)) (hmapW' _ (by omega))]
      exact hl
    · rw [isCont_congr_local w W _ _ (hmapW' _ (by omega)) (hmapW' _ (by omega))]
      exact hrun0.2.2.2.1
    · have hidx : s0 + ((j0 : Nat) : Int) = xy := by omega
      rw [hidx]
      exact isCont_false_of_unmapped_right W _ xy hmapXY
  have hrunW2 : RunAt W (xy + 1) (n0 - j0 - 1) := by
    refine ⟨by omega, ?_, ?_, ?_, ?_⟩
    · rw [hmapW' (xy + 1) (by omega)]
      have hmp := hmapped0 (j0 + 1) (by omega)
      rw [show s0 + ((j0 + 1 : Nat) : Int) = xy + 1 from by push_cast; omega] at hmp
      exact hmp
    · intro i hi
      have hl := hrun0.2.2.1 (j0 + 1 + i) (by omega)
      have hgoal : IsCont W (s0 + ((j0 + 1 + i : Nat) : Int))
          (s0 + ((j0 + 1 + i : Nat) : Int) + 1) = true := by
        rw [isCont_congr_local w W _ _ (hmapW' _ (by push_cast; omega))
          (hmapW' _ (by push_cast; omega))]
        exact hl
      convert hgoal using 2 <;> push_cast <;> omega
    · have hfu := isCont_false_of_unmapped_right W (xy + 1) xy hmapXY
      convert hfu using 2
      omega
    · have hl := hrun0.2.2.2.2
      have hgoal : IsCont W (s0 + (n0 : Int) - 1) (s0 + (n0 : Int)) = false := by
        rw [isCont_congr_local w W _ _ (hmapW' _ (by omega)) (hmapW' _ (by omega))]
        exact hl
      convert hgoal using 2 <;> push_cast <;> omega
  have hrecW1 : ∀ i : Nat, i < j0 → W.stops (s0 + (i : Int)) = some ⟨i == 0, some p0⟩ := by
    intro i hi
    rw [hstopsW, if_neg (by omega : ¬ s0 + (i : Int) = xy),
      if_neg (by omega : ¬ s0 + (i : Int) = xy + 1),
      if_neg (by push_cast; omega)]
    exact hrec0 i (by omega)
  have hplatW1 : ∃ P, W.plats p0 = some P ∧ P.length = TILE_SIZE * j0 :=
    ⟨runRebuild w s0 j0, by rw [hplatsW, if_pos rfl], rfl⟩
  have hrecW2 : ∀ i : Nat, i < n0 - j0 - 1 →
      W.stops (xy + 1 + (i : Int)) = some ⟨i == 0, some w.nextId⟩ := by
    intro i hi
    by_cases h0 : i = 0
    · subst h0
      rw [show xy + 1 + ((0 : Nat) : Int) = xy + 1 from by push_cast; ring, hstopsW,
        if_neg (by omega), if_pos rfl]
      rfl
    · have hrec' := hrec0 (j0 + 1 + i) (by omega)
      have hidx : s0 + ((j0 + 1 + i : Nat) : Int) = xy + 1 + (i : Int) := by
        push_cast
        omega
      rw [hidx] at hrec'
      rw [hstopsW, if_neg (by omega), if_neg (by omega), if_pos (by push_cast; omega), hrec']
      rw [Option.map_some']
      have hb1 : ((j0 + 1 + i : Nat) == 0) = false := beq_eq_false_iff_ne.mpr (by omega)
      have hb2 : ((i : Nat) == 0) = false := beq_eq_false_iff_ne.mpr (by omega)
      rw [hb1, hb2]
  have hplatW2 : ∃ P, W.plats w.nextId = some P ∧ P.length = TILE_SIZE * (n0 - j0 - 1) := by
    have hp0ne : w.nextId ≠ p0 := by
      have := hinv.freshPlat s0 n0 p0 hrun0 hrp0
      omega
    exact ⟨runRebuild w (xy + 1) (n0 - j0 - 1),
      by rw [hplatsW, if_neg hp0ne, if_pos rfl], rfl⟩
  have hpfresh : p0 < w.nextId := hinv.freshPlat s0 n0 p0 hrun0 hrp0
  have hfarW : ∀ s n, RunAt W s n → s ≠ s0 → s ≠ xy + 1 →
      RunAt w s n ∧
      (∀ i : Nat, i < n → W.stops (s + (i : Int)) = w.stops (s + (i : Int))) ∧
      (∀ q, runPlat w s = some q → W.plats q = w.plats q ∧ q ≠ p0 ∧ q ≠ w.nextId) := by
    intro s n hr hne1 hne2
    have hnotstar1 : ∀ u : Int, s ≤ u → u < s + (n : Int) →
        ¬ (s0 ≤ u ∧ u < s0 + ((j0 : Nat) : Int)) := by
      intro u hu1 hu2 hc
      obtain ⟨heq, -⟩ := runAt_unique W hDT' s n s0 j0 hr hrunW1 u hu1 hu2 hc.1 hc.2
      exact hne1 heq
    have hnotstar2 : ∀ u : Int, s ≤ u → u < s + (n : Int) →
        ¬ (xy + 1 ≤ u ∧ u < xy + 1 + ((n0 - j0 - 1 : Nat) : Int)) := by
      intro u hu1 hu2 hc
      obtain ⟨heq, -⟩ := runAt_unique W hDT' s n (xy + 1) (n0 - j0 - 1) hr hrunW2 u hu1 hu2
        hc.1 hc.2
      exact hne2 heq
    have hw : RunAt w s n := by
      refine run_transfer_removed w W xy hmapW' hmapXY s n hr ?_ ?_
      · intro he
        exfalso
        have h1n := hr.1
        exact hne2 (by omega)
      · intro he
        exfalso
        have h1n := hr.1
        exact hnotstar1 (s + (n : Int) - 1) (by omega) (by omega)
          ⟨by omega, by push_cast; omega⟩
    have hnotin : ∀ i : Nat, i < n → s + (i : Int) ≠ xy := by
      intro i hi hEq
      have hmp := runAt_mapped W s n hr (fun i2 hm => hDT' s i2 hm) i hi
      rw [hEq, hmapXY] at hmp
      exact hmp rfl
    refine ⟨hw, ?_, ?_⟩
    · intro i hi
      have hn1 : s + (i : Int) ≠ xy + 1 := by
        intro hEq
        exact hnotstar2 (s + (i : Int)) (by omega) (by omega)
          ⟨by omega, by push_cast; omega⟩
      have hn2 : ¬ (xy + 2 ≤ s + (i : Int) ∧
          s + (i : Int) < xy + 2 + ((n0 - j0 - 2 : Nat) : Int)) := by
        intro hc
        exact hnotstar2 (s + (i : Int)) (by omega) (by omega)
          ⟨by omega, by push_cast; omega⟩
      rw [hstopsW, if_neg (hnotin i hi), if_neg hn1, if_neg hn2]
    · intro q hq
      have hqp : q ≠ p0 := by
        intro hEq
        exact hinv.distinct s n s0 n0 hw hrun0 hne1 q p0 hq hrp0 hEq
      have hqn : q ≠ w.nextId := by
        have := hinv.freshPlat s n q hw hq
        omega
      exact ⟨by rw [hplatsW, if_neg hqp, if_neg hqn], hqp, hqn⟩
  constructor
  · exact inv_assemble_two w W hinv hDT' hbound' hdead' (by omega)
      s0 j0 p0 (xy + 1) (n0 - j0 - 1) w.nextId
      hrunW1 hrecW1 hplatW1 (by omega)
      hrunW2 hrecW2 hplatW2 (by omega)
      (by omega) (by omega) hfarW
  · intro hocc
    have hocc1 : ∀ P, W.plats p0 = some P → P = runRebuild W s0 j0 := by
      intro P hP
      rw [hplatsW, if_pos rfl] at hP
      rw [← Option.some.inj hP]
      exact (runRebuild_eq_of_veh W w hvehW s0 j0).symm
    have hocc2 : ∀ P, W.plats w.nextId = some P → P = runRebuild W (xy + 1) (n0 - j0 - 1) := by
      intro P hP
      have hp0ne : w.nextId ≠ p0 := by omega
      rw [hplatsW, if_neg hp0ne, if_pos rfl] at hP
      rw [← Option.some.inj hP]
      exact (runRebuild_eq_of_veh W w hvehW (xy + 1) (n0 - j0 - 1)).symm
    exact invOcc_assemble_two w W hDT' hvehW
      s0 j0 p0 (xy + 1) (n0 - j0 - 1) w.nextId
      hrunW1 hrecW1 hocc1 hrunW2 hrecW2 hocc2 hfarW hocc

lemma cdt_clear_preserve (w : World) (xy : Int) (r : RoadStopRec) (fuel : Nat) (w' : World)
    (hinv : Inv w) (hr : w.stops xy = some r) (hp : r.platform ≠ none)
    (h : ClearDriveThrough w xy fuel = some w') :
    Inv w' ∧ w'.veh = w.veh ∧
      ((∀ v ∈ w.veh xy, countable v = false) → InvOcc w → InvOcc w') := by
  obtain ⟨n0, j0, p0, hrun0, hj0, hrec0, ⟨P0, hP0, hlen0⟩, hreq⟩ := run_around w hinv xy r hr hp
  have hn01 : 1 ≤ n0 := hrun0.1
  have hrplat : r.platform = some p0 := by
    rw [hreq]
  cases hnb : IsCont w xy (xy - 1) with
  | false =>
      have hj00 : j0 = 0 := by
        by_contra hj
        have hl := hrun0.2.2.1 (j0 - 1) (by omega)
        have hl2 : IsCont w (xy - 1) xy = true := by
          convert hl using 2 <;> omega
        rw [← isCont_symm w hinv.allDT xy (xy - 1), hnb] at hl2
        exact Bool.noConfusion hl2
      subst hj00
      have hrun0' : RunAt w xy n0 := by
        have := hrun0
        rw [show xy - ((0 : Nat) : Int) = xy from by push_cast; ring] at this
        exact this
      have hrec0' : ∀ i : Nat, i < n0 → w.stops (xy + (i : Int)) = some ⟨i == 0, some p0⟩ := by
        intro i hi
        have := hrec0 i hi
        rw [show xy - ((0 : Nat) : Int) + (i : Int) = xy + (i : Int) from by push_cast; ring]
          at this
        exact this
      cases hsb : IsCont w xy (xy + 1) with
      | false =>
          have hn1 : n0 = 1 := by
            by_contra hn
            have hl := hrun0'.2.2.1 0 (by omega)
            rw [show xy + ((0 : Nat) : Int) = xy from by push_cast; ring] at hl
            rw [hl] at hsb
            exact Bool.noConfusion hsb
          subst hn1
          have hexec := cdt_sole w xy fuel r p0 hr hrplat hnb hsb
          rw [hexec] at h
          have hw' := Option.some.inj h
          have hmapW : ∀ u : Int, w'.map u = if u = xy then none else w.map u := by
            intro u
            rw [← hw']
            rfl
          have hstopsW : ∀ u : Int, w'.stops u =
              if u = xy then some ⟨false, none⟩ else w.stops u := by
            intro u
            rw [← hw']
            rfl
          have hplatsW : ∀ a : Nat, w'.plats a = if a = p0 then none else w.plats a := by
            intro a
            rw [← hw']
            rfl
          have hnidW : w'.nextId = w.nextId := by
            rw [← hw']
            rfl
          have hvehW : w'.veh = w.veh := by
            rw [← hw']
            rfl
          obtain ⟨hInv, hOcc⟩ := clear_sole_preserve w w' xy p0 hinv hrun0' hrec0'
            hmapW hstopsW hplatsW hnidW hvehW
          exact ⟨hInv, hvehW, fun _ hocc => hOcc hocc⟩
      | true =>
          have hn2 : 2 ≤ n0 := by
            by_contra hn
            have hn1 : n0 = 1 := by omega
            subst hn1
            have hend := hrun0'.2.2.2.2
            rw [show xy + ((1 : Nat) : Int) - 1 = xy from by push_cast; ring,
              show xy + ((1 : Nat) : Int) = xy + 1 from by push_cast; ring] at hend
            rw [hend] at hsb
            exact Bool.noConfusion hsb
          have hstS : w.stops (xy + 1) = some ⟨false, some p0⟩ := by
            have h1 := hrec0' 1 (by omega)
            rw [show xy + ((1 : Nat) : Int) = xy + 1 from by push_cast; ring] at h1
            exact h1
          have hexec := cdt_shrinkS w xy fuel r ⟨false, some p0⟩ p0 P0 hr hnb hsb hstS rfl hP0
          rw [hexec] at h
          have hw' := Option.some.inj h
          have hmapW : ∀ u : Int, w'.map u = if u = xy then none else w.map u := by
            intro u
            rw [← hw']
            rfl
          have hstopsW : ∀ u : Int, w'.stops u =
              if u = xy then some ⟨false, none⟩
              else if u = xy + 1 then some ⟨true, some p0⟩
              else w.stops u := by
            intro u
            rw [← hw']
            rfl
          have hplatsW : ∀ a : Nat, w'.plats a =
              if a = p0 then
                some ⟨P0.length - TILE_SIZE, P0.occupied_east, P0.occupied_west⟩
              else w.plats a := by
            intro a
            rw [← hw']
            rfl
          have hnidW : w'.nextId = w.nextId := by
            rw [← hw']
            rfl
          have hvehW : w'.veh = w.veh := by
            rw [← hw']
            rfl
          obtain ⟨hInv, hOcc⟩ := clear_shrinkS_preserve w w' xy n0 p0 P0 hinv hn2 hrun0'
            hrec0' hP0 hlen0 hmapW hstopsW hplatsW hnidW hvehW
          exact ⟨hInv, hvehW, hOcc⟩
  | true =>
      have hj01 : 1 ≤ j0 := by
        by_contra hj
        have hj00 : j0 = 0 := by omega
        subst hj00
        have hstart := hrun0.2.2.2.1
        rw [show xy - ((0 : Nat) : Int) = xy from by push_cast; ring] at hstart
        rw [hstart] at hnb
        exact Bool.noConfusion hnb
      have hstN : w.stops (xy - 1) = some ⟨(j0 - 1 == 0 : Bool), some p0⟩ := by
        have h1 := hrec0 (j0 - 1) (by omega)
        rw [show xy - (j0 : Int) + ((j0 - 1 : Nat) : Int) = xy - 1 from by omega] at h1
        exact h1
      cases hsb : IsCont w xy (xy + 1) with
      | false =>
          have hjn : j0 = n0 - 1 := by
            by_contra hj
            have hl := hrun0.2.2.1 j0 (by omega)
            rw [show xy - (j0 : Int) + (j0 : Int) = xy from by ring] at hl
            rw [hl] at hsb
            exact Bool.noConfusion hsb
          have hn2 : 2 ≤ n0 := by omega
          have hexec := cdt_shrinkN w xy fuel r ⟨(j0 - 1 == 0 : Bool), some p0⟩ p0 P0
            hr hnb hstN hsb rfl hP0
          rw [hexec] at h
          have hw' := Option.some.inj h
          have hmapW : ∀ u : Int, w'.map u = if u = xy then none else w.map u := by
            intro u
            rw [← hw']
            rfl
          have hstopsW : ∀ u : Int, w'.stops u =
              if u = xy then some ⟨false, none⟩ else w.stops u := by
            intro u
            rw [← hw']
            rfl
          have hplatsW : ∀ a : Nat, w'.plats a =
              if a = p0 then
                some ⟨P0.length - TILE_SIZE, P0.occupied_east, P0.occupied_west⟩
              else w.plats a := by
            intro a
            rw [← hw']
            rfl
          have hnidW : w'.nextId = w.nextId := by
            rw [← hw']
            rfl
          have hvehW : w'.veh = w.veh := by
            rw [← hw']
            rfl
          obtain ⟨hInv, hOcc⟩ := clear_shrinkN_preserve w w' xy (xy - (j0 : Int)) n0 p0 P0
            hinv hn2 (by omega) hrun0 hrec0 hP0 hlen0 hmapW hstopsW hplatsW hnidW hvehW
          exact ⟨hInv, hvehW, hOcc⟩
      | true =>
          have hjn : j0 + 2 ≤ n0 := by
            by_contra hj
            have hjn1 : j0 = n0 - 1 := by omega
            have hend := hrun0.2.2.2.2
            rw [show xy - (j0 : Int) + (n0 : Int) - 1 = xy from by omega,
              show xy - (j0 : Int) + (n0 : Int) = xy + 1 from by omega] at hend
            rw [hend] at hsb
            exact Bool.noConfusion hsb
          have hstS : w.stops (xy + 1) = some ⟨(j0 + 1 == 0 : Bool), some p0⟩ := by
            have h1 := hrec0 (j0 + 1) (by omega)
            rw [show xy - (j0 : Int) + ((j0 + 1 : Nat) : Int) = xy + 1 from by
              push_cast; ring] at h1
            exact h1
          have hstop00 : w.stops (xy - (j0 : Int)) = some ⟨true, some p0⟩ := by
            have h1 := hrec0 0 (by omega)
            simpa using h1
          have hpair := runAt_cont_pair w (xy - (j0 : Int)) n0 hrun0 hinv.allDT
          have hmap1 : ∀ u : Int, u ≠ xy → (updMap w xy none).map u = w.map u := by
            intro u hu
            rw [updMap_map, if_neg hu]
          have hmap1xy : (updMap w xy none).map xy = none := by
            rw [updMap_map, if_pos rfl]
          have hmappedS : w.map (xy + 1) ≠ none := by
            have hmp := runAt_mapped w _ n0 hrun0 (fun i hm => hinv.allDT _ i hm) (j0 + 1)
              (by omega)
            rw [show xy - (j0 : Int) + ((j0 + 1 : Nat) : Int) = xy + 1 from by
              push_cast; ring] at hmp
            exact hmp
          have hself : IsCont (updMap w xy none) (xy + 1) (xy + 1) = true := by
            cases hmi : w.map (xy + 1) with
            | none => exact absurd hmi hmappedS
            | some iS =>
                refine isCont_self (updMap w xy none) (xy + 1) iS ?_ (hinv.allDT _ iS hmi)
                rw [hmap1 _ (by omega)]
                exact hmi
          have hcs : ∀ i : Nat, i < n0 - j0 - 2 →
              IsCont (updMap w xy none) (xy + 1) (xy + 2 + (i : Int)) = true := by
            intro i hi
            have hl := hpair (j0 + 1) (j0 + 2 + i) (by omega) (by omega)
            have hl2 : IsCont w (xy + 1) (xy + 2 + (i : Int)) = true := by
              convert hl using 2 <;> push_cast <;> omega
            rw [isCont_congr_local w (updMap w xy none) _ _ (hmap1 _ (by omega))
              (hmap1 _ (by omega))]
            exact hl2
          have hceS : IsCont (updMap w xy none) (xy + 1)
              (xy + 2 + ((n0 - j0 - 2 : Nat) : Int)) = false := by
            have hlk : IsCont w (xy + 1) (xy - (j0 : Int) + (n0 : Int) - 1) = true := by
              have hl := hpair (j0 + 1) (n0 - 1) (by omega) (by omega)
              convert hl using 2 <;> push_cast <;> omega
            have hshift := isCont_shift w (xy + 1) (xy - (j0 : Int) + (n0 : Int) - 1) hlk
              (xy - (j0 : Int) + (n0 : Int))
            have hend := hrun0.2.2.2.2
            rw [hshift] at hend
            have hend2 : IsCont w (xy + 1) (xy + 2 + ((n0 - j0 - 2 : Nat) : Int)) = false := by
              convert hend using 2 <;> push_cast <;> omega
            rw [isCont_congr_local w (updMap w xy none) _ _ (hmap1 _ (by omega))
              (hmap1 _ (by push_cast; omega))]
            exact hend2
          have hrecS : ∀ i : Nat, i < n0 - j0 - 2 →
              ∃ r2, (updMap w xy none).stops (xy + 2 + (i : Int)) = some r2 := by
            intro i hi
            refine ⟨⟨(j0 + 2 + i == 0 : Bool), some p0⟩, ?_⟩
            show w.stops (xy + 2 + (i : Int)) = _
            have h1 := hrec0 (j0 + 2 + i) (by omega)
            rw [show xy - (j0 : Int) + ((j0 + 2 + i : Nat) : Int) = xy + 2 + (i : Int) from by
              push_cast; ring] at h1
            exact h1
          have hcn : ∀ i : Nat, i < j0 →
              IsCont (updMap w xy none) (xy + 1) (xy - 1 - (i : Int)) = true := by
            intro i hi
            have hl := hpair (j0 + 1) (j0 - 1 - i) (by omega) (by omega)
            have hl2 : IsCont w (xy + 1) (xy - 1 - (i : Int)) = true := by
              convert hl using 2 <;> push_cast <;> omega
            rw [isCont_congr_local w (updMap w xy none) _ _ (hmap1 _ (by omega))
              (hmap1 _ (by omega))]
            exact hl2
          have hceN : IsCont (updMap w xy none) (xy + 1) (xy - 1 - (j0 : Int)) = false := by
            have hlk : IsCont w (xy + 1) (xy - (j0 : Int)) = true := by
              have hl := hpair (j0 + 1) 0 (by omega) (by omega)
              convert hl using 2 <;> push_cast <;> omega
            have hshift := isCont_shift w (xy + 1) (xy - (j0 : Int)) hlk
              (xy - (j0 : Int) - 1)
            have hstart := hrun0.2.2.2.1
            rw [hshift] at hstart
            have hstart2 : IsCont w (xy + 1) (xy - 1 - (j0 : Int)) = false := by
              convert hstart using 2 <;> push_cast <;> omega
            rw [isCont_congr_local w (updMap w xy none) _ _ (hmap1 _ (by omega))
              (hmap1 _ (by omega))]
            exact hstart2
          have hNB : (updMap w xy none).stops (xy - (j0 : Int)) = some ⟨true, some p0⟩ := by
            show w.stops (xy - (j0 : Int)) = _
            exact hstop00
          have hcn2 : ∀ i : Nat, i < j0 →
              IsCont (updMap w xy none) (xy - (j0 : Int))
                (xy - (j0 : Int) + (i : Int)) = true := by
            intro i hi
            have hl := hpair 0 i (by omega) (by omega)
            have hl2 : IsCont w (xy - (j0 : Int)) (xy - (j0 : Int) + (i : Int)) = true := by
              convert hl using 2 <;> push_cast <;> omega
            rw [isCont_congr_local w (updMap w xy none) _ _ (hmap1 _ (by omega))
              (hmap1 _ (by omega))]
            exact hl2
          have hceN2 : IsCont (updMap w xy none) (xy - (j0 : Int))
              (xy - (j0 : Int) + ((j0 : Nat) : Int)) = false := by
            rw [show xy - (j0 : Int) + ((j0 : Nat) : Int) = xy from by ring]
            exact isCont_false_of_unmapped_right _ _ xy hmap1xy
          have hmono := cdt_mono w xy fuel (fuel + n0 + 2) w' (by omega) h
          have hexec := cdt_split w xy (fuel + n0 + 2) r
            ⟨(j0 - 1 == 0 : Bool), some p0⟩ ⟨(j0 + 1 == 0 : Bool), some p0⟩
            ⟨true, some p0⟩ p0 (n0 - j0 - 2) j0
            hr hnb hstN hsb hstS hself hcs hceS hrecS hcn hceN hj01 hNB rfl hcn2 hceN2
            (by omega) (by omega)
          rw [hexec] at hmono
          have hw' := Option.some.inj hmono
          have hveh1 : (updMap w xy none).veh = w.veh := rfl
          have hmapW : ∀ u : Int, w'.map u = if u = xy then none else w.map u := by
            intro u
            rw [← hw']
            rfl
          have hstopsW : ∀ u : Int, w'.stops u =
              if u = xy then some ⟨false, none⟩
              else if u = xy + 1 then some ⟨true, some w.nextId⟩
              else if xy + 2 ≤ u ∧ u < xy + 2 + ((n0 - j0 - 2 : Nat) : Int) then
                (w.stops u).map (fun r2 => { r2 with platform := some w.nextId })
              else w.stops u := by
            intro u
            rw [← hw']
            show (if u = xy then some ⟨false, none⟩
              else if xy + 2 ≤ u ∧ u < xy + 2 + ((n0 - j0 - 2 : Nat) : Int) then
                ((if u = xy + 1 then some ⟨true, some w.nextId⟩ else w.stops u).map
                  (fun r2 => { r2 with platform := some w.nextId }))
              else if u = xy + 1 then some ⟨true, some w.nextId⟩
              else w.stops u) = _
            split_ifs <;> first | rfl | omega
          have hplatsW : ∀ a : Nat, w'.plats a =
              if a = p0 then some (runRebuild w (xy - (j0 : Int)) j0)
              else if a = w.nextId then some (runRebuild w (xy + 1) (n0 - j0 - 1))
              else w.plats a := by
            intro a
            rw [← hw']
            show (if a = p0 then
                some (runRebuild (updMap w xy none) (xy - (j0 : Int)) j0)
              else if a = w.nextId then
                some (runRebuild (updMap w xy none) (xy + 1) (1 + (n0 - j0 - 2)))
              else if a = w.nextId then some Platform.fresh
              else w.plats a) = _
            rw [runRebuild_eq_of_veh (updMap w xy none) w rfl (xy - (j0 : Int)) j0,
              runRebuild_eq_of_veh (updMap w xy none) w rfl (xy + 1) (1 + (n0 - j0 - 2)),
              show 1 + (n0 - j0 - 2) = n0 - j0 - 1 from by omega]
            split_ifs <;> rfl
          have hnidW : w'.nextId = w.nextId + 1 := by
            rw [← hw']
            rfl
          have hvehW : w'.veh = w.veh := by
            rw [← hw']
            rfl
          obtain ⟨hInv, hOcc⟩ := clear_split_preserve w w' xy (xy - (j0 : Int)) n0 j0 p0 P0
            hinv hj01 hjn rfl hrun0 hrec0 hP0 hlen0
            hmapW hstopsW hplatsW hnidW hvehW
          exact ⟨hInv, hvehW, fun _ hocc => hOcc hocc⟩

lemma inv_init (w : World) (h : InitState w) : Inv w := by
  refine ⟨?_, ⟨0, 0, fun t _ => h.1 t⟩, ?_, ?_, ?_, ?_⟩
  · intro t i hm
    rw [h.1 t] at hm
    exact Option.noConfusion hm
  · intro t r _ hs
    rw [h.2 t] at hs
    exact Option.noConfusion hs
  · intro s n hr
    exact absurd (h.1 s) hr.2.1
  · intro s n s' n' hr _ _ _ _ _ _
    exact absurd (h.1 s) hr.2.1
  · intro s n p hr _
    exact absurd (h.1 s) hr.2.1

lemma invOcc_init (w : World) (h : InitState w) : InvOcc w := by
  intro s n hr
  exact absurd (h.1 s) hr.2.1

lemma inv_step (a b : World) (hinv : Inv a) (hs : Step a b) :
    Inv b ∧ b.veh = a.veh := by
  cases hs with
  | build xy info fuel _ hxy hDTi h =>
      obtain ⟨hI, hV, _⟩ := mdt_build_preserve a xy info fuel _ hinv hxy hDTi h
      exact ⟨hI, hV⟩
  | clear xy r fuel _ hr hp h =>
      obtain ⟨hI, hV, _⟩ := cdt_clear_preserve a xy r fuel _ hinv hr hp h
      exact ⟨hI, hV⟩

lemma invV_step (a b : World) (hinv : Inv a) (hocc : InvOcc a) (hcon : Contig a.veh)
    (hs : StepV a b) :
    Inv b ∧ InvOcc b ∧ b.veh = a.veh := by
  cases hs with
  | build xy info fuel _ hxy hDTi hnc h =>
      obtain ⟨hI, hV, hOF⟩ := mdt_build_preserve a xy info fuel _ hinv hxy hDTi h
      exact ⟨hI, hOF hnc hcon hocc, hV⟩
  | clear xy r fuel _ hr hp hnc h =>
      obtain ⟨hI, hV, hOF⟩ := cdt_clear_preserve a xy r fuel _ hinv hr hp h
      exact ⟨hI, hOF hnc hocc, hV⟩

lemma inv_reach (w0 w : World) (h0 : InitState w0)
    (hsteps : Relation.ReflTransGen Step w0 w) : Inv w := by
  induction hsteps with
  | refl => exact inv_init w0 h0
  | tail _ hbc ih => exact (inv_step _ _ ih hbc).1

lemma invV_reach (w0 w : World) (h0 : InitState w0) (hcon : Contig w0.veh)
    (hsteps : Relation.ReflTransGen StepV w0 w) :
    Inv w ∧ InvOcc w ∧ w.veh = w0.veh := by
  induction hsteps with
  | refl => exact ⟨inv_init w0 h0, invOcc_init w0 h0, rfl⟩
  | @tail b c _ hbc ih =>
      obtain ⟨hI, hO, hV⟩ := ih
      have hconb : Contig b.veh := by
        rw [hV]
        exact hcon
      obtain ⟨hI', hO', hV'⟩ := invV_step b c hI hO hconb hbc
      exact ⟨hI', hO', by rw [hV', hV]⟩

lemma init_empty : InitState emptyWorld :=
  ⟨fun _ => rfl, fun _ => rfl⟩

lemma contig_empty : Contig emptyWorld.veh := by
  intro t1 t2 t _ _ v1 v2 hm1 _ _ _ _
  exact absurd hm1 (by simp [emptyWorld, emptyVeh])

lemma firstStop_exec : MakeDriveThrough buildW0 0 1 = some firstStopWorld :=
  mdt_caseC buildW0 0 1 ⟨false, none⟩ rfl
    (fun hc => absurd hc (by decide))
    (fun hc => absurd hc (by decide))

lemma firstStop_step : Step emptyWorld firstStopWorld :=
  Step.build emptyWorld 0 infoA 1 firstStopWorld rfl rfl firstStop_exec

lemma firstStop_stepV : StepV emptyWorld firstStopWorld :=
  StepV.build emptyWorld 0 infoA 1 firstStopWorld rfl rfl
    (fun v hv => absurd hv (by simp [emptyWorld, emptyVeh])) firstStop_exec

lemma firstStop_run : RunAt firstStopWorld 0 1 :=
  ⟨by omega, fun hc => Option.noConfusion hc,
   fun i hi => absurd hi (by omega), by decide, by decide⟩

/-- C3: after any sequence of `MakeDriveThrough` and `ClearDriveThrough`
operations — each called under its stated precondition — starting from a
state with no drive-through runs, every maximal run carries the base bit
on exactly one of its records (its northernmost tile, `i = 0`), and the
platform shared by all its records has length `TILE_SIZE` times the
number of tiles in the run. -/
theorem runs_unique_base (w0 w : World) (h0 : InitState w0)
    (hsteps : Relation.ReflTransGen Step w0 w) (s : Int) (n : Nat)
    (hrun : RunAt w s n) :
    ∃ p : Nat,
      (∀ i : Nat, i < n → w.stops (s + (i : Int)) = some ⟨i == 0, some p⟩) ∧
      ∃ P, w.plats p = some P ∧ P.length = TILE_SIZE * n :=
  (inv_reach w0 w h0 hsteps).runs s n hrun

/-- Witness for C3: building the first stop tile of the empty world
gives a one-tile run whose sole record is the base and whose platform
has length `TILE_SIZE * 1`. -/
theorem runs_unique_base_witness :
    ∃ p : Nat,
      (∀ i : Nat, i < 1 →
        firstStopWorld.stops ((0 : Int) + (i : Int)) = some ⟨i == 0, some p⟩) ∧
      ∃ P, firstStopWorld.plats p = some P ∧ P.length = TILE_SIZE * 1 :=
  runs_unique_base emptyWorld firstStopWorld init_empty
    (Relation.ReflTransGen.single firstStop_step) 0 1 firstStop_run

/-- C4: after any sequence of attach/detach operations — each called
under its stated precondition on a tile carrying no countable vehicle,
with physically contiguous vehicle placement — an independent `Rebuild`
started at a run's base tile reproduces the live platform exactly: its
length, `occupied_east` and `occupied_west` equal the incrementally
maintained values, which is precisely what `CheckIntegrity` asserts
(its flag evaluates to `true`). -/
theorem rebuild_matches_live (w0 w : World) (h0 : InitState w0)
    (hcon : Contig w0.veh) (hsteps : Relation.ReflTransGen StepV w0 w)
    (s : Int) (n fuel : Nat) (hrun : RunAt w s n) (hf : n < fuel) :
    ∃ p P, runPlat w s = some p ∧ w.plats p = some P ∧
      Platform.Rebuild w s fuel = some P ∧
      CheckIntegrityFlag w s fuel = some true := by
  obtain ⟨hI, hO, _⟩ := invV_reach w0 w h0 hcon hsteps
  obtain ⟨p, hrec, P, hP, _⟩ := hI.runs s n hrun
  have hrec0 := hrec 0 hrun.1
  rw [show s + ((0 : Nat) : Int) = s from by push_cast; ring] at hrec0
  have hplat : runPlat w s = some p := by
    rw [runPlat, hrec0]
  have hPeq : P = runRebuild w s n := hO s n hrun p P hplat hP
  have hreb : Platform.Rebuild w s fuel = some (runRebuild w s n) :=
    rebuild_eq_runRebuild w s n fuel
      (runAt_cont_anchor w s n hrun (fun i hm => hI.allDT s i hm))
      (runAt_cont_end w s n hrun (fun i hm => hI.allDT s i hm)) hf
  have hstart := hrun.2.2.2.1
  rw [hPeq] at hP
  refine ⟨p, runRebuild w s n, hplat, hP, hreb, ?_⟩
  unfold CheckIntegrityFlag
  rw [hrec0]
  simp [hP, hreb, hstart]

/-- Witness for C4: in the world with one freshly attached stop tile and
no vehicles, `Rebuild` from the base tile returns the live platform and
the `CheckIntegrity` flag is `true`. -/
theorem rebuild_matches_live_witness :
    ∃ p P, runPlat firstStopWorld 0 = some p ∧
      firstStopWorld.plats p = some P ∧
      Platform.Rebuild firstStopWorld 0 2 = some P ∧
      CheckIntegrityFlag firstStopWorld 0 2 = some true :=
  rebuild_matches_live emptyWorld firstStopWorld init_empty contig_empty
    (Relation.ReflTransGen.single firstStop_stepV) 0 1 2 firstStop_run
    (by omega)

end RoadStopModel
